import Mathlib

/-!
Verification of the persistent Height-Optimized Trie (HOT) core from
asb-authdb/persistent-hot, as a shallow embedding in Lean 4.

Machine integers are modelled as natural numbers; u32/u64 overflow is made
explicit with % 2^32 / % 2^64 at the places where the Rust code can wrap.
Byte strings are lists of naturals.  Fallible Rust functions return Option
or Except.  Each definition mirrors one Rust function of the repository,
named after it where Lean allows.
-/

namespace HotSpec

/-- Fuel-indexed loop body of count_ones; the loop halves its argument, so
any fuel at least the argument itself computes the fixpoint. -/
def popcount_go (fuel n : Nat) : Nat :=
  match fuel with
  | 0 => 0
  | fuel + 1 => if n = 0 then 0 else n % 2 + popcount_go fuel (n / 2)

/-- Number of set bits, mirroring u32/u64 count_ones. -/
def popcount (n : Nat) : Nat := popcount_go n n

theorem popcount_go_succ (fuel n : Nat) :
    popcount_go (fuel + 1) n = if n = 0 then 0 else n % 2 + popcount_go fuel (n / 2) := rfl

theorem popcount_go_congr : ∀ n f1 f2, n ≤ f1 → n ≤ f2 →
    popcount_go f1 n = popcount_go f2 n := by
  intro n
  induction n using Nat.strong_induction_on with
  | _ n ih =>
      intro f1 f2 h1 h2
      by_cases h0 : n = 0
      · subst h0
        cases f1 <;> cases f2 <;> simp [popcount_go]
      · obtain ⟨g1, rfl⟩ : ∃ g, f1 = g + 1 := ⟨f1 - 1, by omega⟩
        obtain ⟨g2, rfl⟩ : ∃ g, f2 = g + 1 := ⟨f2 - 1, by omega⟩
        rw [popcount_go_succ, popcount_go_succ, if_neg h0, if_neg h0]
        have hlt : n / 2 < n := Nat.div_lt_self (Nat.pos_of_ne_zero h0) (by omega)
        rw [ih (n / 2) hlt g1 g2 (by omega) (by omega)]

theorem popcount_rec (n : Nat) (hn : n ≠ 0) :
    popcount n = n % 2 + popcount (n / 2) := by
  obtain ⟨m, rfl⟩ : ∃ m, n = m + 1 := ⟨n - 1, by omega⟩
  show popcount_go (m + 1) (m + 1) = _
  rw [popcount_go_succ, if_neg hn]
  unfold popcount
  rw [popcount_go_congr ((m + 1) / 2) m ((m + 1) / 2) (by omega) (le_refl _)]

/-- Fuel-indexed loop body of bits.rs pext64_soft. -/
def pext64_go (fuel source mask : Nat) : Nat :=
  match fuel with
  | 0 => 0
  | fuel + 1 =>
      if mask = 0 then 0
      else
        let rest := pext64_go fuel (source / 2) (mask / 2)
        if mask % 2 = 1 then source % 2 + 2 * rest else rest

/-- Software PEXT (bits.rs pext64_soft): extract the mask-selected bits of
source, packed into the low-order bits, low mask bit first. -/
def pext64_soft (source mask : Nat) : Nat := pext64_go mask source mask

theorem pext64_go_succ (fuel source mask : Nat) :
    pext64_go (fuel + 1) source mask =
      if mask = 0 then 0
      else
        if mask % 2 = 1 then source % 2 + 2 * pext64_go fuel (source / 2) (mask / 2)
        else pext64_go fuel (source / 2) (mask / 2) := rfl

theorem pext64_go_congr : ∀ mask source f1 f2, mask ≤ f1 → mask ≤ f2 →
    pext64_go f1 source mask = pext64_go f2 source mask := by
  intro mask
  induction mask using Nat.strong_induction_on with
  | _ mask ih =>
      intro source f1 f2 h1 h2
      by_cases h0 : mask = 0
      · subst h0
        cases f1 <;> cases f2 <;> simp [pext64_go]
      · obtain ⟨g1, rfl⟩ : ∃ g, f1 = g + 1 := ⟨f1 - 1, by omega⟩
        obtain ⟨g2, rfl⟩ : ∃ g, f2 = g + 1 := ⟨f2 - 1, by omega⟩
        rw [pext64_go_succ, pext64_go_succ, if_neg h0, if_neg h0]
        have hlt : mask / 2 < mask := Nat.div_lt_self (Nat.pos_of_ne_zero h0) (by omega)
        rw [ih (mask / 2) hlt (source / 2) g1 g2 (by omega) (by omega)]

theorem pext64_soft_zero (source : Nat) : pext64_soft source 0 = 0 := rfl

theorem pext64_soft_rec (source mask : Nat) (hm : mask ≠ 0) :
    pext64_soft source mask =
      if mask % 2 = 1 then source % 2 + 2 * pext64_soft (source / 2) (mask / 2)
      else pext64_soft (source / 2) (mask / 2) := by
  obtain ⟨m, rfl⟩ : ∃ m, mask = m + 1 := ⟨mask - 1, by omega⟩
  show pext64_go (m + 1) source (m + 1) = _
  rw [pext64_go_succ, if_neg hm]
  unfold pext64_soft
  rw [pext64_go_congr ((m + 1) / 2) (source / 2) m ((m + 1) / 2) (by omega) (le_refl _)]

/-- Fuel-indexed loop body of bits.rs pdep64_soft. -/
def pdep64_go (fuel source mask : Nat) : Nat :=
  match fuel with
  | 0 => 0
  | fuel + 1 =>
      if mask = 0 then 0
      else
        if mask % 2 = 1 then source % 2 + 2 * pdep64_go fuel (source / 2) (mask / 2)
        else 2 * pdep64_go fuel source (mask / 2)

/-- Software PDEP (bits.rs pdep64_soft): deposit the low-order bits of
source into the set positions of mask. -/
def pdep64_soft (source mask : Nat) : Nat := pdep64_go mask source mask

theorem pdep64_go_succ (fuel source mask : Nat) :
    pdep64_go (fuel + 1) source mask =
      if mask = 0 then 0
      else
        if mask % 2 = 1 then source % 2 + 2 * pdep64_go fuel (source / 2) (mask / 2)
        else 2 * pdep64_go fuel source (mask / 2) := rfl

theorem pdep64_go_congr : ∀ mask source f1 f2, mask ≤ f1 → mask ≤ f2 →
    pdep64_go f1 source mask = pdep64_go f2 source mask := by
  intro mask
  induction mask using Nat.strong_induction_on with
  | _ mask ih =>
      intro source f1 f2 h1 h2
      by_cases h0 : mask = 0
      · subst h0
        cases f1 <;> cases f2 <;> simp [pdep64_go]
      · obtain ⟨g1, rfl⟩ : ∃ g, f1 = g + 1 := ⟨f1 - 1, by omega⟩
        obtain ⟨g2, rfl⟩ : ∃ g, f2 = g + 1 := ⟨f2 - 1, by omega⟩
        rw [pdep64_go_succ, pdep64_go_succ, if_neg h0, if_neg h0]
        have hlt : mask / 2 < mask := Nat.div_lt_self (Nat.pos_of_ne_zero h0) (by omega)
        rw [ih (mask / 2) hlt (source / 2) g1 g2 (by omega) (by omega),
          ih (mask / 2) hlt source g1 g2 (by omega) (by omega)]

theorem pdep64_soft_zero (source : Nat) : pdep64_soft source 0 = 0 := rfl

theorem pdep64_soft_rec (source mask : Nat) (hm : mask ≠ 0) :
    pdep64_soft source mask =
      if mask % 2 = 1 then source % 2 + 2 * pdep64_soft (source / 2) (mask / 2)
      else 2 * pdep64_soft source (mask / 2) := by
  obtain ⟨m, rfl⟩ : ∃ m, mask = m + 1 := ⟨mask - 1, by omega⟩
  show pdep64_go (m + 1) source (m + 1) = _
  rw [pdep64_go_succ, if_neg hm]
  unfold pdep64_soft
  rw [pdep64_go_congr ((m + 1) / 2) (source / 2) m ((m + 1) / 2) (by omega) (le_refl _),
    pdep64_go_congr ((m + 1) / 2) source m ((m + 1) / 2) (by omega) (le_refl _)]

/-- bits.rs pext32 (software path, identical bit semantics). -/
def pext32 (source mask : Nat) : Nat := pext64_soft source mask

/-- bits.rs pdep32 (software path, identical bit semantics). -/
def pdep32 (source mask : Nat) : Nat := pdep64_soft source mask

/-- Result of the SIMD sparse-key search (simd.rs SimdSearchResult). -/
inductive SimdSearchResult where
  | Found (index : Nat)
  | NotFound
deriving DecidableEq, Repr

/-- simd.rs simd_search_scalar: linear scan over the first len lanes,
remembering the last index whose sparse key is a subset of the dense key. -/
def simd_search_scalar (sparse_keys : List Nat) (dense_key : Nat) (len : Nat) :
    SimdSearchResult :=
  let last_match :=
    (List.range len).foldl
      (fun acc i =>
        let sparse := sparse_keys.getD i 0
        if dense_key &&& sparse = sparse then some i else acc)
      none
  match last_match with
  | some idx => SimdSearchResult.Found idx
  | none => SimdSearchResult.NotFound

/-- The 32-lane match mask built by simd_search_avx2: bit i is set iff
(dense & sparse_keys[i]) == sparse_keys[i], for all 32 lanes. -/
def avx2_match_mask (sparse_keys : List Nat) (dense_key : Nat) : Nat :=
  (List.range 32).foldl
    (fun m i =>
      let sparse := sparse_keys.getD i 0
      if dense_key &&& sparse = sparse then m ||| (1 <<< i) else m)
    0

/-- The valid-entry mask used by simd_search_avx2. -/
def valid_mask_of_len (len : Nat) : Nat :=
  if 32 ≤ len then 2 ^ 32 - 1 else 2 ^ len - 1

/-- u32::leading_zeros. -/
def leading_zeros32 (x : Nat) : Nat :=
  if x = 0 then 32 else 31 - Nat.log2 x

/-- simd.rs simd_search_avx2: per-lane compare into a 32-bit match mask,
mask to the valid lanes, and take the highest set bit. -/
def simd_search_avx2 (sparse_keys : List Nat) (dense_key : Nat) (len : Nat) :
    SimdSearchResult :=
  let match_mask := avx2_match_mask sparse_keys dense_key &&& valid_mask_of_len len
  if match_mask = 0 then SimdSearchResult.NotFound
  else SimdSearchResult.Found (31 - leading_zeros32 match_mask)

/-- simd.rs simd_search dispatches to the AVX2 kernel when available and to
the scalar fallback otherwise; the agreement theorem below shows the two
paths coincide, so the dispatch is modelled by the scalar semantics. -/
def simd_search (sparse_keys : List Nat) (dense_key : Nat) (len : Nat) :
    SimdSearchResult :=
  simd_search_scalar sparse_keys dense_key len

/-! ### Last-match characterisation of the sparse-key search -/

/-- Recursive form of the scalar last-match scan. -/
def last_match_upto (s : List Nat) (d : Nat) : Nat → Option Nat
  | 0 => none
  | n + 1 =>
      if d &&& (s.getD n 0) = s.getD n 0 then some n else last_match_upto s d n

theorem foldl_eq_last_match (s : List Nat) (d : Nat) : ∀ n,
    (List.range n).foldl
      (fun acc i =>
        let sparse := s.getD i 0
        if d &&& sparse = sparse then some i else acc)
      none = last_match_upto s d n := by
  intro n
  induction n with
  | zero => rfl
  | succ n ih =>
      rw [List.range_succ, List.foldl_append, ih]
      rfl

theorem simd_search_scalar_eq_last_match (s : List Nat) (d len : Nat) :
    simd_search_scalar s d len =
      match last_match_upto s d len with
      | some idx => SimdSearchResult.Found idx
      | none => SimdSearchResult.NotFound := by
  unfold simd_search_scalar
  rw [foldl_eq_last_match]

theorem last_match_upto_some_iff (s : List Nat) (d : Nat) : ∀ n i,
    last_match_upto s d n = some i ↔
      (i < n ∧ d &&& (s.getD i 0) = s.getD i 0 ∧
        ∀ j, i < j → j < n → d &&& (s.getD j 0) ≠ s.getD j 0) := by
  intro n
  induction n with
  | zero => intro i; simp [last_match_upto]
  | succ n ih =>
      intro i
      unfold last_match_upto
      by_cases h : d &&& (s.getD n 0) = s.getD n 0
      · simp only [h, if_pos, Option.some.injEq]
        constructor
        · rintro rfl
          refine ⟨Nat.lt_succ_self n, h, ?_⟩
          intro j hj hj2 _
          omega
        · rintro ⟨hi, _, hmax⟩
          by_contra hne
          exact hmax n (by omega) (Nat.lt_succ_self n) h
      · simp only [h, if_neg, not_false_iff]
        rw [ih i]
        constructor
        · rintro ⟨hi, hm, hmax⟩
          refine ⟨by omega, hm, ?_⟩
          intro j hj hj2
          rcases Nat.lt_succ_iff_lt_or_eq.mp hj2 with h2 | h2
          · exact hmax j hj h2
          · subst h2; exact h
        · rintro ⟨hi, hm, hmax⟩
          have hne : i ≠ n := by
            rintro rfl; exact h hm
          refine ⟨by omega, hm, ?_⟩
          intro j hj hj2
          exact hmax j hj (by omega)

theorem last_match_upto_none_iff (s : List Nat) (d : Nat) : ∀ n,
    last_match_upto s d n = none ↔
      ∀ j, j < n → d &&& (s.getD j 0) ≠ s.getD j 0 := by
  intro n
  induction n with
  | zero => simp [last_match_upto]
  | succ n ih =>
      unfold last_match_upto
      by_cases h : d &&& (s.getD n 0) = s.getD n 0
      · simp only [h, if_pos]
        constructor
        · intro hc; exact absurd hc (by simp)
        · intro hall; exact absurd h (hall n (Nat.lt_succ_self n))
      · simp only [h, if_neg, not_false_iff]
        rw [ih]
        constructor
        · intro hall j hj hj2
          rcases Nat.lt_succ_iff_lt_or_eq.mp hj with h2 | h2
          · exact hall j h2 hj2
          · subst h2; exact h hj2
        · intro hall j hj
          exact hall j (by omega)

/-- Recursive form of the AVX2 match-mask accumulation. -/
def match_mask_upto (s : List Nat) (d : Nat) : Nat → Nat
  | 0 => 0
  | n + 1 =>
      if d &&& (s.getD n 0) = s.getD n 0 then
        match_mask_upto s d n ||| (1 <<< n)
      else match_mask_upto s d n

theorem avx2_match_mask_eq (s : List Nat) (d : Nat) :
    avx2_match_mask s d = match_mask_upto s d 32 := by
  have h : ∀ n, (List.range n).foldl
      (fun m i =>
        let sparse := s.getD i 0
        if d &&& sparse = sparse then m ||| (1 <<< i) else m)
      0 = match_mask_upto s d n := by
    intro n
    induction n with
    | zero => rfl
    | succ n ih =>
        rw [List.range_succ, List.foldl_append, ih]
        rfl
  exact h 32

theorem match_mask_upto_testBit (s : List Nat) (d : Nat) : ∀ n j,
    (match_mask_upto s d n).testBit j = true ↔
      (j < n ∧ d &&& (s.getD j 0) = s.getD j 0) := by
  intro n
  induction n with
  | zero => intro j; simp [match_mask_upto]
  | succ n ih =>
      intro j
      unfold match_mask_upto
      by_cases h : d &&& (s.getD n 0) = s.getD n 0
      · simp only [h, if_pos]
        rw [Nat.testBit_lor]
        have h1 : (1 <<< n).testBit j = decide (n = j) := by
          have : (1 : Nat) <<< n = 2 ^ n := by
            rw [Nat.shiftLeft_eq, one_mul]
          rw [this, Nat.testBit_two_pow]
        rw [h1]
        rcases Nat.decEq n j with hnj | hnj
        · simp only [Bool.or_eq_true, decide_eq_true_eq]
          rw [ih j]
          constructor
          · rintro (⟨hj, hm⟩ | rfl)
            · exact ⟨by omega, hm⟩
            · exact ⟨Nat.lt_succ_self n, h⟩
          · rintro ⟨hj, hm⟩
            rcases Nat.lt_succ_iff_lt_or_eq.mp hj with h2 | h2
            · exact Or.inl ⟨h2, hm⟩
            · subst h2; exact Or.inr rfl
        · simp only [Bool.or_eq_true, decide_eq_true_eq]
          rw [ih j]
          constructor
          · rintro (⟨hj, hm⟩ | rfl)
            · exact ⟨by omega, hm⟩
            · exact ⟨Nat.lt_succ_self n, h⟩
          · rintro ⟨hj, hm⟩
            rcases Nat.lt_succ_iff_lt_or_eq.mp hj with h2 | h2
            · exact Or.inl ⟨h2, hm⟩
            · subst h2; exact Or.inr hnj.symm
      · simp only [h, if_neg, not_false_iff]
        rw [ih j]
        constructor
        · rintro ⟨hj, hm⟩; exact ⟨by omega, hm⟩
        · rintro ⟨hj, hm⟩
          rcases Nat.lt_succ_iff_lt_or_eq.mp hj with h2 | h2
          · exact ⟨h2, hm⟩
          · subst h2; exact absurd hm h

theorem valid_mask_testBit (len : Nat) (hlen : len ≤ 32) (j : Nat) :
    (valid_mask_of_len len).testBit j = true ↔ j < len := by
  unfold valid_mask_of_len
  by_cases h : 32 ≤ len
  · have hl : len = 32 := by omega
    subst hl
    rw [if_pos (le_refl 32), Nat.testBit_two_pow_sub_one]
    simp
  · rw [if_neg h, Nat.testBit_two_pow_sub_one]
    simp

/-- The masked AVX2 match word has bit j set exactly when lane j is valid and
matches. -/
theorem avx2_masked_testBit (s : List Nat) (d len : Nat) (hlen : len ≤ 32) (j : Nat) :
    (avx2_match_mask s d &&& valid_mask_of_len len).testBit j = true ↔
      (j < len ∧ d &&& (s.getD j 0) = s.getD j 0) := by
  rw [Nat.testBit_land, Bool.and_eq_true, avx2_match_mask_eq,
    match_mask_upto_testBit, valid_mask_testBit len hlen]
  constructor
  · rintro ⟨⟨h32, hm⟩, hj⟩; exact ⟨hj, hm⟩
  · rintro ⟨hj, hm⟩; exact ⟨⟨by omega, hm⟩, hj⟩

theorem simd_search_avx2_eq_scalar (s : List Nat) (d len : Nat) (hlen : len ≤ 32) :
    simd_search_avx2 s d len = simd_search_scalar s d len := by
  rw [simd_search_scalar_eq_last_match]
  unfold simd_search_avx2
  set mm := avx2_match_mask s d &&& valid_mask_of_len len with hmm
  rcases hcase : last_match_upto s d len with _ | i
  · have hnone := (last_match_upto_none_iff s d len).mp hcase
    have hzero : mm = 0 := by
      apply Nat.eq_of_testBit_eq
      intro j
      rw [Nat.zero_testBit]
      by_contra hne
      have hb : mm.testBit j = true := by
        cases hbit : mm.testBit j
        · exact absurd hbit hne
        · rfl
      rcases (avx2_masked_testBit s d len hlen j).mp hb with ⟨hj, hm⟩
      exact hnone j hj hm
    simp [hzero]
  · rcases (last_match_upto_some_iff s d len i).mp hcase with ⟨hi, hm, hmax⟩
    have hbit : mm.testBit i = true :=
      (avx2_masked_testBit s d len hlen i).mpr ⟨hi, hm⟩
    have hge : 2 ^ i ≤ mm := Nat.testBit_implies_ge hbit
    have hlt : mm < 2 ^ (i + 1) := by
      apply Nat.lt_pow_two_of_testBit
      intro j hj
      by_contra hne
      have hb : mm.testBit j = true := by
        cases hbitj : mm.testBit j
        · exact absurd hbitj hne
        · rfl
      rcases (avx2_masked_testBit s d len hlen j).mp hb with ⟨hjlen, hmj⟩
      rcases Nat.lt_or_ge i j with h2 | h2
      · exact hmax j h2 hjlen hmj
      · omega
    have hne : mm ≠ 0 := by
      intro h0
      rw [h0] at hge
      have h2 : 0 < 2 ^ i := Nat.pow_pos (by omega)
      omega
    have hlog : Nat.log2 mm = i := by
      rw [Nat.log2_eq_log_two]
      exact Nat.log_eq_of_pow_le_of_lt_pow hge hlt
    have hi31 : i ≤ 31 := by omega
    simp only [hne, if_neg, not_false_iff, leading_zeros32, hlog]
    have : 31 - (31 - i) = i := by omega
    rw [this]

/-- Claim C3: on every 32-lane u32 sparse-key array, every dense key and every
len ≤ 32, simd_search returns Found i exactly for the largest index i < len
whose sparse key is a subset of the dense key, NotFound when no such index
exists, and the AVX2 path and the scalar fallback return identical results. -/
theorem claim_C3 (sparse_keys : List Nat) (dense_key len : Nat)
    (hkeys : sparse_keys.length = 32) (hu32 : ∀ x ∈ sparse_keys, x < 2 ^ 32)
    (hlen : len ≤ 32) :
    (∀ i, simd_search sparse_keys dense_key len = SimdSearchResult.Found i ↔
      (i < len ∧
        dense_key &&& (sparse_keys.getD i 0) = sparse_keys.getD i 0 ∧
        ∀ j, i < j → j < len →
          dense_key &&& (sparse_keys.getD j 0) ≠ sparse_keys.getD j 0)) ∧
    (simd_search sparse_keys dense_key len = SimdSearchResult.NotFound ↔
      ∀ j, j < len →
        dense_key &&& (sparse_keys.getD j 0) ≠ sparse_keys.getD j 0) ∧
    simd_search_avx2 sparse_keys dense_key len =
      simd_search_scalar sparse_keys dense_key len := by
  refine ⟨?_, ?_, simd_search_avx2_eq_scalar sparse_keys dense_key len hlen⟩
  · intro i
    unfold simd_search
    rw [simd_search_scalar_eq_last_match]
    rcases hcase : last_match_upto sparse_keys dense_key len with _ | k
    · rw [last_match_upto_none_iff] at hcase
      simp only []
      constructor
      · intro h; exact absurd h (by simp)
      · rintro ⟨hi, hm, _⟩
        exact absurd hm (hcase i hi)
    · simp only [SimdSearchResult.Found.injEq]
      rw [last_match_upto_some_iff] at hcase
      constructor
      · rintro rfl; exact hcase
      · rintro ⟨hi, hm, hmax⟩
        rcases hcase with ⟨hk, hmk, hmaxk⟩
        by_contra hne
        rcases Nat.lt_or_ge k i with h2 | h2
        · exact hmaxk i h2 hi hm
        · exact hmax k (by omega) hk hmk
  · unfold simd_search
    rw [simd_search_scalar_eq_last_match]
    rcases hcase : last_match_upto sparse_keys dense_key len with _ | k
    · rw [last_match_upto_none_iff] at hcase
      constructor
      · intro _; exact hcase
      · intro _; rfl
    · rw [last_match_upto_some_iff] at hcase
      constructor
      · intro h; exact absurd h (by simp)
      · intro hall
        exact absurd hcase.2.1 (hall k hcase.1)

/-- Witness for claim C3 at a concrete input. -/
theorem claim_C3_witness :
    simd_search ([0, 1, 2] ++ List.replicate 29 0) 1 3 = SimdSearchResult.Found 1 := by
  have h := claim_C3 ([0, 1, 2] ++ List.replicate 29 0) 1 3 (by decide)
    (by decide) (by decide)
  refine (h.1 1).mpr ⟨by decide, by decide, ?_⟩
  intro j h1 h2
  interval_cases j
  decide

/-! ### Popcount and PEXT arithmetic -/

theorem popcount_zero : popcount 0 = 0 := rfl

theorem popcount_bit (r y : Nat) (hr : r < 2) :
    popcount (r + 2 * y) = r + popcount y := by
  by_cases h0 : r + 2 * y = 0
  · have hr0 : r = 0 := by omega
    have hy0 : y = 0 := by omega
    subst hr0; subst hy0
    simp [popcount_zero]
  · rw [popcount_rec _ h0]
    have h1 : (r + 2 * y) % 2 = r := by omega
    have h2 : (r + 2 * y) / 2 = y := by omega
    rw [h1, h2]

theorem popcount_pos (n : Nat) (hn : n ≠ 0) : 1 ≤ popcount n := by
  induction n using Nat.strong_induction_on with
  | _ n ih =>
      rw [popcount_rec n hn]
      by_cases h : n % 2 = 1
      · omega
      · have h2 : n / 2 ≠ 0 := by omega
        have := ih (n / 2) (Nat.div_lt_self (Nat.pos_of_ne_zero hn) (by omega)) h2
        omega

theorem mod_two_pow_succ (x k : Nat) :
    x % 2 ^ (k + 1) = x % 2 + 2 * (x / 2 % 2 ^ k) := by
  have hm : (0:Nat) < 2 ^ k := Nat.pos_pow_of_pos k (by omega)
  have h2 : (2:Nat) ^ (k + 1) = 2 * 2 ^ k := by ring
  have hx : x = 2 * (x / 2) + x % 2 := by omega
  rw [h2]
  conv_lhs => rw [hx]
  rw [Nat.add_mod, Nat.mul_mod_mul_left]
  have hr : x % 2 % (2 * 2 ^ k) = x % 2 := Nat.mod_eq_of_lt (by omega)
  rw [hr]
  have hlt : 2 * (x / 2 % 2 ^ k) + x % 2 < 2 * 2 ^ k := by
    have := Nat.mod_lt (x / 2) hm
    omega
  rw [Nat.mod_eq_of_lt hlt]
  omega

theorem popcount_split (k : Nat) : ∀ x,
    popcount x = popcount (x % 2 ^ k) + popcount (x / 2 ^ k) := by
  induction k with
  | zero =>
      intro x
      simp [Nat.mod_one, Nat.div_one, popcount_zero]
  | succ k ih =>
      intro x
      by_cases h0 : x = 0
      · subst h0; simp [popcount_zero]
      · have hx : popcount x = x % 2 + popcount (x / 2) :=
          popcount_rec x h0
        rw [hx, ih (x / 2), mod_two_pow_succ, popcount_bit _ _ (by omega)]
        have hd : x / 2 ^ (k + 1) = x / 2 / 2 ^ k := by
          rw [Nat.div_div_eq_div_mul]
          congr 1
          ring
        rw [hd]
        omega

theorem popcount_land_ones_lt (x p : Nat) (hx : x.testBit p = true) :
    popcount (x &&& (2 ^ p - 1)) < popcount x := by
  rw [Nat.and_pow_two_sub_one_eq_mod]
  have hsplit := popcount_split p x
  have hdiv : x / 2 ^ p ≠ 0 := by
    rw [Nat.testBit_to_div_mod, decide_eq_true_eq] at hx
    omega
  have := popcount_pos _ hdiv
  omega

/-- Core PEXT property: the extracted word carries the source bit p at the
packed position given by the number of mask bits below p. -/
theorem pext64_soft_testBit (p : Nat) : ∀ mask source, mask.testBit p = true →
    (pext64_soft source mask).testBit (popcount (mask &&& (2 ^ p - 1))) =
      source.testBit p := by
  induction p with
  | zero =>
      intro mask source hbit
      rw [Nat.testBit_zero, decide_eq_true_eq] at hbit
      have hm0 : mask ≠ 0 := by omega
      have hlow : mask &&& (2 ^ 0 - 1) = 0 := by
        rw [Nat.and_pow_two_sub_one_eq_mod]
        omega
      rw [hlow, popcount_zero]
      rw [pext64_soft_rec _ _ hm0, if_pos hbit]
      rw [Nat.testBit_zero, Nat.testBit_zero]
      have : (source % 2 + 2 * pext64_soft (source / 2) (mask / 2)) % 2 = source % 2 := by
        omega
      rw [this]
  | succ p ih =>
      intro mask source hbit
      have hb2 : (mask / 2).testBit p = true := by
        rw [← Nat.testBit_succ]
        exact hbit
      have hm0 : mask ≠ 0 := by
        intro h; rw [h] at hbit; simp [Nat.zero_testBit] at hbit
      have hcount : popcount (mask &&& (2 ^ (p + 1) - 1)) =
          mask % 2 + popcount (mask / 2 &&& (2 ^ p - 1)) := by
        rw [Nat.and_pow_two_sub_one_eq_mod, Nat.and_pow_two_sub_one_eq_mod,
          mod_two_pow_succ, popcount_bit _ _ (by omega)]
      have hsrc : source.testBit (p + 1) = (source / 2).testBit p := Nat.testBit_succ source p
      rw [pext64_soft_rec _ _ hm0]
      by_cases hodd : mask % 2 = 1
      · rw [if_pos hodd, hcount, hodd, hsrc]
        set k := popcount (mask / 2 &&& (2 ^ p - 1)) with hk
        have hpos : 1 + k = k + 1 := by omega
        rw [hpos, Nat.testBit_succ]
        have hdiv : (source % 2 + 2 * pext64_soft (source / 2) (mask / 2)) / 2 =
            pext64_soft (source / 2) (mask / 2) := by omega
        rw [hdiv]
        exact ih (mask / 2) (source / 2) hb2
      · rw [if_neg hodd, hcount, hsrc]
        have hz : mask % 2 = 0 := by omega
        rw [hz, Nat.zero_add]
        exact ih (mask / 2) (source / 2) hb2

theorem land_two_pow (x p : Nat) :
    x &&& 2 ^ p = if x.testBit p then 2 ^ p else 0 := by
  by_cases h : x.testBit p
  · rw [if_pos h]
    apply Nat.eq_of_testBit_eq
    intro j
    rw [Nat.testBit_land, Nat.testBit_two_pow]
    by_cases hj : p = j
    · subst hj
      simp [h]
    · simp [hj]
  · rw [if_neg h]
    apply Nat.eq_of_testBit_eq
    intro j
    rw [Nat.testBit_land, Nat.testBit_two_pow, Nat.zero_testBit]
    by_cases hj : p = j
    · subst hj
      simp [h]
    · simp [hj]

theorem lor_lt_two_pow {a b n : Nat} (ha : a < 2 ^ n) (hb : b < 2 ^ n) :
    a ||| b < 2 ^ n := by
  apply Nat.lt_pow_two_of_testBit
  intro j hj
  have hle : (2:Nat) ^ n ≤ 2 ^ j := Nat.pow_le_pow_right (by omega) hj
  rw [Nat.testBit_lor, Nat.testBit_lt_two_pow (lt_of_lt_of_le ha hle),
    Nat.testBit_lt_two_pow (lt_of_lt_of_le hb hle)]
  rfl

theorem pext64_soft_lt (source mask : Nat) :
    pext64_soft source mask < 2 ^ popcount mask := by
  induction mask using Nat.strong_induction_on generalizing source with
  | _ mask ih =>
      by_cases h0 : mask = 0
      · subst h0
        simp [pext64_soft_zero, popcount_zero]
      · have hlt : mask / 2 < mask := Nat.div_lt_self (Nat.pos_of_ne_zero h0) (by omega)
        have hrec := ih (mask / 2) hlt (source / 2)
        rw [pext64_soft_rec _ _ h0, popcount_rec _ h0]
        by_cases hodd : mask % 2 = 1
        · rw [if_pos hodd, hodd]
          have : (2:Nat) ^ (1 + popcount (mask / 2)) = 2 * 2 ^ popcount (mask / 2) := by
            ring
          rw [this]
          omega
        · have hz : mask % 2 = 0 := by omega
          rw [if_neg hodd, hz, Nat.zero_add]
          exact hrec

/-! ### Dense partial-key extraction (node/search.rs, node/bitmask.rs) -/

/-- node/utils.rs extract_bit: MSB-first bit of a byte string; bit 0 is the
most significant bit of byte 0; positions beyond the key read as 0. -/
def extract_bit (key : List Nat) (bit_pos : Nat) : Bool :=
  let byte_idx := bit_pos / 8
  let bit_idx := 7 - bit_pos % 8
  if key.length ≤ byte_idx then false
  else (key.getD byte_idx 0).testBit bit_idx

/-- u64::from_be_bytes over a big-endian byte slice. -/
def be_bytes_to_u64 (bytes : List Nat) : Nat :=
  bytes.foldl (fun acc b => acc * 256 + b) 0

/-- node/core.rs span(): total popcount of the extraction masks. -/
def span_of_masks (masks : List Nat) : Nat := (masks.map popcount).sum

/-- One chunk step of extract_dense_partial_key: skip zero masks, otherwise
PEXT the big-endian u64 chunk, truncate to u32 as in the Rust cast, and OR
it in above the bits gathered so far. -/
def extract_dense_step (masks key : List Nat) (acc : Nat × Nat) (i : Nat) :
    Nat × Nat :=
  let mask := masks.getD i 0
  if mask = 0 then acc
  else
    let key_chunk := be_bytes_to_u64 ((key.drop (i * 8)).take 8)
    let extracted := pext64_soft key_chunk mask
    let bits_count := popcount mask
    (acc.1 ||| ((extracted % 2 ^ 32) <<< acc.2), acc.2 + bits_count)

/-- node/search.rs PersistentHOTNode::extract_dense_partial_key. -/
def extract_dense_partial_key (masks key : List Nat) : Nat :=
  ((List.range 4).foldl (extract_dense_step masks key) (0, 0)).1

/-- node/bitmask.rs PersistentHOTNode::get_mask_for_bit: the single sparse-key
bit representing key bit `bit`, or 0 when the bit is not discriminative. -/
def get_mask_for_bit (masks : List Nat) (bit : Nat) : Nat :=
  let chunk := bit / 64
  let bit_in_chunk := bit % 64
  let u64_bit_pos := 63 - bit_in_chunk
  if 4 ≤ chunk then 0
  else
    let mask := masks.getD chunk 0
    let single_bit := 1 <<< u64_bit_pos
    if mask &&& single_bit = 0 then 0
    else
      let offset := ((masks.take chunk).map popcount).sum
      let bits_before := popcount (mask &&& (single_bit - 1))
      1 <<< (offset + bits_before)

/-- Prefix sums of the per-chunk popcounts: the dense-key offset at which
chunk n starts depositing its extracted bits. -/
def dense_off (masks : List Nat) : Nat → Nat
  | 0 => 0
  | n + 1 => dense_off masks n + popcount (masks.getD n 0)

theorem dense_off_succ (masks : List Nat) (n : Nat) :
    dense_off masks (n + 1) = dense_off masks n + popcount (masks.getD n 0) := rfl

theorem dense_off_mono (masks : List Nat) {a b : Nat} (h : a ≤ b) :
    dense_off masks a ≤ dense_off masks b := by
  induction b with
  | zero =>
      have ha : a = 0 := by omega
      subst ha; exact le_refl _
  | succ b ih =>
      rcases Nat.lt_succ_iff_lt_or_eq.mp (Nat.lt_succ_of_le h) with h2 | h2
      · calc dense_off masks a ≤ dense_off masks b := ih (by omega)
          _ ≤ dense_off masks (b + 1) := by rw [dense_off_succ]; omega
      · subst h2; exact le_refl _

theorem take_map_sum_eq_dense_off (masks : List Nat) : ∀ n, n ≤ masks.length →
    ((masks.take n).map popcount).sum = dense_off masks n := by
  intro n
  induction n with
  | zero => intro _; rfl
  | succ n ih =>
      intro h
      have hn : n < masks.length := by omega
      rw [List.take_succ]
      have hsome : masks[n]? = some (masks.getD n 0) := by
        rw [List.getD_eq_getElem?_getD]
        rcases hx : masks[n]? with _ | v
        · rw [List.getElem?_eq_none_iff] at hx
          omega
        · rfl
      rw [hsome]
      simp only [Option.toList_some, List.map_append, List.sum_append,
        List.map_cons, List.map_nil, List.sum_cons, List.sum_nil]
      rw [ih (by omega), dense_off_succ]
      omega

theorem dense_off_four_eq_span (masks : List Nat) (h4 : masks.length = 4) :
    dense_off masks 4 = span_of_masks masks := by
  rw [← take_map_sum_eq_dense_off masks 4 (by omega)]
  rw [List.take_of_length_le (by omega)]
  rfl

theorem be_foldl_testBit_high (bs : List Nat) (hb : ∀ x ∈ bs, x < 256) :
    ∀ acc t, (bs.foldl (fun a b => a * 256 + b) acc).testBit (8 * bs.length + t) =
      acc.testBit t := by
  induction bs with
  | nil => intro acc t; simp
  | cons b bs ih =>
      intro acc t
      have hb2 : ∀ x ∈ bs, x < 256 := fun x hx => hb x (List.mem_cons_of_mem b hx)
      have hbyte : b < 256 := hb b (List.mem_cons_self b bs)
      simp only [List.foldl_cons, List.length_cons]
      have hpos : 8 * (bs.length + 1) + t = 8 * bs.length + (8 + t) := by ring
      rw [hpos, ih (hb2) (acc * 256 + b) (8 + t)]
      have hform : acc * 256 + b = 2 ^ 8 * acc + b := by ring
      rw [hform, Nat.testBit_mul_pow_two_add acc (by omega) (8 + t)]
      have : ¬ (8 + t < 8) := by omega
      rw [if_neg this]
      congr 1
      omega

theorem be_foldl_testBit_byte (bs : List Nat) (hb : ∀ x ∈ bs, x < 256) :
    ∀ acc l t, l < bs.length → t < 8 →
      (bs.foldl (fun a b => a * 256 + b) acc).testBit (8 * (bs.length - 1 - l) + t) =
        (bs.getD l 0).testBit t := by
  induction bs with
  | nil => intro acc l t hl _; simp at hl
  | cons b bs ih =>
      intro acc l t hl ht
      have hb2 : ∀ x ∈ bs, x < 256 := fun x hx => hb x (List.mem_cons_of_mem b hx)
      have hbyte : b < 256 := hb b (List.mem_cons_self b bs)
      simp only [List.foldl_cons, List.length_cons]
      cases l with
      | zero =>
          have hpos : bs.length + 1 - 1 - 0 = bs.length := by omega
          rw [hpos, be_foldl_testBit_high bs hb2 (acc * 256 + b) t]
          have hform : acc * 256 + b = 2 ^ 8 * acc + b := by ring
          rw [hform, Nat.testBit_mul_pow_two_add acc (by omega) t, if_pos ht]
          rfl
      | succ l =>
          have hl2 : l < bs.length := by simp at hl; omega
          have hpos : bs.length + 1 - 1 - (l + 1) = bs.length - 1 - l := by omega
          rw [hpos, ih hb2 (acc * 256 + b) l t hl2 ht]
          rfl

theorem getD_drop_take (key : List Nat) (m l : Nat) (hl : l < 8)
    (hlen : m + l < key.length) :
    ((key.drop m).take 8).getD l 0 = key.getD (m + l) 0 := by
  rw [List.getD_eq_getElem?_getD, List.getD_eq_getElem?_getD,
    List.getElem?_take, if_pos hl, List.getElem?_drop]

/-- Behaviour of the four-chunk extraction fold: the second component tracks
the bit offset, the gathered word stays below it, and each chunk deposits its
PEXT-extracted bits at its own offset. -/
theorem extract_dense_fold_spec (masks key : List Nat)
    (h4 : masks.length = 4) (hspan : span_of_masks masks ≤ 32) :
    ∀ n, n ≤ 4 →
      ((List.range n).foldl (extract_dense_step masks key) (0, 0)).2 =
          dense_off masks n ∧
      ((List.range n).foldl (extract_dense_step masks key) (0, 0)).1 <
          2 ^ dense_off masks n ∧
      ∀ c, c < n → ∀ j, j < popcount (masks.getD c 0) →
        (((List.range n).foldl (extract_dense_step masks key) (0, 0)).1).testBit
            (dense_off masks c + j) =
          (pext64_soft (be_bytes_to_u64 ((key.drop (c * 8)).take 8))
              (masks.getD c 0)).testBit j := by
  intro n
  induction n with
  | zero =>
      intro _
      refine ⟨rfl, by simp [dense_off], ?_⟩
      intro c hc
      omega
  | succ n ih =>
      intro hn4
      obtain ⟨ih2, ihlt, ihbit⟩ := ih (by omega)
      rw [List.range_succ, List.foldl_append]
      set st := (List.range n).foldl (extract_dense_step masks key) (0, 0) with hst
      simp only [List.foldl_cons, List.foldl_nil]
      have hoff_le : ∀ m, m ≤ 4 → dense_off masks m ≤ 32 := by
        intro m hm
        calc dense_off masks m ≤ dense_off masks 4 := dense_off_mono masks hm
          _ = span_of_masks masks := dense_off_four_eq_span masks h4
          _ ≤ 32 := hspan
      unfold extract_dense_step
      by_cases hmz : masks.getD n 0 = 0
      · rw [if_pos hmz]
        have hod : dense_off masks (n + 1) = dense_off masks n := by
          rw [dense_off_succ, hmz, popcount_zero]
          omega
        refine ⟨by rw [hod]; exact ih2, by rw [hod]; exact ihlt, ?_⟩
        intro c hc j hj
        rcases Nat.lt_succ_iff_lt_or_eq.mp hc with h2 | h2
        · exact ihbit c h2 j hj
        · subst h2
          rw [hmz, popcount_zero] at hj
          omega
      · rw [if_neg hmz]
        simp only []
        set E := pext64_soft (be_bytes_to_u64 ((key.drop (n * 8)).take 8))
            (masks.getD n 0) with hE
        have hpc_le : popcount (masks.getD n 0) ≤ 32 := by
          have h1 := hoff_le (n + 1) hn4
          rw [dense_off_succ] at h1
          omega
        have hEsmall : E % 2 ^ 32 = E := by
          apply Nat.mod_eq_of_lt
          calc E < 2 ^ popcount (masks.getD n 0) := pext64_soft_lt _ _
            _ ≤ 2 ^ 32 := Nat.pow_le_pow_right (by omega) hpc_le
        have hElt : E < 2 ^ popcount (masks.getD n 0) := pext64_soft_lt _ _
        rw [hEsmall, ih2]
        have hshift : E <<< dense_off masks n = E * 2 ^ dense_off masks n :=
          Nat.shiftLeft_eq E _
        refine ⟨by rw [dense_off_succ], ?_, ?_⟩
        · rw [dense_off_succ]
          apply lor_lt_two_pow
          · calc st.1 < 2 ^ dense_off masks n := ihlt
              _ ≤ 2 ^ (dense_off masks n + popcount (masks.getD n 0)) :=
                Nat.pow_le_pow_right (by omega) (by omega)
          · rw [hshift, pow_add]
            have h2 : (0:Nat) < 2 ^ dense_off masks n := Nat.pos_pow_of_pos _ (by omega)
            calc E * 2 ^ dense_off masks n <
                2 ^ popcount (masks.getD n 0) * 2 ^ dense_off masks n := by
                  exact (Nat.mul_lt_mul_right h2).mpr hElt
              _ = 2 ^ dense_off masks n * 2 ^ popcount (masks.getD n 0) := by ring
        · intro c hc j hj
          rcases Nat.lt_succ_iff_lt_or_eq.mp hc with h2 | h2
          · have hlt_off : dense_off masks c + j < dense_off masks n := by
              have hstep : dense_off masks c + popcount (masks.getD c 0) =
                  dense_off masks (c + 1) := (dense_off_succ masks c).symm
              have hmono : dense_off masks (c + 1) ≤ dense_off masks n :=
                dense_off_mono masks (by omega)
              omega
            rw [Nat.testBit_lor, Nat.testBit_shiftLeft]
            have hge : ¬ (dense_off masks c + j ≥ dense_off masks n) := by omega
            simp only [ge_iff_le, hge, decide_False, Bool.false_and, Bool.or_false]
            exact ihbit c h2 j hj
          · subst h2
            rw [Nat.testBit_lor, Nat.testBit_shiftLeft]
            have hstlow : st.1.testBit (dense_off masks c + j) = false := by
              apply Nat.testBit_lt_two_pow
              calc st.1 < 2 ^ dense_off masks c := ihlt
                _ ≤ 2 ^ (dense_off masks c + j) :=
                  Nat.pow_le_pow_right (by omega) (by omega)
            rw [hstlow]
            have hge : dense_off masks c + j ≥ dense_off masks c := by omega
            simp only [ge_iff_le, hge, decide_True, Bool.true_and, Bool.false_or]
            congr 1
            omega

/-- Claim C4: for a node with four 64-bit extraction masks of total span at
most 32 and a 32-byte key, every discriminative bit b of the node satisfies:
the bit of extract_dense_partial_key(K) selected by the single-bit mask
get_mask_for_bit(b) equals the raw MSB-first key bit extract_bit(K, b). -/
theorem claim_C4 (masks key : List Nat) (b : Nat)
    (h4 : masks.length = 4) (hspan : span_of_masks masks ≤ 32)
    (hkey : key.length = 32) (hbytes : ∀ x ∈ key, x < 256)
    (hb : b < 256)
    (hdisc : (masks.getD (b / 64) 0).testBit (63 - b % 64) = true) :
    ∃ p, get_mask_for_bit masks b = 2 ^ p ∧
      (extract_dense_partial_key masks key).testBit p = extract_bit key b := by
  have hc : b / 64 < 4 := by omega
  set c := b / 64 with hcdef
  set pos := 63 - b % 64 with hposdef
  set mask := masks.getD c 0 with hmaskdef
  set before := popcount (mask &&& (2 ^ pos - 1)) with hbeforedef
  refine ⟨dense_off masks c + before, ?_, ?_⟩
  · unfold get_mask_for_bit
    rw [if_neg (by omega)]
    have hsingle : (1 <<< (63 - b % 64)) = 2 ^ pos := by
      rw [Nat.shiftLeft_eq, one_mul]
    simp only [hsingle]
    have hland : mask &&& 2 ^ pos = 2 ^ pos := by
      rw [land_two_pow, if_pos hdisc]
    rw [← hmaskdef, hland]
    have hp2 : (2:Nat) ^ pos ≠ 0 := by positivity
    rw [if_neg hp2]
    rw [take_map_sum_eq_dense_off masks c (by omega)]
    rw [Nat.shiftLeft_eq, one_mul]
  · have hjlt : before < popcount mask := popcount_land_ones_lt mask pos hdisc
    have hfold := (extract_dense_fold_spec masks key h4 hspan 4 (le_refl 4)).2.2
      c hc before (by rw [← hmaskdef]; exact hjlt)
    unfold extract_dense_partial_key
    rw [← hmaskdef] at hfold
    rw [hfold]
    have hpext := pext64_soft_testBit pos mask
      (be_bytes_to_u64 ((key.drop (c * 8)).take 8)) hdisc
    rw [← hbeforedef] at hpext
    rw [hpext]
    set bs := (key.drop (c * 8)).take 8 with hbsdef
    have hbslen : bs.length = 8 := by
      rw [hbsdef, List.length_take, List.length_drop, hkey]
      omega
    have hbsbytes : ∀ x ∈ bs, x < 256 := by
      intro x hx
      exact hbytes x (List.drop_subset _ _ (List.take_subset _ _ hx))
    set l := (b % 64) / 8 with hldef
    set t := 7 - b % 8 with htdef
    have hl8 : l < 8 := by omega
    have ht8 : t < 8 := by omega
    have hposeq : pos = 8 * (bs.length - 1 - l) + t := by
      rw [hbslen]
      omega
    rw [hposeq]
    have hbyte := be_foldl_testBit_byte bs hbsbytes 0 l t (by omega) ht8
    have hbe : be_bytes_to_u64 bs = bs.foldl (fun acc b => acc * 256 + b) 0 := rfl
    rw [hbe, hbyte]
    have hgd : bs.getD l 0 = key.getD (c * 8 + l) 0 :=
      getD_drop_take key (c * 8) l hl8 (by omega)
    rw [hgd]
    have hbyte_idx : c * 8 + l = b / 8 := by omega
    rw [hbyte_idx]
    unfold extract_bit
    rw [if_neg (by omega)]

/-- The single-bit mask returned for a discriminative bit, in closed power
form: the exponent counts the extraction-mask bits packed before it. -/
theorem get_mask_for_bit_pow (masks : List Nat) (b : Nat) (hb : b < 256)
    (hdisc : (masks.getD (b / 64) 0).testBit (63 - b % 64) = true) :
    get_mask_for_bit masks b =
      2 ^ (((masks.take (b / 64)).map popcount).sum +
        popcount (masks.getD (b / 64) 0 &&& (2 ^ (63 - b % 64) - 1))) := by
  unfold get_mask_for_bit
  rw [if_neg (by omega)]
  have hsingle : (1 <<< (63 - b % 64)) = 2 ^ (63 - b % 64) := by
    rw [Nat.shiftLeft_eq, one_mul]
  simp only [hsingle]
  have hland : masks.getD (b / 64) 0 &&& 2 ^ (63 - b % 64) = 2 ^ (63 - b % 64) := by
    rw [land_two_pow, if_pos hdisc]
  rw [hland]
  have hp2 : (2:Nat) ^ (63 - b % 64) ≠ 0 := by positivity
  rw [if_neg hp2, Nat.shiftLeft_eq, one_mul]

/-- Witness for claim C4 at a concrete node and key: the single discriminative
bit 63 (the least significant bit of the first key chunk). -/
theorem claim_C4_witness :
    ∃ p, get_mask_for_bit [1, 0, 0, 0] 63 = 2 ^ p ∧
      (extract_dense_partial_key [1, 0, 0, 0]
          ([0, 0, 0, 0, 0, 0, 0, 1] ++ List.replicate 24 0)).testBit p =
        extract_bit ([0, 0, 0, 0, 0, 0, 0, 1] ++ List.replicate 24 0) 63 := by
  exact claim_C4 [1, 0, 0, 0] ([0, 0, 0, 0, 0, 0, 0, 1] ++ List.replicate 24 0) 63
    (by decide) (by decide) (by decide) (by decide) (by decide) (by decide)

/-! ### Node model (node/types.rs, node/core.rs) -/

/-- node/types.rs NodeId: tag (Leaf or Internal) plus the 40 raw bytes
(8-byte big-endian version followed by the 32-byte content hash). -/
inductive NodeId where
  | Leaf (raw : List Nat)
  | Internal (raw : List Nat)
deriving DecidableEq, Repr

def NodeId.is_leaf : NodeId → Bool
  | NodeId.Leaf _ => true
  | NodeId.Internal _ => false

def NodeId.is_internal : NodeId → Bool
  | NodeId.Leaf _ => false
  | NodeId.Internal _ => true

/-- node/types.rs NodeId::height_if_leaf. -/
def NodeId.height_if_leaf : NodeId → Option Nat
  | NodeId.Leaf _ => some 0
  | NodeId.Internal _ => none

/-- node/types.rs LeafData: a 32-byte key with an arbitrary-length value. -/
structure LeafData where
  key : List Nat
  value : List Nat
deriving DecidableEq, Repr

/-- node/core.rs PersistentHOTNode: height, four 64-bit extraction masks, the
32-slot sparse partial-key array and the child vector. -/
structure PersistentHOTNode where
  height : Nat
  extraction_masks : List Nat
  sparse_partial_keys : List Nat
  children : List NodeId
deriving DecidableEq, Repr

namespace PersistentHOTNode

/-- node/core.rs len(): inferred from children.len(). -/
def len (n : PersistentHOTNode) : Nat := n.children.length

/-- node/core.rs is_full(): children.len() >= 32. -/
def is_full (n : PersistentHOTNode) : Bool := decide (32 ≤ n.children.length)

/-- node/core.rs span(): total popcount of the extraction masks. -/
def span (n : PersistentHOTNode) : Nat := span_of_masks n.extraction_masks

/-- node/core.rs empty(height). -/
def empty (height : Nat) : PersistentHOTNode :=
  { height
    extraction_masks := [0, 0, 0, 0]
    sparse_partial_keys := List.replicate 32 0
    children := [] }

/-- node/core.rs single_leaf(leaf_id). -/
def single_leaf (leaf_id : NodeId) : PersistentHOTNode :=
  { height := 1
    extraction_masks := [0, 0, 0, 0]
    sparse_partial_keys := List.replicate 32 0
    children := [leaf_id] }

/-- node/core.rs masks_from_bits: build the four extraction masks from
MSB-first discriminative-bit positions. -/
def masks_from_bits (bits : List Nat) : List Nat :=
  bits.foldl
    (fun masks bit =>
      let chunk := bit / 64
      let pos_in_chunk := bit % 64
      masks.set chunk (masks.getD chunk 0 ||| (1 <<< (63 - pos_in_chunk))))
    [0, 0, 0, 0]

/-- node/bitmask.rs get_all_mask_bits(): low `span` ones. -/
def get_all_mask_bits (n : PersistentHOTNode) : Nat :=
  let s := n.span
  if 32 ≤ s then 2 ^ 32 - 1 else if s = 0 then 0 else 2 ^ s - 1

/-- node/core.rs discriminative_bits(): the MSB-first key-bit positions set in
the extraction masks, in ascending key order (the Rust loop enumerates each
chunk from its lowest u64 bit and sorts the collected positions, which yields
exactly the ascending enumeration modelled here). -/
def discriminative_bits (n : PersistentHOTNode) : List Nat :=
  (List.range 256).filter
    (fun b => (n.extraction_masks.getD (b / 64) 0).testBit (63 - b % 64))

/-- node/bitmask.rs get_prefix_bits_mask: OR of the sparse-key masks of all
discriminative bits strictly before `bit`. -/
def get_prefix_bits_mask (n : PersistentHOTNode) (bit : Nat) : Nat :=
  n.discriminative_bits.foldl
    (fun m b => if b < bit then m ||| get_mask_for_bit n.extraction_masks b else m) 0

/-- u32::trailing_zeros (32 for zero input). -/
def trailing_zeros32 (x : Nat) : Nat :=
  match (List.range 32).find? (fun i => x.testBit i) with
  | some i => i
  | none => 32

end PersistentHOTNode

/-- node/types.rs InsertInformation. -/
structure InsertInformation where
  subtree_prefix_partial_key : Nat
  first_index_in_affected_subtree : Nat
  number_entries_in_affected_subtree : Nat
  discriminative_bit : Nat
  new_bit_value : Bool
  affected_subtree_mask : Nat
deriving DecidableEq, Repr

/-- node/types.rs InsertInformation::is_single_entry. -/
def InsertInformation.is_single_entry (i : InsertInformation) : Bool :=
  decide (i.number_entries_in_affected_subtree = 1)

/-- node/types.rs BiNode: transient two-entry record from a split. -/
structure BiNode where
  discriminative_bit : Nat
  left : NodeId
  right : NodeId
  height : Nat
deriving DecidableEq, Repr

namespace PersistentHOTNode

/-- node/bitmask.rs get_insert_information: the affected-subtree data for a
hypothetical insertion at `entry_index` with the given diff bit. -/
def get_insert_information (n : PersistentHOTNode) (entry_index : Nat)
    (discriminative_bit : Nat) (new_bit_value : Bool) : InsertInformation :=
  let existing_mask := n.sparse_partial_keys.getD entry_index 0
  let prefix_bits := get_prefix_bits_mask n discriminative_bit
  let subtree := existing_mask &&& prefix_bits
  let affected_mask :=
    (List.range n.len).foldl
      (fun am i =>
        if n.sparse_partial_keys.getD i 0 &&& prefix_bits = subtree then
          am ||| (1 <<< i)
        else am) 0
  { subtree_prefix_partial_key := subtree
    first_index_in_affected_subtree := trailing_zeros32 affected_mask
    number_entries_in_affected_subtree := popcount affected_mask
    discriminative_bit
    new_bit_value
    affected_subtree_mask := affected_mask }

end PersistentHOTNode

/-- simd.rs find_insert_position_scalar: first index among the valid entries
whose sparse key exceeds the probe, otherwise len. -/
def find_insert_position_scalar (sparse_keys : List Nat) (sparse_key : Nat)
    (len : Nat) : Nat :=
  match (List.range len).find? (fun i => decide (sparse_key < sparse_keys.getD i 0)) with
  | some i => i
  | none => len

/-- node/bitmask.rs find_insert_position, modelled by the scalar semantics of
simd_find_insert_position (the AVX2 path computes the same first-greater
index via a sign-flipped unsigned comparison). -/
def PersistentHOTNode.find_insert_position (n : PersistentHOTNode)
    (sparse_key : Nat) : Nat :=
  find_insert_position_scalar n.sparse_partial_keys sparse_key n.len

/-- u32 bitwise complement. -/
def not32 (x : Nat) : Nat := (2 ^ 32 - 1) ^^^ x

/-- Index-aware map used to model the Rust loops that rewrite each valid
sparse slot in place. -/
def mapi_go (f : Nat → Nat → Nat) : Nat → List Nat → List Nat
  | _, [] => []
  | i, v :: rest => f i v :: mapi_go f (i + 1) rest

/-- Effect of the fixed-array insertion loop: shift the valid slots at and
after `pos` up by one, write `v` at `pos`, leave the tail garbage alone. -/
def array_insert_shift (s : List Nat) (len pos : Nat) (v : Nat) : List Nat :=
  (s.take pos ++ [v] ++ (s.drop pos).take (len - pos)) ++ s.drop (len + 1)

/-- Vec::insert at `pos`. -/
def list_insert_at {α : Type} (l : List α) (pos : Nat) (v : α) : List α :=
  l.take pos ++ v :: l.drop pos

namespace PersistentHOTNode

/-- node/insert.rs with_new_entry: copy-on-write single-affected-entry insert.
Adds the discriminative bit when new (PDEP-rewriting the valid sparse keys
through a deposit mask that frees the new position), patches the affected
entry, and inserts the new sparse key at its sorted position. -/
def with_new_entry (self : PersistentHOTNode) (new_bit : Nat)
    (new_bit_value : Bool) (affected_index : Nat) (child : NodeId) :
    PersistentHOTNode :=
  let bit_chunk := new_bit / 64
  let bit_in_chunk := new_bit % 64
  let u64_bit_pos := 63 - bit_in_chunk
  let bit_mask := 1 <<< u64_bit_pos
  let is_new_bit : Bool := decide (self.extraction_masks.getD bit_chunk 0 &&& bit_mask = 0)
  let masks2 :=
    if is_new_bit then
      self.extraction_masks.set bit_chunk
        (self.extraction_masks.getD bit_chunk 0 ||| bit_mask)
    else self.extraction_masks
  let new_bit_mask := get_mask_for_bit masks2 new_bit
  let old_all_bits := self.get_all_mask_bits
  let low_mask := new_bit_mask - 1
  let high_mask := old_all_bits &&& not32 low_mask
  let deposit_mask := ((high_mask <<< 1) % 2 ^ 32) ||| low_mask
  let sparse2 :=
    if is_new_bit then
      mapi_go (fun i v => if i < self.len then pdep32 v deposit_mask else v) 0
        self.sparse_partial_keys
    else self.sparse_partial_keys
  let affected_sparse := sparse2.getD affected_index 0
  let new_sparse_key :=
    if new_bit_value then affected_sparse ||| new_bit_mask
    else affected_sparse &&& not32 new_bit_mask
  let sparse3 :=
    if is_new_bit && !new_bit_value then
      sparse2.set affected_index (affected_sparse ||| new_bit_mask)
    else sparse2
  let insert_pos := find_insert_position_scalar sparse3 new_sparse_key self.len
  let sparse4 := array_insert_shift sparse3 self.len insert_pos new_sparse_key
  let children2 := list_insert_at self.children insert_pos child
  { self with
      extraction_masks := masks2
      sparse_partial_keys := sparse4
      children := children2 }

/-- node/insert.rs with_new_entry_from_info: multi-entry-subtree insert. Every
entry of the affected subtree acquires the opposite of the new bit value; the
new entry is built from the subtree prefix and inserted at the subtree
boundary. -/
def with_new_entry_from_info (self : PersistentHOTNode)
    (info : InsertInformation) (child : NodeId) : PersistentHOTNode :=
  let new_bit := info.discriminative_bit
  let bit_chunk := new_bit / 64
  let bit_in_chunk := new_bit % 64
  let u64_bit_pos := 63 - bit_in_chunk
  let bit_mask := 1 <<< u64_bit_pos
  let is_new_bit : Bool := decide (self.extraction_masks.getD bit_chunk 0 &&& bit_mask = 0)
  let masks2 :=
    if is_new_bit then
      self.extraction_masks.set bit_chunk
        (self.extraction_masks.getD bit_chunk 0 ||| bit_mask)
    else self.extraction_masks
  let new_bit_mask := get_mask_for_bit masks2 new_bit
  let old_all_bits := self.get_all_mask_bits
  let low_mask := new_bit_mask - 1
  let high_mask := old_all_bits &&& not32 low_mask
  let deposit_mask := ((high_mask <<< 1) % 2 ^ 32) ||| low_mask
  let sparse2 :=
    if is_new_bit then
      mapi_go (fun i v => if i < self.len then pdep32 v deposit_mask else v) 0
        self.sparse_partial_keys
    else self.sparse_partial_keys
  let sparse3 :=
    mapi_go
      (fun i v =>
        if i < self.len ∧ info.affected_subtree_mask &&& (1 <<< i) ≠ 0 ∧
            info.new_bit_value = false then
          v ||| new_bit_mask
        else v)
      0 sparse2
  let base := if is_new_bit then pdep32 info.subtree_prefix_partial_key deposit_mask
    else info.subtree_prefix_partial_key
  let new_sparse_key :=
    if info.new_bit_value then base ||| new_bit_mask else base &&& not32 new_bit_mask
  let insert_pos := info.first_index_in_affected_subtree +
    (if info.new_bit_value then info.number_entries_in_affected_subtree else 0)
  let sparse4 := array_insert_shift sparse3 self.len insert_pos new_sparse_key
  let children2 := list_insert_at self.children insert_pos child
  { self with
      extraction_masks := masks2
      sparse_partial_keys := sparse4
      children := children2 }

/-- node/split.rs with_integrated_binode: Parent Pull Up into a non-full node.
Adds the BiNode bit when new (PDEP-rewriting the valid sparse keys), replaces
the old child with the left side, and inserts the right side at its sorted
position; the height becomes the maximum of the old height and the BiNode
height. -/
def with_integrated_binode (self : PersistentHOTNode) (old_child_index : Nat)
    (bi_node : BiNode) : PersistentHOTNode :=
  let new_bit := bi_node.discriminative_bit
  let bit_chunk := new_bit / 64
  let bit_in_chunk := new_bit % 64
  let u64_bit_pos := 63 - bit_in_chunk
  let bit_mask := 1 <<< u64_bit_pos
  let is_new_bit : Bool := decide (self.extraction_masks.getD bit_chunk 0 &&& bit_mask = 0)
  let masks2 :=
    if is_new_bit then
      self.extraction_masks.set bit_chunk
        (self.extraction_masks.getD bit_chunk 0 ||| bit_mask)
    else self.extraction_masks
  let new_bit_mask := get_mask_for_bit masks2 new_bit
  let old_all_bits := self.get_all_mask_bits
  let low_mask := new_bit_mask - 1
  let high_mask := old_all_bits &&& not32 low_mask
  let deposit_mask := ((high_mask <<< 1) % 2 ^ 32) ||| low_mask
  let sparse2 :=
    if is_new_bit then
      mapi_go (fun i v => if i < self.len then pdep32 v deposit_mask else v) 0
        self.sparse_partial_keys
    else self.sparse_partial_keys
  let old_sparse := sparse2.getD old_child_index 0
  let left_sparse := old_sparse
  let right_sparse := old_sparse ||| new_bit_mask
  let sparse3 := sparse2.set old_child_index left_sparse
  let children3 := self.children.set old_child_index bi_node.left
  let insert_pos := find_insert_position_scalar sparse3 right_sparse self.len
  let sparse4 := array_insert_shift sparse3 self.len insert_pos right_sparse
  let children4 := list_insert_at children3 insert_pos bi_node.right
  { height := max self.height bi_node.height
    extraction_masks := masks2
    sparse_partial_keys := sparse4
    children := children4 }

end PersistentHOTNode

/-! ### Sortedness of the copy-on-write node operations -/

/-- The node invariant on the valid slice: sparse_partial_keys[0..len] is
non-decreasing. -/
def sorted_below (s : List Nat) (len : Nat) : Prop :=
  ∀ j, j < len → ∀ i, i ≤ j → s.getD i 0 ≤ s.getD j 0

instance (s : List Nat) (len : Nat) : Decidable (sorted_below s len) := by
  unfold sorted_below
  infer_instance

theorem sorted_below_of_getD_eq (s t : List Nat) (len : Nat)
    (h : ∀ j, j < len → s.getD j 0 = t.getD j 0) (hs : sorted_below s len) :
    sorted_below t len := by
  intro j hj i hi
  rw [← h j hj, ← h i (by omega)]
  exact hs j hj i hi

theorem mapi_go_length (f : Nat → Nat → Nat) : ∀ (i : Nat) (s : List Nat),
    (mapi_go f i s).length = s.length := by
  intro i s
  induction s generalizing i with
  | nil => rfl
  | cons v rest ih => simp [mapi_go, ih]

theorem mapi_go_getD (f : Nat → Nat → Nat) : ∀ (s : List Nat) (i0 j : Nat),
    j < s.length → (mapi_go f i0 s).getD j 0 = f (i0 + j) (s.getD j 0) := by
  intro s
  induction s with
  | nil =>
      intro i0 j hj
      simp at hj
  | cons v rest ih =>
      intro i0 j hj
      cases j with
      | zero => rfl
      | succ j =>
          have hj2 : j < rest.length := by simp at hj; omega
          show (mapi_go f (i0 + 1) rest).getD j 0 = _
          rw [ih (i0 + 1) j hj2]
          have : i0 + 1 + j = i0 + (j + 1) := by omega
          rw [this]
          rfl

theorem getD_set (s : List Nat) (i j v : Nat) :
    (s.set i v).getD j 0 = if i = j ∧ j < s.length then v else s.getD j 0 := by
  rw [List.getD_eq_getElem?_getD, List.getD_eq_getElem?_getD, List.getElem?_set]
  by_cases hij : i = j
  · subst hij
    by_cases hlt : i < s.length
    · simp [hlt]
    · have hnone : s[i]? = none := by
        rw [List.getElem?_eq_none_iff]
        omega
      simp [hlt, hnone]
  · simp [hij]

theorem find?_range_first (p : Nat → Bool) : ∀ n i, (List.range n).find? p = some i →
    ∀ k, k < i → p k = false := by
  intro n
  induction n with
  | zero => intro i h; simp [List.find?] at h
  | succ n ih =>
      intro i h k hk
      rw [List.range_succ, List.find?_append] at h
      rcases hfront : (List.range n).find? p with _ | j
      · rw [hfront] at h
        simp only [Option.or] at h
        have hmem := List.mem_of_find?_eq_some h
        have hi : i = n := by simpa using hmem
        subst hi
        have hnone := (List.find?_eq_none).mp hfront k (by simp; omega)
        cases hpk : p k
        · rfl
        · exact absurd hpk hnone
      · rw [hfront] at h
        simp only [Option.or] at h
        have hji : j = i := by injection h
        subst hji
        exact ih j hfront k hk

theorem fip_spec (s : List Nat) (v len : Nat) :
    find_insert_position_scalar s v len ≤ len ∧
    (∀ k, k < find_insert_position_scalar s v len → s.getD k 0 ≤ v) ∧
    (find_insert_position_scalar s v len < len →
      v < s.getD (find_insert_position_scalar s v len) 0) := by
  unfold find_insert_position_scalar
  rcases hf : (List.range len).find? (fun i => decide (v < s.getD i 0)) with _ | i <;>
    simp only [hf]
  · refine ⟨le_refl _, ?_, ?_⟩
    · intro k hk
      have hkn := (List.find?_eq_none).mp hf k (by simp; omega)
      simp only [decide_eq_true_eq] at hkn
      omega
    · intro h; omega
  · have hmem := List.mem_of_find?_eq_some hf
    have hi : i < len := by simpa using hmem
    have hp := List.find?_some hf
    simp only [decide_eq_true_eq] at hp
    refine ⟨by omega, ?_, fun _ => hp⟩
    intro k hk
    have hkf := find?_range_first _ len i hf k hk
    simp only [decide_eq_false_iff_not] at hkf
    omega

theorem list_insert_at_length {α : Type} (l : List α) (pos : Nat) (v : α)
    (hpos : pos ≤ l.length) :
    (list_insert_at l pos v).length = l.length + 1 := by
  unfold list_insert_at
  simp
  omega

theorem array_insert_shift_getD (s : List Nat) (len pos v j : Nat)
    (hpos : pos ≤ len) (hlen : len < s.length) (hj : j ≤ len) :
    (array_insert_shift s len pos v).getD j 0 =
      if j < pos then s.getD j 0 else if j = pos then v else s.getD (j - 1) 0 := by
  unfold array_insert_shift
  have hassoc : s.take pos ++ [v] ++ (s.drop pos).take (len - pos) ++ s.drop (len + 1) =
      s.take pos ++ ([v] ++ ((s.drop pos).take (len - pos) ++ s.drop (len + 1))) := by
    simp [List.append_assoc]
  rw [hassoc]
  have hlt1 : (s.take pos).length = pos := by
    rw [List.length_take]
    omega
  by_cases h1 : j < pos
  · rw [if_pos h1]
    rw [List.getD_append _ _ _ _ (by omega)]
    rw [List.getD_eq_getElem?_getD, List.getD_eq_getElem?_getD,
      List.getElem?_take, if_pos h1]
  · rw [if_neg h1]
    rw [List.getD_append_right _ _ _ _ (by omega)]
    rw [hlt1]
    by_cases h2 : j = pos
    · subst h2
      rw [if_pos rfl]
      simp
    · rw [if_neg h2]
      have hsplit : j - pos = (j - pos - 1) + 1 := by omega
      rw [hsplit]
      show ((s.drop pos).take (len - pos) ++ s.drop (len + 1)).getD (j - pos - 1) 0 = _
      rw [List.getD_append _ _ _ _ (by rw [List.length_take, List.length_drop]; omega)]
      rw [List.getD_eq_getElem?_getD, List.getD_eq_getElem?_getD,
        List.getElem?_take, if_pos (by omega : j - pos - 1 < len - pos),
        List.getElem?_drop]
      have hidx : pos + (j - pos - 1) = j - 1 := by omega
      rw [hidx]

theorem array_insert_shift_length (s : List Nat) (len pos v : Nat)
    (hpos : pos ≤ len) (hlen : len < s.length) :
    (array_insert_shift s len pos v).length = s.length := by
  unfold array_insert_shift
  simp [List.length_take, List.length_drop]
  omega

/-- Inserting at the first-greater position keeps the valid slice sorted. -/
theorem insert_shift_sorted (s : List Nat) (len v : Nat) (hlen : len < s.length)
    (hsorted : sorted_below s len) :
    sorted_below
      (array_insert_shift s len (find_insert_position_scalar s v len) v) (len + 1) := by
  obtain ⟨hle, hbefore, hat⟩ := fip_spec s v len
  set pos := find_insert_position_scalar s v len with hpos
  intro j hj i hi
  rw [array_insert_shift_getD s len pos v j hle hlen (by omega),
    array_insert_shift_getD s len pos v i hle hlen (by omega)]
  by_cases hjp : j < pos
  · rw [if_pos hjp, if_pos (by omega)]
    exact hsorted j (by omega) i hi
  · rw [if_neg hjp]
    by_cases hjq : j = pos
    · rw [if_pos hjq]
      by_cases hip : i < pos
      · rw [if_pos hip]
        exact hbefore i hip
      · have : i = pos := by omega
        rw [if_neg hip, if_pos this]
    · rw [if_neg hjq]
      by_cases hip : i < pos
      · rw [if_pos hip]
        exact hsorted (j - 1) (by omega) i (by omega)
      · by_cases hiq : i = pos
        · rw [if_neg hip, if_pos hiq]
          have hplen : pos < len := by omega
          calc v ≤ s.getD pos 0 := le_of_lt (hat hplen)
            _ ≤ s.getD (j - 1) 0 := hsorted (j - 1) (by omega) pos (by omega)
        · rw [if_neg hip, if_neg hiq]
          exact hsorted (j - 1) (by omega) (i - 1) (by omega)

/-- PDEP is strictly monotone on sources below 2 ^ popcount of the mask. -/
theorem pdep64_soft_strict_mono : ∀ mask x y, x < y → y < 2 ^ popcount mask →
    pdep64_soft x mask < pdep64_soft y mask := by
  intro mask
  induction mask using Nat.strong_induction_on with
  | _ mask ih =>
      intro x y hxy hybound
      by_cases h0 : mask = 0
      · subst h0
        rw [popcount_zero] at hybound
        omega
      · have hlt : mask / 2 < mask := Nat.div_lt_self (Nat.pos_of_ne_zero h0) (by omega)
        rw [pdep64_soft_rec x mask h0, pdep64_soft_rec y mask h0,
          popcount_rec mask h0] at *
        by_cases hodd : mask % 2 = 1
        · rw [if_pos hodd, if_pos hodd]
          rw [hodd] at hybound
          have hyb2 : y / 2 < 2 ^ popcount (mask / 2) := by
            have hp : (2:Nat) ^ (1 + popcount (mask / 2)) =
                2 * 2 ^ popcount (mask / 2) := by ring
            rw [hp] at hybound
            omega
          by_cases hdiv : x / 2 < y / 2
          · have := ih (mask / 2) hlt (x / 2) (y / 2) hdiv hyb2
            omega
          · have hdeq : x / 2 = y / 2 := by omega
            have hmod : x % 2 < y % 2 := by omega
            rw [hdeq]
            omega
        · rw [if_neg hodd, if_neg hodd]
          have hz : mask % 2 = 0 := by omega
          rw [hz, Nat.zero_add] at hybound
          have := ih (mask / 2) hlt x y hxy hybound
          omega

theorem pdep64_soft_mono (mask x y : Nat) (hxy : x ≤ y)
    (hybound : y < 2 ^ popcount mask) :
    pdep64_soft x mask ≤ pdep64_soft y mask := by
  rcases Nat.lt_or_ge x y with h | h
  · exact le_of_lt (pdep64_soft_strict_mono mask x y h hybound)
  · have : x = y := by omega
    rw [this]

theorem popcount_two_pow_sub_one (k : Nat) : popcount (2 ^ k - 1) = k := by
  induction k with
  | zero => simp [popcount_zero]
  | succ k ih =>
      have h1 : (1:Nat) ≤ 2 ^ k := Nat.one_le_two_pow
      have h2 : (2:Nat) ^ (k + 1) = 2 * 2 ^ k := by ring
      have h3 : 2 ^ (k + 1) - 1 = 1 + 2 * (2 ^ k - 1) := by omega
      rw [h3, popcount_bit 1 _ (by omega), ih]
      omega

theorem popcount_mul_pow_add : ∀ (m x y : Nat), y < 2 ^ m →
    popcount (x * 2 ^ m + y) = popcount x + popcount y := by
  intro m
  induction m with
  | zero =>
      intro x y hy
      have hy0 : y = 0 := by omega
      subst hy0
      simp [popcount_zero]
  | succ m ih =>
      intro x y hy
      have h2 : (2:Nat) ^ (m + 1) = 2 * 2 ^ m := by ring
      have hsplit : x * 2 ^ (m + 1) + y = y % 2 + 2 * (x * 2 ^ m + y / 2) := by
        calc x * 2 ^ (m + 1) + y = 2 * (x * 2 ^ m) + y := by ring
          _ = y % 2 + 2 * (x * 2 ^ m + y / 2) := by omega
      rw [hsplit, popcount_bit _ _ (by omega), ih x (y / 2) (by omega)]
      have hy3 : popcount y = y % 2 + popcount (y / 2) := by
        conv_lhs => rw [show y = y % 2 + 2 * (y / 2) by omega]
        rw [popcount_bit _ _ (by omega)]
      omega

theorem testBit_ones_mul_pow (a m j : Nat) :
    ((2 ^ a - 1) * 2 ^ m).testBit j = (decide (m ≤ j) && decide (j < m + a)) := by
  have hform : (2 ^ a - 1) * 2 ^ m = 2 ^ m * (2 ^ a - 1) + 0 := by ring
  rw [hform, Nat.testBit_mul_pow_two_add _ (Nat.pos_pow_of_pos m (by omega)) j]
  by_cases h1 : j < m
  · rw [if_pos h1, Nat.zero_testBit]
    have : ¬ (m ≤ j) := by omega
    simp [this]
  · rw [if_neg h1, Nat.testBit_two_pow_sub_one]
    have hm : m ≤ j := by omega
    have hiff : (j - m < a) ↔ (j < m + a) := by omega
    simp [hm, hiff]

theorem lor_shift_add (c m b : Nat) (hb : b < 2 ^ m) :
    (c * 2 ^ m) ||| b = c * 2 ^ m + b := by
  apply Nat.eq_of_testBit_eq
  intro j
  rw [Nat.testBit_lor]
  have hform2 : c * 2 ^ m + b = 2 ^ m * c + b := by ring
  rw [hform2, Nat.testBit_mul_pow_two_add _ hb j]
  have hform : c * 2 ^ m = 2 ^ m * c + 0 := by ring
  rw [hform, Nat.testBit_mul_pow_two_add _ (Nat.pos_pow_of_pos m (by omega)) j]
  by_cases h1 : j < m
  · rw [if_pos h1, if_pos h1, Nat.zero_testBit, Bool.false_or]
  · rw [if_neg h1, if_neg h1]
    have hbj : b.testBit j = false := by
      apply Nat.testBit_lt_two_pow
      calc b < 2 ^ m := hb
        _ ≤ 2 ^ j := Nat.pow_le_pow_right (by omega) (by omega)
    rw [hbj, Bool.or_false]

theorem high_mask_eq (s k : Nat) (hks : k ≤ s) (hs32 : s < 32) :
    (2 ^ s - 1) &&& not32 (2 ^ k - 1) = (2 ^ (s - k) - 1) * 2 ^ k := by
  apply Nat.eq_of_testBit_eq
  intro j
  rw [Nat.testBit_land, testBit_ones_mul_pow, Nat.testBit_two_pow_sub_one]
  unfold not32
  rw [Nat.testBit_xor, Nat.testBit_two_pow_sub_one, Nat.testBit_two_pow_sub_one]
  by_cases h1 : j < s
  · have h32 : j < 32 := by omega
    by_cases h2 : j < k
    · simp [h1, h2, h32]
    · simp [h1, h2, h32]
      omega
  · have hka : ¬ (j < k + (s - k)) := by omega
    simp [h1, hka]

/-- The deposit mask built from `span` low ones with a freed slot at position
k has exactly `span` set bits. -/
theorem deposit_mask_spec (s k : Nat) (hks : k ≤ s) (hs32 : s < 32) :
    ((((2 ^ s - 1) &&& not32 (2 ^ k - 1)) <<< 1) % 2 ^ 32) ||| (2 ^ k - 1) =
      (2 ^ (s - k) - 1) * 2 ^ (k + 1) + (2 ^ k - 1) ∧
    popcount (((((2 ^ s - 1) &&& not32 (2 ^ k - 1)) <<< 1) % 2 ^ 32) ||| (2 ^ k - 1)) =
      s := by
  have hh := high_mask_eq s k hks hs32
  have hshift : ((2 ^ s - 1) &&& not32 (2 ^ k - 1)) <<< 1 =
      (2 ^ (s - k) - 1) * 2 ^ (k + 1) := by
    rw [hh, Nat.shiftLeft_eq]
    ring
  have hlt : (2 ^ (s - k) - 1) * 2 ^ (k + 1) < 2 ^ 32 := by
    calc (2 ^ (s - k) - 1) * 2 ^ (k + 1) < 2 ^ (s - k) * 2 ^ (k + 1) := by
          have h1 : (1:Nat) ≤ 2 ^ (s - k) := Nat.one_le_two_pow
          have h2 : (0:Nat) < 2 ^ (k + 1) := Nat.pos_pow_of_pos _ (by omega)
          exact (Nat.mul_lt_mul_right h2).mpr (by omega)
      _ = 2 ^ (s + 1) := by
          rw [← pow_add]
          congr 1
          omega
      _ ≤ 2 ^ 32 := Nat.pow_le_pow_right (by omega) (by omega)
  have hmod : ((2 ^ (s - k) - 1) * 2 ^ (k + 1)) % 2 ^ 32 =
      (2 ^ (s - k) - 1) * 2 ^ (k + 1) := Nat.mod_eq_of_lt hlt
  have hblt : 2 ^ k - 1 < 2 ^ (k + 1) := by
    have h1 : (1:Nat) ≤ 2 ^ k := Nat.one_le_two_pow
    have h2 : (2:Nat) ^ (k + 1) = 2 * 2 ^ k := by ring
    omega
  have hadd := lor_shift_add (2 ^ (s - k) - 1) (k + 1) (2 ^ k - 1) hblt
  constructor
  · rw [hshift, hmod, hadd]
  · rw [hshift, hmod, hadd, popcount_mul_pow_add (k + 1) _ _ hblt,
      popcount_two_pow_sub_one, popcount_two_pow_sub_one]
    omega

/-- with_new_entry keeps the valid sparse prefix sorted whenever the given
discriminative bit is already present in the extraction masks. -/
theorem with_new_entry_sorted (self : PersistentHOTNode) (new_bit : Nat)
    (new_bit_value : Bool) (affected_index : Nat) (child : NodeId)
    (hsl : self.sparse_partial_keys.length = 32)
    (hlen : self.children.length < 32)
    (hbit : self.extraction_masks.getD (new_bit / 64) 0 &&&
      (1 <<< (63 - new_bit % 64)) ≠ 0)
    (hsorted : sorted_below self.sparse_partial_keys self.len) :
    sorted_below
      (self.with_new_entry new_bit new_bit_value affected_index child).sparse_partial_keys
      (self.with_new_entry new_bit new_bit_value affected_index child).len := by
  have hd : decide (self.extraction_masks.getD (new_bit / 64) 0 &&&
      (1 <<< (63 - new_bit % 64)) = 0) = false := by
    rw [decide_eq_false_iff_not]
    exact hbit
  unfold PersistentHOTNode.with_new_entry
  simp only [hd, Bool.false_and, Bool.false_eq_true, if_false]
  unfold PersistentHOTNode.len
  have hpos := (fip_spec self.sparse_partial_keys
    (if new_bit_value then
        self.sparse_partial_keys.getD affected_index 0 |||
          get_mask_for_bit self.extraction_masks new_bit
      else
        self.sparse_partial_keys.getD affected_index 0 &&&
          not32 (get_mask_for_bit self.extraction_masks new_bit))
    self.children.length).1
  rw [list_insert_at_length self.children _ child hpos]
  exact insert_shift_sorted self.sparse_partial_keys self.children.length _
    (by omega) hsorted

/-- Taking strictly below the updated index ignores a set. -/
theorem take_set_of_le {α : Type} (l : List α) (i n : Nat) (a : α) (h : n ≤ i) :
    (l.set i a).take n = l.take n := by
  apply List.ext_getElem?
  intro j
  rw [List.getElem?_take, List.getElem?_take]
  by_cases hj : j < n
  · rw [if_pos hj, if_pos hj, List.getElem?_set, if_neg (by omega)]
  · rw [if_neg hj, if_neg hj]

theorem set_getD_self_sorted (s : List Nat) (idx len : Nat)
    (hs : sorted_below s len) :
    sorted_below (s.set idx (s.getD idx 0)) len := by
  apply sorted_below_of_getD_eq s _ len
  · intro j hj
    rw [getD_set]
    by_cases hij : idx = j ∧ j < s.length
    · rw [if_pos hij, hij.1]
    · rw [if_neg hij]
  · exact hs

/-- Replacing a slot by its own value and then inserting at the
first-greater position keeps the valid slice sorted. -/
theorem set_insert_sorted (s : List Nat) (len idx v : Nat)
    (hlen : len < s.length) (hsorted : sorted_below s len) :
    sorted_below
      (array_insert_shift (s.set idx (s.getD idx 0)) len
        (find_insert_position_scalar (s.set idx (s.getD idx 0)) v len) v)
      (len + 1) := by
  apply insert_shift_sorted
  · rw [List.length_set]
    exact hlen
  · exact set_getD_self_sorted s idx len hsorted

/-- with_integrated_binode keeps the valid sparse prefix sorted on any
well-formed node whose valid sparse keys stay within all_mask_bits (with
span < 32 required only when the BiNode bit is newly introduced). -/
theorem with_integrated_binode_sorted (self : PersistentHOTNode)
    (old_child_index : Nat) (bi_node : BiNode)
    (hml : self.extraction_masks.length = 4)
    (hsl : self.sparse_partial_keys.length = 32)
    (hlen : self.children.length < 32)
    (hb : bi_node.discriminative_bit < 256)
    (hbound : ∀ i, i < self.len →
      self.sparse_partial_keys.getD i 0 ≤ self.get_all_mask_bits)
    (hspan32 : self.span < 32 ∨
      self.extraction_masks.getD (bi_node.discriminative_bit / 64) 0 &&&
        (1 <<< (63 - bi_node.discriminative_bit % 64)) ≠ 0)
    (hsorted : sorted_below self.sparse_partial_keys self.len) :
    sorted_below
      (self.with_integrated_binode old_child_index bi_node).sparse_partial_keys
      (self.with_integrated_binode old_child_index bi_node).len := by
  have hlen3 : self.len < 32 := hlen
  have hsl2 : self.sparse_partial_keys.length = 32 := hsl
  unfold PersistentHOTNode.with_integrated_binode
  by_cases hnew : self.extraction_masks.getD (bi_node.discriminative_bit / 64) 0 &&&
      (1 <<< (63 - bi_node.discriminative_bit % 64)) = 0
  · -- the discriminative bit is new: PDEP re-encode, then sorted insert
    have hd : decide (self.extraction_masks.getD (bi_node.discriminative_bit / 64) 0 &&&
        (1 <<< (63 - bi_node.discriminative_bit % 64)) = 0) = true := by
      rw [decide_eq_true_eq]
      exact hnew
    simp only [hd, if_true]
    unfold PersistentHOTNode.len
    have hspan : self.span < 32 := by
      rcases hspan32 with h | h
      · exact h
      · exact absurd hnew h
    set c := bi_node.discriminative_bit / 64 with hc
    set pos := 63 - bi_node.discriminative_bit % 64 with hposd
    have hc4 : c < 4 := by omega
    have hshift1 : (1 <<< pos : Nat) = 2 ^ pos := by
      rw [Nat.shiftLeft_eq, one_mul]
    set masks2 := self.extraction_masks.set c
      (self.extraction_masks.getD c 0 ||| (1 <<< pos)) with hmasks2
    have hget2 : masks2.getD c 0 =
        self.extraction_masks.getD c 0 ||| (1 <<< pos) := by
      rw [hmasks2, getD_set, if_pos ⟨rfl, by omega⟩]
    have hdisc2 : (masks2.getD c 0).testBit pos = true := by
      rw [hget2, Nat.testBit_lor, hshift1, Nat.testBit_two_pow]
      simp
    have hk := get_mask_for_bit_pow masks2 bi_node.discriminative_bit hb
      (by rw [← hc, ← hposd]; exact hdisc2)
    rw [← hc, ← hposd] at hk
    set k := ((masks2.take c).map popcount).sum +
      popcount (masks2.getD c 0 &&& (2 ^ pos - 1)) with hkd
    have htake : masks2.take c = self.extraction_masks.take c :=
      take_set_of_le _ _ _ _ (le_refl c)
    have hzero : (2 ^ pos : Nat) &&& (2 ^ pos - 1) = 0 := by
      rw [Nat.land_comm, land_two_pow, if_neg]
      rw [Nat.testBit_two_pow_sub_one]
      simp
    have hbefore : popcount (masks2.getD c 0 &&& (2 ^ pos - 1)) =
        popcount (self.extraction_masks.getD c 0 &&& (2 ^ pos - 1)) := by
      rw [hget2, hshift1, Nat.and_distrib_right, hzero]
      simp
    have hbefore_le : popcount (self.extraction_masks.getD c 0 &&& (2 ^ pos - 1)) ≤
        popcount (self.extraction_masks.getD c 0) := by
      rw [Nat.and_pow_two_sub_one_eq_mod]
      have := popcount_split pos (self.extraction_masks.getD c 0)
      omega
    have hoff : ((self.extraction_masks.take c).map popcount).sum =
        dense_off self.extraction_masks c :=
      take_map_sum_eq_dense_off self.extraction_masks c (by omega)
    have hk_le : k ≤ self.span := by
      have h1 : dense_off self.extraction_masks c +
          popcount (self.extraction_masks.getD c 0) =
          dense_off self.extraction_masks (c + 1) :=
        (dense_off_succ self.extraction_masks c).symm
      have h2 : dense_off self.extraction_masks (c + 1) ≤
          dense_off self.extraction_masks 4 :=
        dense_off_mono self.extraction_masks (by omega)
      have h3 : dense_off self.extraction_masks 4 = self.span :=
        dense_off_four_eq_span self.extraction_masks hml
      rw [hkd, htake, hoff, hbefore]
      omega
    have hall : self.get_all_mask_bits = 2 ^ self.span - 1 := by
      unfold PersistentHOTNode.get_all_mask_bits
      rw [if_neg (by omega)]
      by_cases h0 : self.span = 0
      · rw [if_pos h0, h0]
        simp
      · rw [if_neg h0]
    have hdep := deposit_mask_spec self.span k hk_le hspan
    rw [hk, hall]
    set dep := ((((2 ^ self.span - 1) &&& not32 (2 ^ k - 1)) <<< 1) % 2 ^ 32) |||
      (2 ^ k - 1) with hdepd
    have hsorted2 : sorted_below
        (mapi_go (fun i v => if i < self.len then pdep32 v dep else v) 0
          self.sparse_partial_keys) self.len := by
      intro j hj i hi
      rw [mapi_go_getD _ _ _ _ (by omega), mapi_go_getD _ _ _ _ (by omega)]
      have hjl : 0 + j < self.len := by omega
      have hil : 0 + i < self.len := by omega
      rw [if_pos hjl, if_pos hil]
      unfold pdep32
      apply pdep64_soft_mono
      · exact hsorted j hj i hi
      · rw [hdep.2]
        have hbj := hbound j hj
        rw [hall] at hbj
        have hp : (0:Nat) < 2 ^ self.span := Nat.pos_pow_of_pos _ (by omega)
        omega
    have hlen2 : self.len <
        (mapi_go (fun i v => if i < self.len then pdep32 v dep else v) 0
          self.sparse_partial_keys).length := by
      rw [mapi_go_length, hsl]
      unfold PersistentHOTNode.len
      omega
    rw [list_insert_at_length _ _ _ (by rw [List.length_set]; exact (fip_spec _ _ _).1),
      List.length_set]
    exact set_insert_sorted _ self.len old_child_index _ hlen2 hsorted2
  · -- the discriminative bit is already present: plain sorted insert
    have hd : decide (self.extraction_masks.getD (bi_node.discriminative_bit / 64) 0 &&&
        (1 <<< (63 - bi_node.discriminative_bit % 64)) = 0) = false := by
      rw [decide_eq_false_iff_not]
      exact hnew
    simp only [hd, Bool.false_eq_true, if_false]
    unfold PersistentHOTNode.len
    have hlen2 : self.len < self.sparse_partial_keys.length := by
      rw [hsl]
      unfold PersistentHOTNode.len
      omega
    rw [list_insert_at_length _ _ _ (by rw [List.length_set]; exact (fip_spec _ _ _).1),
      List.length_set]
    exact set_insert_sorted _ self.len old_child_index _ hlen2 hsorted

/-- Claim C5, amended: sorted sparse prefixes are preserved by
with_new_entry when the discriminative bit is already present in the node's
extraction masks, and by with_integrated_binode on well-formed nodes whose
valid sparse keys stay within all_mask_bits (span < 32 when the bit is new);
the unrestricted claim fails for with_new_entry with a newly introduced bit
and for with_new_entry_from_info (see the counterexample). -/
theorem claim_C5 :
    (∀ (self : PersistentHOTNode) (new_bit : Nat) (new_bit_value : Bool)
        (affected_index : Nat) (child : NodeId),
      self.sparse_partial_keys.length = 32 →
      self.children.length < 32 →
      self.extraction_masks.getD (new_bit / 64) 0 &&&
        (1 <<< (63 - new_bit % 64)) ≠ 0 →
      sorted_below self.sparse_partial_keys self.len →
      sorted_below
        (self.with_new_entry new_bit new_bit_value affected_index
          child).sparse_partial_keys
        (self.with_new_entry new_bit new_bit_value affected_index child).len) ∧
    (∀ (self : PersistentHOTNode) (old_child_index : Nat) (bi_node : BiNode),
      self.extraction_masks.length = 4 →
      self.sparse_partial_keys.length = 32 →
      self.children.length < 32 →
      bi_node.discriminative_bit < 256 →
      (∀ i, i < self.len →
        self.sparse_partial_keys.getD i 0 ≤ self.get_all_mask_bits) →
      (self.span < 32 ∨
        self.extraction_masks.getD (bi_node.discriminative_bit / 64) 0 &&&
          (1 <<< (63 - bi_node.discriminative_bit % 64)) ≠ 0) →
      sorted_below self.sparse_partial_keys self.len →
      sorted_below
        (self.with_integrated_binode old_child_index bi_node).sparse_partial_keys
        (self.with_integrated_binode old_child_index bi_node).len) := by
  constructor
  · intro self new_bit new_bit_value affected_index child h1 h2 h3 h4
    exact with_new_entry_sorted self new_bit new_bit_value affected_index child
      h1 h2 h3 h4
  · intro self old_child_index bi_node h1 h2 h3 h4 h5 h6 h7
    exact with_integrated_binode_sorted self old_child_index bi_node
      h1 h2 h3 h4 h5 h6 h7

/-- Concrete node refuting sortedness preservation of with_new_entry with a
newly introduced discriminative bit (bits 0 and 2 discriminative, bit 1 new). -/
def c5_node_a : PersistentHOTNode :=
  { height := 1
    extraction_masks := [2 ^ 63 + 2 ^ 61, 0, 0, 0]
    sparse_partial_keys := [0, 1] ++ List.replicate 30 0
    children := [NodeId.Leaf [0], NodeId.Leaf [1]] }

/-- Concrete node refuting sortedness preservation of
with_new_entry_from_info even for information produced by
get_insert_information with an already-present bit (bits 0, 64, 65
discriminative; insert at bit 64 with value 1). -/
def c5_node_b : PersistentHOTNode :=
  { height := 1
    extraction_masks := [2 ^ 63, 2 ^ 63 + 2 ^ 62, 0, 0]
    sparse_partial_keys := [0, 1, 3, 4] ++ List.replicate 28 0
    children := [NodeId.Leaf [0], NodeId.Leaf [1], NodeId.Leaf [2], NodeId.Leaf [3]] }

/-- Counterexample to claim C5 as stated: on sorted non-full nodes, both
with_new_entry (new bit 1, value 0, affected entry 0) and
with_new_entry_from_info (information computed by get_insert_information for
entry 1, bit 64, value 1) return nodes whose valid sparse prefix is no longer
non-decreasing. -/
theorem claim_C5_counterexample :
    (sorted_below c5_node_a.sparse_partial_keys c5_node_a.len ∧
      c5_node_a.children.length < 32 ∧
      ¬ sorted_below
          (c5_node_a.with_new_entry 1 false 0 (NodeId.Leaf [2])).sparse_partial_keys
          (c5_node_a.with_new_entry 1 false 0 (NodeId.Leaf [2])).len) ∧
    (sorted_below c5_node_b.sparse_partial_keys c5_node_b.len ∧
      c5_node_b.children.length < 32 ∧
      ¬ sorted_below
          (c5_node_b.with_new_entry_from_info
            (c5_node_b.get_insert_information 1 64 true)
            (NodeId.Leaf [4])).sparse_partial_keys
          (c5_node_b.with_new_entry_from_info
            (c5_node_b.get_insert_information 1 64 true)
            (NodeId.Leaf [4])).len) := by
  decide

/-- Witness for the amended claim C5 at concrete inputs. -/
theorem claim_C5_witness :
    sorted_below
      ((PersistentHOTNode.mk 1 [2 ^ 63, 0, 0, 0] ([0, 1] ++ List.replicate 30 0)
          [NodeId.Leaf [0], NodeId.Leaf [1]]).with_new_entry 0 true 0
        (NodeId.Leaf [2])).sparse_partial_keys
      ((PersistentHOTNode.mk 1 [2 ^ 63, 0, 0, 0] ([0, 1] ++ List.replicate 30 0)
          [NodeId.Leaf [0], NodeId.Leaf [1]]).with_new_entry 0 true 0
        (NodeId.Leaf [2])).len ∧
    sorted_below
      ((PersistentHOTNode.mk 1 [2 ^ 63, 0, 0, 0] ([0, 1] ++ List.replicate 30 0)
          [NodeId.Leaf [0], NodeId.Leaf [1]]).with_integrated_binode 0
        (BiNode.mk 1 (NodeId.Leaf [3]) (NodeId.Leaf [4]) 1)).sparse_partial_keys
      ((PersistentHOTNode.mk 1 [2 ^ 63, 0, 0, 0] ([0, 1] ++ List.replicate 30 0)
          [NodeId.Leaf [0], NodeId.Leaf [1]]).with_integrated_binode 0
        (BiNode.mk 1 (NodeId.Leaf [3]) (NodeId.Leaf [4]) 1)).len := by
  constructor
  · exact claim_C5.1
      (PersistentHOTNode.mk 1 [2 ^ 63, 0, 0, 0] ([0, 1] ++ List.replicate 30 0)
        [NodeId.Leaf [0], NodeId.Leaf [1]]) 0 true 0 (NodeId.Leaf [2])
      (by decide) (by decide) (by decide) (by decide)
  · exact claim_C5.2
      (PersistentHOTNode.mk 1 [2 ^ 63, 0, 0, 0] ([0, 1] ++ List.replicate 30 0)
        [NodeId.Leaf [0], NodeId.Leaf [1]]) 0
      (BiNode.mk 1 (NodeId.Leaf [3]) (NodeId.Leaf [4]) 1)
      (by decide) (by decide) (by decide) (by decide) (by decide)
      (Or.inl (by decide)) (by decide)

/-! ### Node store: backend and write-back cache (store/kvdb.rs, store/cached.rs) -/

/-- store/error.rs StoreError (string payloads omitted). -/
inductive StoreError where
  | SerializationError
  | DeserializationError
  | StorageError
  | NotFound
deriving DecidableEq, Repr

/-- store/cached.rs CacheState. -/
inductive CacheState (α : Type) where
  | Clean (v : α)
  | Dirty (v : α)
deriving DecidableEq, Repr

def CacheState.value {α : Type} : CacheState α → α
  | CacheState.Clean v => v
  | CacheState.Dirty v => v

def CacheState.is_dirty {α : Type} : CacheState α → Bool
  | CacheState.Clean _ => false
  | CacheState.Dirty _ => true

/-- Finite-map lookup on an association list (models HashMap::get). -/
def alist_lookup {α : Type} (l : List (NodeId × α)) (id : NodeId) : Option α :=
  match l.find? (fun p => p.1 == id) with
  | some p => some p.2
  | none => none

/-- Finite-map insert-or-replace on an association list (models
HashMap::insert). -/
def alist_insert {α : Type} (l : List (NodeId × α)) (id : NodeId) (v : α) :
    List (NodeId × α) :=
  (id, v) :: l.filter (fun p => p.1 ≠ id)

/-- Pure model of the kvdb-backed store (KvNodeStore): two columns of
deserialised values keyed by NodeId plus the version handle. Backend gets
and puts always succeed, as for the in-memory database the benchmarks use. -/
structure KvNodeStore where
  nodes : List (NodeId × PersistentHOTNode)
  leaves : List (NodeId × LeafData)
  version_id : Nat
deriving DecidableEq, Repr

def KvNodeStore.get_node (s : KvNodeStore) (id : NodeId) :
    Option PersistentHOTNode := alist_lookup s.nodes id

def KvNodeStore.put_node (s : KvNodeStore) (id : NodeId)
    (n : PersistentHOTNode) : KvNodeStore :=
  { s with nodes := alist_insert s.nodes id n }

def KvNodeStore.get_leaf (s : KvNodeStore) (id : NodeId) : Option LeafData :=
  alist_lookup s.leaves id

def KvNodeStore.put_leaf (s : KvNodeStore) (id : NodeId) (l : LeafData) :
    KvNodeStore :=
  { s with leaves := alist_insert s.leaves id l }

/-- Backend flush is a no-op for the in-memory database. -/
def KvNodeStore.flush (s : KvNodeStore) : KvNodeStore := s

/-- store/cached.rs CachedNodeStore: the backend plus the two write-back
caches (the hit/miss counters are pure statistics and are not modelled). -/
structure CachedNodeStore where
  inner : KvNodeStore
  node_cache : List (NodeId × CacheState PersistentHOTNode)
  leaf_cache : List (NodeId × CacheState LeafData)
deriving DecidableEq, Repr

def CachedNodeStore.new (inner : KvNodeStore) : CachedNodeStore :=
  { inner, node_cache := [], leaf_cache := [] }

/-- store/cached.rs get_node: cache first (returning the cached value), then
the backend, caching the result as Clean. -/
def CachedNodeStore.get_node (s : CachedNodeStore) (id : NodeId) :
    Option PersistentHOTNode × CachedNodeStore :=
  match alist_lookup s.node_cache id with
  | some st => (some st.value, s)
  | none =>
      match s.inner.get_node id with
      | some node =>
          (some node,
            { s with node_cache := alist_insert s.node_cache id (CacheState.Clean node) })
      | none => (none, s)

/-- store/cached.rs put_node: insert into the cache in Dirty state; always
returns Ok. -/
def CachedNodeStore.put_node (s : CachedNodeStore) (id : NodeId)
    (node : PersistentHOTNode) : Except StoreError Unit × CachedNodeStore :=
  (Except.ok (),
    { s with node_cache := alist_insert s.node_cache id (CacheState.Dirty node) })

/-- store/cached.rs get_leaf. -/
def CachedNodeStore.get_leaf (s : CachedNodeStore) (id : NodeId) :
    Option LeafData × CachedNodeStore :=
  match alist_lookup s.leaf_cache id with
  | some st => (some st.value, s)
  | none =>
      match s.inner.get_leaf id with
      | some leaf =>
          (some leaf,
            { s with leaf_cache := alist_insert s.leaf_cache id (CacheState.Clean leaf) })
      | none => (none, s)

/-- store/cached.rs put_leaf. -/
def CachedNodeStore.put_leaf (s : CachedNodeStore) (id : NodeId)
    (leaf : LeafData) : Except StoreError Unit × CachedNodeStore :=
  (Except.ok (),
    { s with leaf_cache := alist_insert s.leaf_cache id (CacheState.Dirty leaf) })

/-- store/cached.rs flush: write all Dirty nodes then all Dirty leaves to the
backend, clear both caches entirely, and flush the backend. -/
def CachedNodeStore.flush (s : CachedNodeStore) :
    Except StoreError Unit × CachedNodeStore :=
  (Except.ok (),
    { inner := KvNodeStore.flush
        (((s.leaf_cache.filter (fun p => p.2.is_dirty)).map
            (fun p => (p.1, p.2.value))).foldl (fun st p => st.put_leaf p.1 p.2)
          (((s.node_cache.filter (fun p => p.2.is_dirty)).map
              (fun p => (p.1, p.2.value))).foldl (fun st p => st.put_node p.1 p.2)
            s.inner)),
      node_cache := [], leaf_cache := [] })

/-- The value-level view of the cached store: the cache entry when present,
otherwise the backend entry. get_node returns exactly this view. -/
def CachedNodeStore.view_node (s : CachedNodeStore) (id : NodeId) :
    Option PersistentHOTNode :=
  match alist_lookup s.node_cache id with
  | some st => some st.value
  | none => s.inner.get_node id

def CachedNodeStore.view_leaf (s : CachedNodeStore) (id : NodeId) :
    Option LeafData :=
  match alist_lookup s.leaf_cache id with
  | some st => some st.value
  | none => s.inner.get_leaf id

theorem get_node_eq_view (s : CachedNodeStore) (id : NodeId) :
    (s.get_node id).1 = s.view_node id := by
  unfold CachedNodeStore.get_node CachedNodeStore.view_node
  rcases h : alist_lookup s.node_cache id with _ | st
  · rcases h2 : s.inner.get_node id with _ | n <;> simp [h2]
  · rfl

theorem get_leaf_eq_view (s : CachedNodeStore) (id : NodeId) :
    (s.get_leaf id).1 = s.view_leaf id := by
  unfold CachedNodeStore.get_leaf CachedNodeStore.view_leaf
  rcases h : alist_lookup s.leaf_cache id with _ | st
  · rcases h2 : s.inner.get_leaf id with _ | n <;> simp [h2]
  · rfl

/-! ### Association-list lemmas -/

theorem alist_lookup_insert_self {α : Type} (l : List (NodeId × α)) (id : NodeId)
    (v : α) : alist_lookup (alist_insert l id v) id = some v := by
  simp [alist_lookup, alist_insert, List.find?]

theorem find?_filter_ne {α : Type} (id id2 : NodeId) (h : id2 ≠ id) :
    ∀ l : List (NodeId × α),
    (l.filter (fun p => p.1 ≠ id)).find? (fun p => p.1 == id2) =
      l.find? (fun p => p.1 == id2) := by
  intro l
  induction l with
  | nil => rfl
  | cons a t ih =>
    by_cases ha : a.1 = id
    · have hq : ¬((a.1 == id2) = true) := by
        simp [ha]; intro e; exact h e.symm
      rw [List.filter_cons, if_neg (by simp [ha]), ih,
        @List.find?_cons_of_neg _ (fun p => p.1 == id2) a t hq]
    · rw [List.filter_cons, if_pos (by simp [ha])]
      by_cases hq : a.1 = id2
      · rw [@List.find?_cons_of_pos _ (fun p => p.1 == id2) a _ (by simp [hq]),
          @List.find?_cons_of_pos _ (fun p => p.1 == id2) a t (by simp [hq])]
      · rw [@List.find?_cons_of_neg _ (fun p => p.1 == id2) a _ (by simp [hq]),
          @List.find?_cons_of_neg _ (fun p => p.1 == id2) a t (by simp [hq]), ih]

theorem alist_lookup_insert_other {α : Type} (l : List (NodeId × α))
    (id id2 : NodeId) (v : α) (h : id2 ≠ id) :
    alist_lookup (alist_insert l id v) id2 = alist_lookup l id2 := by
  have hq : ((id, v).1 == id2) = false := by
    simp; intro e; exact h e.symm
  unfold alist_lookup alist_insert
  rw [List.find?_cons, hq]
  rw [find?_filter_ne id id2 h l]

theorem alist_lookup_mem {α : Type} (l : List (NodeId × α)) (id : NodeId) (v : α)
    (h : alist_lookup l id = some v) : (id, v) ∈ l := by
  unfold alist_lookup at h
  rcases hf : l.find? (fun p => p.1 == id) with _ | p
  · rw [hf] at h; exact absurd h (by simp)
  · rw [hf] at h
    have hp := List.find?_some hf
    have hmem := List.mem_of_find?_eq_some hf
    simp at hp h
    have : (id, v) = p := by
      cases p; simp at hp h ⊢; exact ⟨hp.symm, h.symm⟩
    rw [this]; exact hmem

/-- Folding insert-or-replace over a list whose keys all differ from id
leaves the binding of id untouched. -/
theorem foldl_alist_insert_stable {α : Type} :
    ∀ (t l0 : List (NodeId × α)) (id : NodeId) (v : α),
    (∀ p ∈ t, p.1 ≠ id) → alist_lookup l0 id = some v →
    alist_lookup (t.foldl (fun l p => alist_insert l p.1 p.2) l0) id = some v := by
  intro t
  induction t with
  | nil => intro l0 id v _ h0; exact h0
  | cons b u ih =>
    intro l0 id v hne h0
    rw [List.foldl_cons]
    refine ih _ id v (fun p hp => hne p (List.mem_cons_of_mem b hp)) ?_
    rw [alist_lookup_insert_other _ _ _ _ (fun e => hne b (List.mem_cons_self b u) e.symm)]
    exact h0

/-- Folding insert-or-replace over a list with pairwise-distinct keys makes
every pair of the list retrievable afterwards. -/
theorem foldl_alist_insert_mem {α : Type} :
    ∀ (ds l : List (NodeId × α)) (id : NodeId) (v : α),
    (ds.map Prod.fst).Nodup → (id, v) ∈ ds →
    alist_lookup (ds.foldl (fun l p => alist_insert l p.1 p.2) l) id = some v := by
  intro ds
  induction ds with
  | nil => intro l id v _ hm; exact absurd hm (by simp)
  | cons a t ih =>
    intro l id v hnd hm
    rw [List.foldl_cons]
    rw [List.map_cons] at hnd
    have hnd2 := List.nodup_cons.mp hnd
    rcases List.mem_cons.mp hm with heq | htl
    · have hid : a.1 = id := by rw [← heq]
      have hv : a.2 = v := by rw [← heq]
      refine foldl_alist_insert_stable t _ id v ?_ ?_
      · intro p hp he
        apply hnd2.1
        rw [hid, ← he]
        exact List.mem_map.mpr ⟨p, hp, rfl⟩
      · rw [← hid, ← hv]
        exact alist_lookup_insert_self l a.1 a.2
    · exact ih _ id v hnd2.2 htl

/-! ### HOTTree shell and commit (tree/core.rs) -/

/-- tree/core.rs HOTTree: the cache-wrapped store, the optional root, and the
pending-epoch version counter (the PhantomData hash marker is not modelled). -/
structure HOTTree where
  store : CachedNodeStore
  root_id : Option NodeId
  version : Nat
deriving DecidableEq, Repr

/-- tree/core.rs HOTTree::new: empty root, version 0, store wrapped in the
cache layer. -/
def HOTTree.new (inner : KvNodeStore) : HOTTree :=
  { store := CachedNodeStore.new inner, root_id := none, version := 0 }

/-- tree/core.rs commit: asserts epoch == self.version and then sets
version = epoch + 1; the assertion failure (a Rust panic) is modelled as
none. Nothing else of the tree or the store is touched. -/
def HOTTree.commit (t : HOTTree) (epoch : Nat) : Option HOTTree :=
  if epoch = t.version then some { t with version := epoch + 1 } else none

/-- C6 (amended): commit(epoch) succeeds exactly when epoch equals the
tree's current version — the permissive form of the claim is refuted by the
assertion. On success the version becomes epoch + 1 and the store (backend
version handle included) and the root are left unchanged: commit performs no
backend propagation. -/
theorem claim_C6 (t : HOTTree) (epoch : Nat) :
    (epoch = t.version →
      t.commit epoch = some { t with version := epoch + 1 }) ∧
    (epoch ≠ t.version → t.commit epoch = none) ∧
    (∀ t2, t.commit epoch = some t2 →
      t2.version = epoch + 1 ∧ t2.store = t.store ∧ t2.root_id = t.root_id) := by
  refine ⟨fun h => ?_, fun h => ?_, fun t2 h => ?_⟩
  · unfold HOTTree.commit; rw [if_pos h]
  · unfold HOTTree.commit; rw [if_neg h]
  · unfold HOTTree.commit at h
    by_cases he : epoch = t.version
    · rw [if_pos he] at h
      have := Option.some.inj h
      rw [← this]
      exact ⟨rfl, rfl, rfl⟩
    · rw [if_neg he] at h; exact absurd h (by simp)

def c6_kv : KvNodeStore := { nodes := [], leaves := [], version_id := 7 }

/-- Counterexample to the claim as stated: on a fresh tree (version 0),
commit(5) panics instead of setting version to 6, and a successful commit(0)
leaves the backend version handle exactly as it was — no propagation. -/
theorem claim_C6_counterexample :
    (HOTTree.new c6_kv).commit 5 = none ∧
    (HOTTree.new c6_kv).commit 0 =
      some { store := CachedNodeStore.new c6_kv, root_id := none, version := 1 } ∧
    c6_kv.version_id = 7 := by
  exact ⟨rfl, rfl, rfl⟩

theorem claim_C6_witness :
    ((HOTTree.new c6_kv).commit 0 =
      some { HOTTree.new c6_kv with version := 0 + 1 }) ∧
    ((HOTTree.new c6_kv).commit 3 = none) :=
  ⟨(claim_C6 (HOTTree.new c6_kv) 0).1 rfl,
   (claim_C6 (HOTTree.new c6_kv) 3).2.1 (by decide)⟩

/-- C10: put_node and put_leaf always return Ok(()), leave the backend and
the other cache untouched, record the value as Dirty under the given id, and
change no other cache entry. -/
theorem claim_C10 (s : CachedNodeStore) (id : NodeId)
    (n : PersistentHOTNode) (l : LeafData) :
    (s.put_node id n).1 = Except.ok () ∧
    (s.put_leaf id l).1 = Except.ok () ∧
    (s.put_node id n).2.inner = s.inner ∧
    (s.put_leaf id l).2.inner = s.inner ∧
    alist_lookup (s.put_node id n).2.node_cache id = some (CacheState.Dirty n) ∧
    alist_lookup (s.put_leaf id l).2.leaf_cache id = some (CacheState.Dirty l) ∧
    (s.put_node id n).2.leaf_cache = s.leaf_cache ∧
    (s.put_leaf id l).2.node_cache = s.node_cache ∧
    (∀ id2, id2 ≠ id →
      alist_lookup (s.put_node id n).2.node_cache id2 =
        alist_lookup s.node_cache id2) ∧
    (∀ id2, id2 ≠ id →
      alist_lookup (s.put_leaf id l).2.leaf_cache id2 =
        alist_lookup s.leaf_cache id2) := by
  refine ⟨rfl, rfl, rfl, rfl, ?_, ?_, rfl, rfl, ?_, ?_⟩
  · exact alist_lookup_insert_self _ _ _
  · exact alist_lookup_insert_self _ _ _
  · intro id2 h; exact alist_lookup_insert_other _ _ _ _ h
  · intro id2 h; exact alist_lookup_insert_other _ _ _ _ h

/-! ### Lookup (node/search.rs, tree/lookup.rs) -/

/-- node/types.rs SearchResult. -/
inductive SearchResult where
  | Found (index : Nat)
  | NotFound (dense_key : Nat)
deriving DecidableEq, Repr

/-- node/search.rs search: extract the dense partial key from the full key
and run simd_search over the sparse keys with the node's entry count. -/
def PersistentHOTNode.search (n : PersistentHOTNode) (key : List Nat) :
    SearchResult :=
  match simd_search n.sparse_partial_keys
      (extract_dense_partial_key n.extraction_masks key)
      (PersistentHOTNode.len n) with
  | SimdSearchResult.Found index => SearchResult.Found index
  | SimdSearchResult.NotFound =>
      SearchResult.NotFound (extract_dense_partial_key n.extraction_masks key)

/-- tree/lookup.rs lookup_internal with the cache state threaded explicitly
and a recursion-depth fuel: the outer none covers fuel exhaustion and the
Rust panic on an out-of-range child index. -/
def lookup_internalF : Nat → CachedNodeStore → NodeId → List Nat →
    Option (Except StoreError (Option (List Nat)) × CachedNodeStore)
  | 0, _, _, _ => none
  | fuel + 1, s, node_id, key =>
    let r := CachedNodeStore.get_node s node_id
    match r.1 with
    | none => some (Except.error StoreError.NotFound, r.2)
    | some node =>
      match PersistentHOTNode.search node key with
      | SearchResult.Found index =>
        match node.children[index]? with
        | none => none
        | some (NodeId.Internal raw) =>
            lookup_internalF fuel r.2 (NodeId.Internal raw) key
        | some (NodeId.Leaf raw) =>
          let r2 := CachedNodeStore.get_leaf r.2 (NodeId.Leaf raw)
          match r2.1 with
          | none => some (Except.error StoreError.NotFound, r2.2)
          | some leaf =>
            if leaf.key = key then some (Except.ok (some leaf.value), r2.2)
            else some (Except.ok none, r2.2)
      | SearchResult.NotFound _ => some (Except.ok none, r.2)

/-- tree/lookup.rs lookup: an empty root short-circuits to Ok(None),
otherwise descend from the root. -/
def HOTTree.lookup (t : HOTTree) (fuel : Nat) (key : List Nat) :
    Option (Except StoreError (Option (List Nat)) × CachedNodeStore) :=
  match t.root_id with
  | none => some (Except.ok none, t.store)
  | some root => lookup_internalF fuel t.store root key

/-! ### Cache-read stability: get_node / get_leaf never change the view -/

theorem view_node_get_node (s : CachedNodeStore) (id id2 : NodeId) :
    (s.get_node id).2.view_node id2 = s.view_node id2 := by
  unfold CachedNodeStore.get_node
  rcases h : alist_lookup s.node_cache id with _ | st
  · rcases h2 : s.inner.get_node id with _ | n
    · simp only [h, h2]
    · simp only [h, h2]
      unfold CachedNodeStore.view_node
      by_cases he : id2 = id
      · subst he
        rw [alist_lookup_insert_self, h, h2]
        rfl
      · rw [alist_lookup_insert_other _ _ _ _ he]
  · simp only [h]

theorem view_leaf_get_node (s : CachedNodeStore) (id id2 : NodeId) :
    (s.get_node id).2.view_leaf id2 = s.view_leaf id2 := by
  unfold CachedNodeStore.get_node
  rcases h : alist_lookup s.node_cache id with _ | st
  · rcases h2 : s.inner.get_node id with _ | n
    · simp only [h, h2]
    · simp only [h, h2]; rfl
  · simp only [h]

theorem view_leaf_get_leaf (s : CachedNodeStore) (id id2 : NodeId) :
    (s.get_leaf id).2.view_leaf id2 = s.view_leaf id2 := by
  unfold CachedNodeStore.get_leaf
  rcases h : alist_lookup s.leaf_cache id with _ | st
  · rcases h2 : s.inner.get_leaf id with _ | n
    · simp only [h, h2]
    · simp only [h, h2]
      unfold CachedNodeStore.view_leaf
      by_cases he : id2 = id
      · subst he
        rw [alist_lookup_insert_self, h, h2]
        rfl
      · rw [alist_lookup_insert_other _ _ _ _ he]
  · simp only [h]

/-! ### Descent relations over the store view -/

/-- Zero or more descent steps from a node id, each following the child that
node.search selects for key, through internal children only, all read through
the store's value view. -/
inductive DescendsTo (s : CachedNodeStore) (key : List Nat) :
    NodeId → NodeId → Prop where
  | refl (id : NodeId) : DescendsTo s key id id
  | step (id mid : NodeId) (node : PersistentHOTNode) (index : Nat)
      (child : NodeId)
      (hview : s.view_node id = some node)
      (hsearch : node.search key = SearchResult.Found index)
      (hchild : node.children[index]? = some child)
      (hint : child.is_internal = true)
      (hrest : DescendsTo s key child mid) : DescendsTo s key id mid

/-- The descent from id reaches, at some node along the way, a Found child
that is a leaf id. -/
def ReachesLeaf (s : CachedNodeStore) (key : List Nat)
    (id leaf_id : NodeId) : Prop :=
  ∃ mid node index, DescendsTo s key id mid ∧ s.view_node mid = some node ∧
    node.search key = SearchResult.Found index ∧
    node.children[index]? = some leaf_id ∧ leaf_id.is_leaf = true

theorem DescendsTo_congr (s1 s : CachedNodeStore) (key : List Nat)
    (hv : ∀ id2, s1.view_node id2 = s.view_node id2) :
    ∀ a b, DescendsTo s1 key a b → DescendsTo s key a b := by
  intro a b h
  induction h with
  | refl id => exact DescendsTo.refl id
  | step id mid node index child hview hsearch hchild hint hrest ih =>
    exact DescendsTo.step id mid node index child
      (by rw [← hv id]; exact hview) hsearch hchild hint ih

theorem ReachesLeaf_congr (s1 s : CachedNodeStore) (key : List Nat)
    (hv : ∀ id2, s1.view_node id2 = s.view_node id2) (a b : NodeId)
    (h : ReachesLeaf s1 key a b) : ReachesLeaf s key a b := by
  obtain ⟨mid, node, index, hd, hview, hs, hc, hl⟩ := h
  exact ⟨mid, node, index, DescendsTo_congr s1 s key hv a mid hd,
    by rw [← hv mid]; exact hview, hs, hc, hl⟩

/-! ### Flush lemmas (C7) -/

theorem foldl_put_node_nodes (ds : List (NodeId × PersistentHOTNode)) :
    ∀ st : KvNodeStore,
    (ds.foldl (fun st p => st.put_node p.1 p.2) st).nodes =
      ds.foldl (fun l p => alist_insert l p.1 p.2) st.nodes := by
  induction ds with
  | nil => intro st; rfl
  | cons a t ih => intro st; rw [List.foldl_cons, List.foldl_cons]; exact ih _

theorem foldl_put_node_leaves (ds : List (NodeId × PersistentHOTNode)) :
    ∀ st : KvNodeStore,
    (ds.foldl (fun st p => st.put_node p.1 p.2) st).leaves = st.leaves := by
  induction ds with
  | nil => intro st; rfl
  | cons a t ih => intro st; rw [List.foldl_cons]; exact ih _

theorem foldl_put_leaf_leaves (ds : List (NodeId × LeafData)) :
    ∀ st : KvNodeStore,
    (ds.foldl (fun st p => st.put_leaf p.1 p.2) st).leaves =
      ds.foldl (fun l p => alist_insert l p.1 p.2) st.leaves := by
  induction ds with
  | nil => intro st; rfl
  | cons a t ih => intro st; rw [List.foldl_cons, List.foldl_cons]; exact ih _

theorem foldl_put_leaf_nodes (ds : List (NodeId × LeafData)) :
    ∀ st : KvNodeStore,
    (ds.foldl (fun st p => st.put_leaf p.1 p.2) st).nodes = st.nodes := by
  induction ds with
  | nil => intro st; rfl
  | cons a t ih => intro st; rw [List.foldl_cons]; exact ih _

theorem flush_inner_nodes (s : CachedNodeStore) :
    s.flush.2.inner.nodes =
      ((s.node_cache.filter (fun p => p.2.is_dirty)).map
        (fun p => (p.1, p.2.value))).foldl
        (fun l p => alist_insert l p.1 p.2) s.inner.nodes := by
  show (KvNodeStore.flush _).nodes = _
  unfold CachedNodeStore.flush KvNodeStore.flush
  rw [foldl_put_leaf_nodes, foldl_put_node_nodes]

theorem flush_inner_leaves (s : CachedNodeStore) :
    s.flush.2.inner.leaves =
      ((s.leaf_cache.filter (fun p => p.2.is_dirty)).map
        (fun p => (p.1, p.2.value))).foldl
        (fun l p => alist_insert l p.1 p.2) s.inner.leaves := by
  show (KvNodeStore.flush _).leaves = _
  unfold CachedNodeStore.flush KvNodeStore.flush
  rw [foldl_put_leaf_leaves, foldl_put_node_leaves]

theorem dirty_keys_nodup {β : Type} (cache : List (NodeId × CacheState β))
    (hnd : (cache.map Prod.fst).Nodup) :
    (((cache.filter (fun p => p.2.is_dirty)).map
      (fun p => (p.1, p.2.value))).map Prod.fst).Nodup := by
  rw [List.map_map]
  have hsub : (cache.filter (fun p => p.2.is_dirty)).map
      (Prod.fst ∘ fun p => (p.1, p.2.value)) =
      (cache.filter (fun p => p.2.is_dirty)).map Prod.fst := by
    apply List.map_congr_left; intro p _; rfl
  rw [hsub]
  exact List.Nodup.sublist ((List.filter_sublist cache).map Prod.fst) hnd

theorem dirty_mem {β : Type} [DecidableEq β] (cache : List (NodeId × CacheState β))
    (id : NodeId) (v : β)
    (h : alist_lookup cache id = some (CacheState.Dirty v)) :
    (id, v) ∈ (cache.filter (fun p => p.2.is_dirty)).map
      (fun p => (p.1, p.2.value)) := by
  have hmem : (id, CacheState.Dirty v) ∈ cache := alist_lookup_mem _ _ _ h
  exact List.mem_map.mpr
    ⟨(id, CacheState.Dirty v), List.mem_filter.mpr ⟨hmem, rfl⟩, rfl⟩

/-- C7: flush returns Ok, empties both caches completely (Clean entries
included), and afterwards every entry that was Dirty in a cache is
retrievable from the backend. The caches are assumed to have no duplicate
keys, which holds for any cache built by HashMap-modelling inserts. -/
theorem claim_C7 (s : CachedNodeStore)
    (hnd : (s.node_cache.map Prod.fst).Nodup)
    (hld : (s.leaf_cache.map Prod.fst).Nodup) :
    s.flush.1 = Except.ok () ∧
    s.flush.2.node_cache = [] ∧
    s.flush.2.leaf_cache = [] ∧
    (∀ id n, alist_lookup s.node_cache id = some (CacheState.Dirty n) →
      s.flush.2.inner.get_node id = some n) ∧
    (∀ id l, alist_lookup s.leaf_cache id = some (CacheState.Dirty l) →
      s.flush.2.inner.get_leaf id = some l) := by
  refine ⟨rfl, rfl, rfl, ?_, ?_⟩
  · intro id n h
    show alist_lookup s.flush.2.inner.nodes id = some n
    rw [flush_inner_nodes]
    exact foldl_alist_insert_mem _ _ id n (dirty_keys_nodup _ hnd) (dirty_mem _ _ _ h)
  · intro id l h
    show alist_lookup s.flush.2.inner.leaves id = some l
    rw [flush_inner_leaves]
    exact foldl_alist_insert_mem _ _ id l (dirty_keys_nodup _ hld) (dirty_mem _ _ _ h)

def c7_leaf : LeafData := { key := List.replicate 32 1, value := [5] }

def c7_store : CachedNodeStore :=
  { inner := { nodes := [], leaves := [], version_id := 0 },
    node_cache :=
      [(NodeId.Internal [1], CacheState.Dirty (PersistentHOTNode.empty 2)),
       (NodeId.Internal [2], CacheState.Clean (PersistentHOTNode.empty 3))],
    leaf_cache := [(NodeId.Leaf [9], CacheState.Dirty c7_leaf)] }

/-! ### Lookup characterization (C2) -/

theorem lookup_some_sound (key : List Nat) : ∀ (fuel : Nat)
    (s : CachedNodeStore) (id : NodeId) (v : List Nat) (s2 : CachedNodeStore),
    lookup_internalF fuel s id key = some (Except.ok (some v), s2) →
    ∃ leaf_id leaf, ReachesLeaf s key id leaf_id ∧
      s.view_leaf leaf_id = some leaf ∧ leaf.key = key ∧ leaf.value = v := by
  intro fuel
  induction fuel with
  | zero =>
    intro s id v s2 h
    exact absurd h (by simp [lookup_internalF])
  | succ fuel ih =>
    intro s id v s2 h
    simp only [lookup_internalF] at h
    rcases hget : (CachedNodeStore.get_node s id).1 with _ | node
    · rw [hget] at h; exact absurd h (by simp)
    · rw [hget] at h
      simp only [] at h
      have hview : s.view_node id = some node := by
        rw [← get_node_eq_view]; exact hget
      rcases hsearch : PersistentHOTNode.search node key with ⟨index⟩ | ⟨d⟩
      · rw [hsearch] at h
        simp only [] at h
        rcases hchild : node.children[index]? with _ | child
        · rw [hchild] at h; exact absurd h (by simp)
        · rcases child with raw | raw
          · rw [hchild] at h
            simp only [] at h
            rcases hleaf : (CachedNodeStore.get_leaf
                (CachedNodeStore.get_node s id).2 (NodeId.Leaf raw)).1 with _ | leaf
            · rw [hleaf] at h; exact absurd h (by simp)
            · rw [hleaf] at h
              simp only [] at h
              by_cases hk : leaf.key = key
              · rw [if_pos hk] at h
                have hpair := (Prod.mk.injEq _ _ _ _).mp (Option.some.inj h)
                have hv : leaf.value = v :=
                  Option.some.inj (Except.ok.inj hpair.1)
                refine ⟨NodeId.Leaf raw, leaf,
                  ⟨id, node, index, DescendsTo.refl id, hview, hsearch, hchild,
                    rfl⟩, ?_, hk, hv⟩
                rw [get_leaf_eq_view, view_leaf_get_node] at hleaf
                exact hleaf
              · rw [if_neg hk] at h
                exact absurd (Option.some.inj h) (by simp)
          · rw [hchild] at h
            simp only [] at h
            obtain ⟨leaf_id, leaf, hr, hvl, hk, hv⟩ := ih _ _ v s2 h
            have hr2 : ReachesLeaf s key (NodeId.Internal raw) leaf_id :=
              ReachesLeaf_congr _ _ key
                (fun id2 => view_node_get_node s id id2) _ _ hr
            obtain ⟨mid, node2, index2, hd, hv2, hs2, hc2, hl2⟩ := hr2
            refine ⟨leaf_id, leaf,
              ⟨mid, node2, index2,
                DescendsTo.step id mid node index (NodeId.Internal raw) hview
                  hsearch hchild rfl hd, hv2, hs2, hc2, hl2⟩, ?_, hk, hv⟩
            rw [← view_leaf_get_node s id leaf_id]
            exact hvl
      · rw [hsearch] at h
        simp only [] at h
        exact absurd (Option.some.inj h) (by simp)

theorem lookup_mismatch (key : List Nat) : ∀ (fuel : Nat)
    (s : CachedNodeStore) (id leaf_id : NodeId) (leaf : LeafData)
    (res : Except StoreError (Option (List Nat))) (s2 : CachedNodeStore),
    ReachesLeaf s key id leaf_id → s.view_leaf leaf_id = some leaf →
    leaf.key ≠ key →
    lookup_internalF fuel s id key = some (res, s2) → res = Except.ok none := by
  intro fuel
  induction fuel with
  | zero =>
    intro s id leaf_id leaf res s2 _ _ _ h
    exact absurd h (by simp [lookup_internalF])
  | succ fuel ih =>
    intro s id leaf_id leaf res s2 hr hvl hk h
    obtain ⟨mid, node, index, hd, hvm, hs, hc, hl⟩ := hr
    cases hd with
    | refl =>
      simp only [lookup_internalF] at h
      have hget : (CachedNodeStore.get_node s id).1 = some node := by
        rw [get_node_eq_view]; exact hvm
      cases leaf_id with
      | Internal raw => exact absurd hl (by simp [NodeId.is_leaf])
      | Leaf raw =>
        rw [hget] at h
        simp only [] at h
        rw [hs] at h
        simp only [] at h
        rw [hc] at h
        simp only [] at h
        have hleaf : (CachedNodeStore.get_leaf
            (CachedNodeStore.get_node s id).2 (NodeId.Leaf raw)).1 = some leaf := by
          rw [get_leaf_eq_view, view_leaf_get_node]; exact hvl
        rw [hleaf] at h
        simp only [] at h
        rw [if_neg hk] at h
        exact ((Prod.mk.injEq _ _ _ _).mp (Option.some.inj h)).1.symm
    | step _ _ node2 index2 child2 hview2 hsearch2 hchild2 hint2 hrest =>
      simp only [lookup_internalF] at h
      have hget : (CachedNodeStore.get_node s id).1 = some node2 := by
        rw [get_node_eq_view]; exact hview2
      cases child2 with
      | Leaf raw => exact absurd hint2 (by simp [NodeId.is_internal])
      | Internal raw =>
        rw [hget] at h
        simp only [] at h
        rw [hsearch2] at h
        simp only [] at h
        rw [hchild2] at h
        simp only [] at h
        refine ih (CachedNodeStore.get_node s id).2 (NodeId.Internal raw)
          leaf_id leaf res s2 ?_ ?_ hk h
        · exact ReachesLeaf_congr s _ key
            (fun id2 => (view_node_get_node s id id2).symm) _ _
            ⟨mid, node, index, hrest, hvm, hs, hc, hl⟩
        · rw [view_leaf_get_node]; exact hvl

theorem lookup_notfound (key : List Nat) : ∀ (fuel : Nat)
    (s : CachedNodeStore) (id mid : NodeId) (node : PersistentHOTNode)
    (d : Nat) (res : Except StoreError (Option (List Nat)))
    (s2 : CachedNodeStore),
    DescendsTo s key id mid → s.view_node mid = some node →
    node.search key = SearchResult.NotFound d →
    lookup_internalF fuel s id key = some (res, s2) → res = Except.ok none := by
  intro fuel
  induction fuel with
  | zero =>
    intro s id mid node d res s2 _ _ _ h
    exact absurd h (by simp [lookup_internalF])
  | succ fuel ih =>
    intro s id mid node d res s2 hd hvm hs h
    cases hd with
    | refl =>
      simp only [lookup_internalF] at h
      have hget : (CachedNodeStore.get_node s id).1 = some node := by
        rw [get_node_eq_view]; exact hvm
      rw [hget] at h
      simp only [] at h
      rw [hs] at h
      simp only [] at h
      exact ((Prod.mk.injEq _ _ _ _).mp (Option.some.inj h)).1.symm
    | step _ _ node2 index2 child2 hview2 hsearch2 hchild2 hint2 hrest =>
      simp only [lookup_internalF] at h
      have hget : (CachedNodeStore.get_node s id).1 = some node2 := by
        rw [get_node_eq_view]; exact hview2
      cases child2 with
      | Leaf raw => exact absurd hint2 (by simp [NodeId.is_internal])
      | Internal raw =>
        rw [hget] at h
        simp only [] at h
        rw [hsearch2] at h
        simp only [] at h
        rw [hchild2] at h
        simp only [] at h
        refine ih (CachedNodeStore.get_node s id).2 (NodeId.Internal raw)
          mid node d res s2 ?_ ?_ hs h
        · exact DescendsTo_congr s _ key
            (fun id2 => (view_node_get_node s id id2).symm) _ _ hrest
        · rw [view_node_get_node]; exact hvm

/-- C2: lookup on an empty root returns Ok(None); a successful Some(v) result
arises only from a descent that reaches a leaf child whose full stored key
equals the query key and whose value is v; and whenever a terminating lookup
run coexists with a descent ending in a key-mismatched leaf (a sparse
partial-key false positive) or in a node whose search says NotFound, the
result is Ok(None). -/
theorem claim_C2 (t : HOTTree) (fuel : Nat) (key : List Nat) :
    (t.root_id = none → t.lookup fuel key = some (Except.ok none, t.store)) ∧
    (∀ v s2, t.lookup fuel key = some (Except.ok (some v), s2) →
      ∃ root leaf_id leaf, t.root_id = some root ∧
        ReachesLeaf t.store key root leaf_id ∧
        t.store.view_leaf leaf_id = some leaf ∧
        leaf.key = key ∧ leaf.value = v) ∧
    (∀ root leaf_id leaf res s2, t.root_id = some root →
      ReachesLeaf t.store key root leaf_id →
      t.store.view_leaf leaf_id = some leaf → leaf.key ≠ key →
      t.lookup fuel key = some (res, s2) → res = Except.ok none) ∧
    (∀ root mid node d res s2, t.root_id = some root →
      DescendsTo t.store key root mid →
      t.store.view_node mid = some node →
      node.search key = SearchResult.NotFound d →
      t.lookup fuel key = some (res, s2) → res = Except.ok none) := by
  refine ⟨fun h => ?_, fun v s2 h => ?_, ?_, ?_⟩
  · unfold HOTTree.lookup; rw [h]
  · unfold HOTTree.lookup at h
    rcases hroot : t.root_id with _ | root
    · rw [hroot] at h
      exact absurd (Except.ok.inj ((Prod.mk.injEq _ _ _ _).mp
        (Option.some.inj h)).1) (by simp)
    · rw [hroot] at h
      obtain ⟨leaf_id, leaf, hr, hvl, hk, hv⟩ :=
        lookup_some_sound key fuel t.store root v s2 h
      exact ⟨root, leaf_id, leaf, rfl, hr, hvl, hk, hv⟩
  · intro root leaf_id leaf res s2 hroot hr hvl hk h
    unfold HOTTree.lookup at h
    rw [hroot] at h
    exact lookup_mismatch key fuel t.store root leaf_id leaf res s2 hr hvl hk h
  · intro root mid node d res s2 hroot hd hvm hs h
    unfold HOTTree.lookup at h
    rw [hroot] at h
    exact lookup_notfound key fuel t.store root mid node d res s2 hd hvm hs h

def c2_key : List Nat := List.replicate 32 0

def c2_leaf : LeafData := { key := c2_key, value := [7] }

def c2_node : PersistentHOTNode :=
  { height := 1, extraction_masks := [0, 0, 0, 0],
    sparse_partial_keys := List.replicate 32 0,
    children := [NodeId.Leaf [1]] }

def c2_kv : KvNodeStore :=
  { nodes := [(NodeId.Internal [0], c2_node)],
    leaves := [(NodeId.Leaf [1], c2_leaf)], version_id := 0 }

def c2_tree : HOTTree :=
  { store := CachedNodeStore.new c2_kv,
    root_id := some (NodeId.Internal [0]), version := 0 }

def c2_s2 : CachedNodeStore :=
  ((c2_tree.lookup 2 c2_key).getD (Except.ok none, c2_tree.store)).2

theorem claim_C2_witness :
    ∃ root leaf_id leaf, c2_tree.root_id = some root ∧
      ReachesLeaf c2_tree.store c2_key root leaf_id ∧
      c2_tree.store.view_leaf leaf_id = some leaf ∧
      leaf.key = c2_key ∧ leaf.value = [7] :=
  (claim_C2 c2_tree 2 c2_key).2.1 [7] c2_s2 (by rfl)

theorem claim_C7_witness :
    ((c7_store.node_cache.map Prod.fst).Nodup ∧
      (c7_store.leaf_cache.map Prod.fst).Nodup) ∧
    (c7_store.flush.1 = Except.ok () ∧
      c7_store.flush.2.node_cache = [] ∧
      c7_store.flush.2.leaf_cache = [] ∧
      c7_store.flush.2.inner.get_node (NodeId.Internal [1]) =
        some (PersistentHOTNode.empty 2) ∧
      c7_store.flush.2.inner.get_leaf (NodeId.Leaf [9]) = some c7_leaf) := by
  have h := claim_C7 c7_store (by decide) (by decide)
  exact ⟨⟨by decide, by decide⟩, h.1, h.2.1, h.2.2.1,
    h.2.2.2.1 _ _ (by decide), h.2.2.2.2 _ _ (by decide)⟩

def c10_store : CachedNodeStore :=
  CachedNodeStore.new { nodes := [], leaves := [], version_id := 0 }

def c10_leaf : LeafData := { key := List.replicate 32 0, value := [1, 2] }

theorem claim_C10_witness :
    (c10_store.put_node (NodeId.Internal [3]) (PersistentHOTNode.empty 0)).1 = Except.ok () ∧
    (c10_store.put_leaf (NodeId.Internal [3]) c10_leaf).1 = Except.ok () ∧
    (c10_store.put_node (NodeId.Internal [3]) (PersistentHOTNode.empty 0)).2.inner = c10_store.inner ∧
    (c10_store.put_leaf (NodeId.Internal [3]) c10_leaf).2.inner = c10_store.inner ∧
    alist_lookup (c10_store.put_node (NodeId.Internal [3]) (PersistentHOTNode.empty 0)).2.node_cache
      (NodeId.Internal [3]) = some (CacheState.Dirty (PersistentHOTNode.empty 0)) ∧
    alist_lookup (c10_store.put_leaf (NodeId.Internal [3]) c10_leaf).2.leaf_cache
      (NodeId.Internal [3]) = some (CacheState.Dirty c10_leaf) ∧
    (NodeId.Leaf [4] ≠ NodeId.Internal [3] ∧
      alist_lookup (c10_store.put_node (NodeId.Internal [3]) (PersistentHOTNode.empty 0)).2.node_cache
        (NodeId.Leaf [4]) = alist_lookup c10_store.node_cache (NodeId.Leaf [4])) := by
  have h := claim_C10 c10_store (NodeId.Internal [3]) (PersistentHOTNode.empty 0) c10_leaf
  exact ⟨h.1, h.2.1, h.2.2.1, h.2.2.2.1, h.2.2.2.2.1, h.2.2.2.2.2.1,
    by decide, h.2.2.2.2.2.2.2.2.1 (NodeId.Leaf [4]) (by decide)⟩

/-! ### Serialization (node/core.rs to_bytes/from_bytes with the bincode
configuration of node/types.rs: little-endian, fixed-width integers,
trailing bytes allowed; NodeId as one discriminant byte, 0 = Internal,
1 = Leaf, followed by the 40 raw bytes; Vec with a u64 length) -/

/-- Little-endian fixed-width byte encoding of an integer (u64/u32
to_le_bytes). -/
def le_bytes : Nat → Nat → List Nat
  | 0, _ => []
  | w + 1, v => v % 256 :: le_bytes w (v / 256)

/-- Little-endian byte decoding (from_le_bytes). -/
def le_decode (bs : List Nat) : Nat := bs.foldr (fun b acc => acc * 256 + b) 0

/-- Read a w-byte little-endian integer from the front of the input. -/
def parse_le (w : Nat) (bs : List Nat) : Option (Nat × List Nat) :=
  if w ≤ bs.length then some (le_decode (bs.take w), bs.drop w) else none

/-- Read count items in sequence with the given item reader. -/
def parse_list {α : Type} (item : List Nat → Option (α × List Nat)) :
    Nat → List Nat → Option (List α × List Nat)
  | 0, bs => some ([], bs)
  | k + 1, bs =>
    match item bs with
    | none => none
    | some (a, rest) =>
      match parse_list item k rest with
      | none => none
      | some (as, rem) => some (a :: as, rem)

/-- node/types.rs Serialize for NodeId: discriminant byte then the 40 raw
bytes. -/
def nodeid_to_bytes : NodeId → List Nat
  | NodeId.Internal raw => 0 :: raw
  | NodeId.Leaf raw => 1 :: raw

/-- node/types.rs Deserialize for NodeId. -/
def nodeid_from_bytes (bs : List Nat) : Option (NodeId × List Nat) :=
  match bs with
  | [] => none
  | d :: rest =>
    if 40 ≤ rest.length then
      if d = 0 then some (NodeId.Internal (rest.take 40), rest.drop 40)
      else if d = 1 then some (NodeId.Leaf (rest.take 40), rest.drop 40)
      else none
    else none

/-- node/core.rs to_bytes: bincode of height (u8), extraction_masks (4 u64),
sparse_partial_keys (32 u32), children (u64 length then the elements). -/
def PersistentHOTNode.to_bytes (n : PersistentHOTNode) : List Nat :=
  n.height ::
    ((n.extraction_masks.map (le_bytes 8)).flatten ++
      ((n.sparse_partial_keys.map (le_bytes 4)).flatten ++
        (le_bytes 8 n.children.length ++
          (n.children.map nodeid_to_bytes).flatten)))

/-- node/core.rs from_bytes: the inverse reader of the same layout. -/
def PersistentHOTNode.from_bytes (bs : List Nat) : Option PersistentHOTNode :=
  match bs with
  | [] => none
  | h :: r0 =>
    match parse_list (parse_le 8) 4 r0 with
    | none => none
    | some (masks, r1) =>
      match parse_list (parse_le 4) 32 r1 with
      | none => none
      | some (sparse, r2) =>
        match parse_le 8 r2 with
        | none => none
        | some (clen, r3) =>
          match parse_list nodeid_from_bytes clen r3 with
          | none => none
          | some (children, _) =>
            some { height := h, extraction_masks := masks,
                   sparse_partial_keys := sparse, children := children }

/-- node/types.rs LeafData::to_bytes: the 32 key bytes then the value with a
u64 length. -/
def LeafData.to_bytes (l : LeafData) : List Nat :=
  l.key ++ (le_bytes 8 l.value.length ++ l.value)

/-- node/types.rs LeafData::from_bytes. -/
def LeafData.from_bytes (bs : List Nat) : Option LeafData :=
  if 32 ≤ bs.length then
    match parse_le 8 (bs.drop 32) with
    | none => none
    | some (vlen, r1) =>
      if vlen ≤ r1.length then
        some { key := bs.take 32, value := r1.take vlen }
      else none
  else none

/-- node/types.rs raw_bytes: the 40 raw id bytes of either constructor. -/
def NodeId.raw_bytes : NodeId → List Nat
  | NodeId.Leaf raw => raw
  | NodeId.Internal raw => raw

/-- Well-formedness of a node exactly as the Rust types enforce it: height a
u8, four u64 masks, thirty-two u32 sparse keys, a Vec-length-sized child
count, and 40-byte raw ids. -/
def node_wf (n : PersistentHOTNode) : Prop :=
  n.height < 256 ∧ n.extraction_masks.length = 4 ∧
  (∀ m ∈ n.extraction_masks, m < 2 ^ 64) ∧
  n.sparse_partial_keys.length = 32 ∧
  (∀ k ∈ n.sparse_partial_keys, k < 2 ^ 32) ∧
  n.children.length < 2 ^ 64 ∧
  (∀ c ∈ n.children, (NodeId.raw_bytes c).length = 40)

instance (n : PersistentHOTNode) : Decidable (node_wf n) := by
  unfold node_wf; infer_instance

theorem le_bytes_length : ∀ (w v : Nat), (le_bytes w v).length = w := by
  intro w
  induction w with
  | zero => intro v; rfl
  | succ w ih => intro v; simp [le_bytes, ih]

theorem le_decode_le_bytes : ∀ (w v : Nat), v < 2 ^ (8 * w) →
    le_decode (le_bytes w v) = v := by
  intro w
  induction w with
  | zero =>
    intro v hv
    interval_cases v
    rfl
  | succ w ih =>
    intro v hv
    have hdiv : v / 256 < 2 ^ (8 * w) := by
      rw [Nat.div_lt_iff_lt_mul (by norm_num)]
      calc v < 2 ^ (8 * (w + 1)) := hv
        _ = 2 ^ (8 * w) * 256 := by ring
    show le_decode (v % 256 :: le_bytes w (v / 256)) = v
    show (le_decode (le_bytes w (v / 256))) * 256 + v % 256 = v
    rw [ih _ hdiv]
    calc v / 256 * 256 + v % 256 = 256 * (v / 256) + v % 256 := by ring
      _ = v := Nat.div_add_mod v 256

theorem parse_le_append (w v : Nat) (rest : List Nat) (hv : v < 2 ^ (8 * w)) :
    parse_le w (le_bytes w v ++ rest) = some (v, rest) := by
  unfold parse_le
  rw [if_pos (by rw [List.length_append, le_bytes_length]; omega)]
  rw [List.take_left' (le_bytes_length w v), List.drop_left' (le_bytes_length w v),
    le_decode_le_bytes w v hv]

theorem parse_list_append {α : Type} (item : List Nat → Option (α × List Nat))
    (enc : α → List Nat) :
    ∀ (xs : List α) (rest : List Nat),
    (∀ a ∈ xs, ∀ r, item (enc a ++ r) = some (a, r)) →
    parse_list item xs.length ((xs.map enc).flatten ++ rest) = some (xs, rest) := by
  intro xs
  induction xs with
  | nil => intro rest _; rfl
  | cons a t ih =>
    intro rest hitem
    show parse_list item (t.length + 1) _ = _
    rw [List.map_cons, List.flatten_cons, List.append_assoc]
    unfold parse_list
    rw [hitem a (List.mem_cons_self a t) _]
    simp only []
    rw [ih rest (fun b hb r => hitem b (List.mem_cons_of_mem a hb) r)]

theorem nodeid_roundtrip (c : NodeId) (rest : List Nat)
    (h : (NodeId.raw_bytes c).length = 40) :
    nodeid_from_bytes (nodeid_to_bytes c ++ rest) = some (c, rest) := by
  cases c with
  | Leaf raw =>
    show nodeid_from_bytes (1 :: (raw ++ rest)) = _
    unfold nodeid_from_bytes
    simp only []
    have hlen : (40 : Nat) ≤ (raw ++ rest).length := by
      rw [List.length_append]
      simp [NodeId.raw_bytes] at h
      omega
    rw [if_pos hlen, if_neg (by norm_num), if_pos trivial]
    simp [NodeId.raw_bytes] at h
    rw [List.take_left' h, List.drop_left' h]
  | Internal raw =>
    show nodeid_from_bytes (0 :: (raw ++ rest)) = _
    unfold nodeid_from_bytes
    simp only []
    have hlen : (40 : Nat) ≤ (raw ++ rest).length := by
      rw [List.length_append]
      simp [NodeId.raw_bytes] at h
      omega
    rw [if_pos hlen, if_pos trivial]
    simp [NodeId.raw_bytes] at h
    rw [List.take_left' h, List.drop_left' h]

/-- C8: deserialization is a left inverse of serialization for nodes and for
leaves, under the well-formedness the Rust types guarantee. -/
theorem claim_C8 (n : PersistentHOTNode) (l : LeafData)
    (hn : node_wf n) (hk : l.key.length = 32) (hv : l.value.length < 2 ^ 64) :
    PersistentHOTNode.from_bytes (PersistentHOTNode.to_bytes n) = some n ∧
    LeafData.from_bytes (LeafData.to_bytes l) = some l := by
  obtain ⟨hh, hm4, hmv, hs32, hsv, hcl, hcr⟩ := hn
  constructor
  · show PersistentHOTNode.from_bytes (n.height :: _) = some n
    unfold PersistentHOTNode.from_bytes
    simp only []
    have h1 := hm4 ▸ parse_list_append (parse_le 8) (le_bytes 8)
      n.extraction_masks
      ((n.sparse_partial_keys.map (le_bytes 4)).flatten ++
        (le_bytes 8 n.children.length ++
          (n.children.map nodeid_to_bytes).flatten))
      (fun m hm r => parse_le_append 8 m r (by
        have := hmv m hm; norm_num at this ⊢; omega))
    rw [h1]
    simp only []
    have h2 := hs32 ▸ parse_list_append (parse_le 4) (le_bytes 4)
      n.sparse_partial_keys
      (le_bytes 8 n.children.length ++
        (n.children.map nodeid_to_bytes).flatten)
      (fun k hk2 r => parse_le_append 4 k r (by
        have := hsv k hk2; norm_num at this ⊢; omega))
    rw [h2]
    simp only []
    rw [parse_le_append 8 n.children.length _ (by norm_num at hcl ⊢; omega)]
    simp only []
    have h4 := parse_list_append nodeid_from_bytes nodeid_to_bytes
      n.children [] (fun c hc r => nodeid_roundtrip c r (hcr c hc))
    rw [List.append_nil] at h4
    rw [h4]
  · unfold LeafData.from_bytes LeafData.to_bytes
    rw [if_pos (by rw [List.length_append]; omega)]
    rw [List.drop_left' hk]
    rw [parse_le_append 8 l.value.length l.value (by norm_num at hv ⊢; omega)]
    simp only []
    rw [if_pos (le_refl _), List.take_left' hk, List.take_length]

def c8_node : PersistentHOTNode :=
  { height := 2, extraction_masks := [2 ^ 63, 0, 0, 5],
    sparse_partial_keys := List.replicate 32 3,
    children := [NodeId.Leaf (List.replicate 40 9)] }

def c8_leaf : LeafData := { key := List.replicate 32 4, value := [1, 2, 3] }

theorem claim_C8_witness :
    (node_wf c8_node ∧ c8_leaf.key.length = 32 ∧
      c8_leaf.value.length < 2 ^ 64) ∧
    (PersistentHOTNode.from_bytes (PersistentHOTNode.to_bytes c8_node) =
        some c8_node ∧
      LeafData.from_bytes (LeafData.to_bytes c8_leaf) = some c8_leaf) :=
  ⟨⟨by decide, by decide, by decide⟩,
    claim_C8 c8_node c8_leaf (by decide) (by decide) (by decide)⟩

/-! ### Insert machinery: pure node-level pieces (node/utils.rs,
node/bitmask.rs, node/core.rs, node/types.rs, node/split.rs) -/

/-- u8::leading_zeros. -/
def leading_zeros8 (x : Nat) : Nat := if x = 0 then 8 else 7 - Nat.log2 x

/-- u64::leading_zeros. -/
def leading_zeros64 (x : Nat) : Nat := if x = 0 then 64 else 63 - Nat.log2 x

/-- node/utils.rs find_first_differing_bit: first byte where the keys differ,
then the leading differing bit inside it (MSB-first); falls back to the tail
of the longer key; none when equal. -/
def find_first_differing_bit (key1 key2 : List Nat) : Option Nat :=
  let min_len := min key1.length key2.length
  match (List.range min_len).find?
      (fun i => decide (key1.getD i 0 ≠ key2.getD i 0)) with
  | some i => some (i * 8 + leading_zeros8 (key1.getD i 0 ^^^ key2.getD i 0))
  | none =>
    if key1.length ≠ key2.length then
      let longer := if key2.length < key1.length then key1 else key2
      match ((List.range longer.length).drop min_len).find?
          (fun i => decide (longer.getD i 0 ≠ 0)) with
      | some i => some (i * 8 + leading_zeros8 (longer.getD i 0))
      | none => none
    else none

/-- node/bitmask.rs first_discriminative_bit: scan the chunks for the first
nonzero mask; its highest u64 bit is the smallest key bit. -/
def fdb_go : List Nat → Nat → Option Nat
  | [], _ => none
  | m :: rest, chunk =>
    if m ≠ 0 then
      some (chunk * 64 + (63 - (63 - leading_zeros64 m)))
    else fdb_go rest (chunk + 1)

def PersistentHOTNode.first_discriminative_bit (n : PersistentHOTNode) :
    Option Nat :=
  fdb_go n.extraction_masks 0

/-- node/bitmask.rs get_root_mask. -/
def PersistentHOTNode.get_root_mask (n : PersistentHOTNode) : Nat :=
  match n.first_discriminative_bit with
  | some bit => get_mask_for_bit n.extraction_masks bit
  | none => 0

/-- node/split.rs SplitChild. -/
inductive SplitChild where
  | Existing (id : NodeId)
  | Node (node : PersistentHOTNode)
  | TwoEntryNode (discriminative_bit : Nat) (left right : NodeId)
deriving DecidableEq, Repr

/-- Writing a computed list into the leading slots of a fixed array. -/
def overlay_front (base xs : List Nat) : List Nat := xs ++ base.drop xs.length

/-- Out-of-range child access placeholder (the Rust indexings are in-bounds
panics otherwise). -/
def nid_default : NodeId := NodeId.Leaf []

/-- Modelled from the spec: the relevant discriminative bits of a partition
are the key bits on which the partition entries actually differ; in
sparse-key space this is the mask of positions where the partition's sparse
keys do not all agree (get_relevant_bits_for_indices is called by
node/split.rs but absent from the src/ snapshot). -/
def get_relevant_bits_for_indices (n : PersistentHOTNode)
    (indices : List Nat) : Nat :=
  let vals := indices.map (fun i => n.sparse_partial_keys.getD i 0)
  (vals.foldl (fun a v => a ||| v) 0) &&&
    not32 (vals.foldl (fun a v => a &&& v) (2 ^ 32 - 1))

/-- Modelled from the spec: rebuild the four extraction masks keeping only
the discriminative bits whose sparse-key position survives in relevant_bits
(rebuild_extraction_masks_from_relevant_bits is called by node/split.rs but
absent from the src/ snapshot). -/
def rebuild_extraction_masks_from_relevant_bits (n : PersistentHOTNode)
    (relevant_bits : Nat) : List Nat :=
  PersistentHOTNode.masks_from_bits
    (n.discriminative_bits.filter
      (fun b => decide (relevant_bits &&& get_mask_for_bit n.extraction_masks b ≠ 0)))

/-- node/split.rs compress_entries: single entries keep their existing child
pointer; larger partitions are rebuilt over the partition's relevant bits,
the per-slot write loop modelled as a front overlay. -/
def PersistentHOTNode.compress_entries (n : PersistentHOTNode)
    (indices : List Nat) : SplitChild :=
  if indices.length = 0 then SplitChild.Node (PersistentHOTNode.empty n.height)
  else if indices.length = 1 then
    SplitChild.Existing (n.children.getD (indices.getD 0 0) nid_default)
  else
    let relevant_bits := get_relevant_bits_for_indices n indices
    SplitChild.Node
      { height := n.height
        extraction_masks := rebuild_extraction_masks_from_relevant_bits n relevant_bits
        sparse_partial_keys := overlay_front (List.replicate 32 0)
          (indices.map (fun old_idx =>
            pext32 (n.sparse_partial_keys.getD old_idx 0) relevant_bits))
        children := indices.map (fun old_idx => n.children.getD old_idx nid_default) }

/-- node/split.rs split: partition the entries by the root bit and compress
each side (none models the span-0 panic). -/
def PersistentHOTNode.split (n : PersistentHOTNode) :
    Option (Nat × SplitChild × SplitChild) :=
  match n.first_discriminative_bit with
  | none => none
  | some disc_bit =>
    let root_mask := n.get_root_mask
    let left_indices := (List.range n.len).filter
      (fun i => decide (n.sparse_partial_keys.getD i 0 &&& root_mask = 0))
    let right_indices := (List.range n.len).filter
      (fun i => decide (n.sparse_partial_keys.getD i 0 &&& root_mask ≠ 0))
    some (disc_bit, n.compress_entries left_indices, n.compress_entries right_indices)

/-- node/split.rs compress_entries_with_binode: compress the partition,
replace child_index by bi_node.left, and insert bi_node.right at the first
following position that keeps the keys ascending (none models the
position-lookup panic). -/
def PersistentHOTNode.compress_entries_with_binode (n : PersistentHOTNode)
    (indices : List Nat) (child_index : Nat) (bi_node : BiNode) :
    Option PersistentHOTNode :=
  match indices.findIdx? (fun i => decide (i = child_index)) with
  | none => none
  | some child_pos =>
    let relevant_bits := get_relevant_bits_for_indices n indices
    let masks0 := rebuild_extraction_masks_from_relevant_bits n relevant_bits
    let new_bit := bi_node.discriminative_bit
    let new_chunk := new_bit / 64
    let bit_to_add := 1 <<< (63 - new_bit % 64)
    let is_new_bit : Bool := decide (masks0.getD new_chunk 0 &&& bit_to_add = 0)
    let new_masks :=
      if is_new_bit then
        masks0.set new_chunk (masks0.getD new_chunk 0 ||| bit_to_add)
      else masks0
    let new_bit_mask := get_mask_for_bit new_masks new_bit
    let deposit_mask :=
      if is_new_bit then
        let compressed_span := popcount relevant_bits
        let low_mask := new_bit_mask - 1
        let high_mask :=
          if 0 < compressed_span then (2 ^ compressed_span - 1) &&& not32 low_mask
          else 0
        ((high_mask <<< 1) % 2 ^ 32) ||| low_mask
      else 2 ^ 32 - 1
    let reenc := fun old_idx =>
      let compressed := pext32 (n.sparse_partial_keys.getD old_idx 0) relevant_bits
      if is_new_bit then pdep32 compressed deposit_mask else compressed
    let left_sparse := reenc child_index
    let right_sparse := left_sparse ||| new_bit_mask
    let after := indices.drop (child_pos + 1)
    let after_sparse := after.map reenc
    let rpos :=
      match after_sparse.findIdx? (fun v => decide (right_sparse < v)) with
      | some j => j
      | none => after.length
    some { height := max n.height bi_node.height
           extraction_masks := new_masks
           sparse_partial_keys := overlay_front (List.replicate 32 0)
             ((indices.take child_pos).map reenc ++ left_sparse ::
               list_insert_at after_sparse rpos right_sparse)
           children :=
             (indices.take child_pos).map (fun i => n.children.getD i nid_default) ++
               bi_node.left ::
                 list_insert_at (after.map (fun i => n.children.getD i nid_default))
                   rpos bi_node.right }

/-- node/split.rs split_with_binode: split a full parent at its root bit and
embed the BiNode on the side holding child_index. -/
def PersistentHOTNode.split_with_binode (n : PersistentHOTNode)
    (child_index : Nat) (bi_node : BiNode) :
    Option (Nat × SplitChild × SplitChild) :=
  match n.first_discriminative_bit with
  | none => none
  | some disc_bit =>
    let root_mask := n.get_root_mask
    let child_goes_right : Bool :=
      decide (n.sparse_partial_keys.getD child_index 0 &&& root_mask ≠ 0)
    let left_indices := (List.range n.len).filter
      (fun i => decide (n.sparse_partial_keys.getD i 0 &&& root_mask = 0))
    let right_indices := (List.range n.len).filter
      (fun i => decide (n.sparse_partial_keys.getD i 0 &&& root_mask ≠ 0))
    if child_goes_right then
      match n.compress_entries_with_binode right_indices child_index bi_node with
      | none => none
      | some rnode =>
        some (disc_bit, n.compress_entries left_indices, SplitChild.Node rnode)
    else
      match n.compress_entries_with_binode left_indices child_index bi_node with
      | none => none
      | some lnode =>
        some (disc_bit, SplitChild.Node lnode, n.compress_entries right_indices)

/-- node/core.rs two_leaves (none models the equal-keys panic). -/
def PersistentHOTNode.two_leaves (key1 : List Nat) (leaf_id1 : NodeId)
    (key2 : List Nat) (leaf_id2 : NodeId) : Option PersistentHOTNode :=
  match find_first_differing_bit key1 key2 with
  | none => none
  | some diff_bit =>
    let pair :=
      if !extract_bit key1 diff_bit then (leaf_id1, leaf_id2)
      else (leaf_id2, leaf_id1)
    some { height := 1
           extraction_masks := PersistentHOTNode.masks_from_bits [diff_bit]
           sparse_partial_keys := overlay_front (List.replicate 32 0) [0, 1]
           children := [pair.1, pair.2] }

/-- node/types.rs BiNode::from_existing_and_new. -/
def BiNode.from_existing_and_new (discriminative_bit : Nat)
    (existing_key : List Nat) (existing_id new_id : NodeId) (height : Nat) :
    BiNode :=
  if extract_bit existing_key discriminative_bit then
    { discriminative_bit, left := new_id, right := existing_id, height }
  else
    { discriminative_bit, left := existing_id, right := new_id, height }

/-- node/types.rs BiNode::to_two_entry_node. -/
def BiNode.to_two_entry_node (b : BiNode) : PersistentHOTNode :=
  { height := b.height
    extraction_masks := PersistentHOTNode.masks_from_bits [b.discriminative_bit]
    sparse_partial_keys := overlay_front (List.replicate 32 0) [0, 1]
    children := [b.left, b.right] }

/-- node/types.rs make_raw_id: 8 version bytes big-endian then the hash. -/
def make_raw_id (version : Nat) (content_hash : List Nat) : List Nat :=
  (le_bytes 8 version).reverse ++ content_hash

/-- node/core.rs compute_node_id, parametrized over the hash function (the
Hasher type parameter; blake3 lives outside src/): an internal id built from
the version and the hash of the node's serialization. -/
def PersistentHOTNode.compute_node_id (hash : List Nat → List Nat)
    (n : PersistentHOTNode) (version : Nat) : NodeId :=
  NodeId.Internal (make_raw_id version (hash n.to_bytes))

/-- node/types.rs LeafData::compute_node_id. -/
def LeafData.compute_node_id (hash : List Nat → List Nat) (l : LeafData)
    (version : Nat) : NodeId :=
  NodeId.Leaf (make_raw_id version (hash l.to_bytes))

/-- tree/helpers.rs find_affected_entry: last valid index whose sparse key is
covered by the dense key. -/
def find_affected_entry (node : PersistentHOTNode) (dense_key : Nat) :
    Option Nat :=
  (List.range node.len).reverse.find?
    (fun i => decide (dense_key &&& node.sparse_partial_keys.getD i 0 =
      node.sparse_partial_keys.getD i 0))

/-! ### Insert machinery: the stateful tree layer (tree/insert.rs,
tree/helpers.rs, tree/overflow.rs). Store accesses thread the tree state;
a top-level none models a Rust panic or fuel exhaustion. -/

/-- tree/core.rs InsertStackEntry; the Vec stack is modelled with its top at
the list head. -/
structure InsertStackEntry where
  node_id : NodeId
  child_index : Nat
  node : PersistentHOTNode
deriving DecidableEq, Repr

/-- self.store.put_node seen from the tree. -/
def HOTTree.tput_node (t : HOTTree) (id : NodeId) (n : PersistentHOTNode) :
    Except StoreError Unit × HOTTree :=
  let r := t.store.put_node id n
  (r.1, { t with store := r.2 })

/-- self.store.put_leaf seen from the tree. -/
def HOTTree.tput_leaf (t : HOTTree) (id : NodeId) (l : LeafData) :
    Except StoreError Unit × HOTTree :=
  let r := t.store.put_leaf id l
  (r.1, { t with store := r.2 })

/-- self.store.get_node seen from the tree (the cache fill is kept). -/
def HOTTree.tget_node (t : HOTTree) (id : NodeId) :
    Option PersistentHOTNode × HOTTree :=
  let r := t.store.get_node id
  (r.1, { t with store := r.2 })

/-- self.store.get_leaf seen from the tree. -/
def HOTTree.tget_leaf (t : HOTTree) (id : NodeId) :
    Option LeafData × HOTTree :=
  let r := t.store.get_leaf id
  (r.1, { t with store := r.2 })

/-- tree/helpers.rs get_entry_key: the full key behind a child id, descending
through first children of internal nodes; fuel bounds the descent. -/
def get_entry_key (hash : List Nat → List Nat) : Nat → HOTTree → NodeId →
    Option (Except StoreError (List Nat) × HOTTree)
  | 0, _, _ => none
  | fuel + 1, t, child =>
    match child with
    | NodeId.Leaf raw =>
      let r := t.tget_leaf (NodeId.Leaf raw)
      match r.1 with
      | none => some (Except.error StoreError.NotFound, r.2)
      | some leaf => some (Except.ok leaf.key, r.2)
    | NodeId.Internal raw =>
      let r := t.tget_node (NodeId.Internal raw)
      match r.1 with
      | none => some (Except.error StoreError.NotFound, r.2)
      | some node =>
        if 0 < node.len then
          get_entry_key hash fuel r.2 (node.children.getD 0 nid_default)
        else some (Except.error StoreError.NotFound, r.2)

/-- tree/helpers.rs get_child_height. -/
def get_child_height (t : HOTTree) (child_id : NodeId) :
    Except StoreError Nat × HOTTree :=
  match child_id.height_if_leaf with
  | some h => (Except.ok h, t)
  | none =>
    let r := t.tget_node child_id
    match r.1 with
    | none => (Except.error StoreError.NotFound, r.2)
    | some node => (Except.ok node.height, r.2)

/-- tree/helpers.rs materialize_split_child. The TwoEntryNode arm is absent
from the src/ snapshot; Modelled from the spec: its height is computed as
max(left height, right height) + 1 and the materialized node is stored. -/
def materialize_split_child (hash : List Nat → List Nat) (t : HOTTree)
    (child : SplitChild) (version : Nat) :
    Except StoreError NodeId × HOTTree :=
  match child with
  | SplitChild.Existing id => (Except.ok id, t)
  | SplitChild.Node node =>
    let id := PersistentHOTNode.compute_node_id hash node version
    let p := t.tput_node id node
    match p.1 with
    | Except.error e => (Except.error e, p.2)
    | Except.ok _ => (Except.ok id, p.2)
  | SplitChild.TwoEntryNode disc_bit left right =>
    match get_child_height t left with
    | (Except.error e, t1) => (Except.error e, t1)
    | (Except.ok lh, t1) =>
      match get_child_height t1 right with
      | (Except.error e, t2) => (Except.error e, t2)
      | (Except.ok rh, t2) =>
        let node := BiNode.to_two_entry_node
          { discriminative_bit := disc_bit, left, right, height := max lh rh + 1 }
        let id := PersistentHOTNode.compute_node_id hash node version
        let p := t2.tput_node id node
        match p.1 with
        | Except.error e => (Except.error e, p.2)
        | Except.ok _ => (Except.ok id, p.2)

/-- tree/helpers.rs materialize_split_child_with_height (TwoEntryNode arm
spec-modelled as in materialize_split_child). -/
def materialize_split_child_with_height (hash : List Nat → List Nat)
    (t : HOTTree) (child : SplitChild) (version : Nat) :
    Except StoreError (NodeId × Nat) × HOTTree :=
  match child with
  | SplitChild.Existing id =>
    match get_child_height t id with
    | (Except.error e, t1) => (Except.error e, t1)
    | (Except.ok h, t1) => (Except.ok (id, h), t1)
  | SplitChild.Node node =>
    let id := PersistentHOTNode.compute_node_id hash node version
    let p := t.tput_node id node
    match p.1 with
    | Except.error e => (Except.error e, p.2)
    | Except.ok _ => (Except.ok (id, node.height), p.2)
  | SplitChild.TwoEntryNode disc_bit left right =>
    match get_child_height t left with
    | (Except.error e, t1) => (Except.error e, t1)
    | (Except.ok lh, t1) =>
      match get_child_height t1 right with
      | (Except.error e, t2) => (Except.error e, t2)
      | (Except.ok rh, t2) =>
        let node := BiNode.to_two_entry_node
          { discriminative_bit := disc_bit, left, right, height := max lh rh + 1 }
        let id := PersistentHOTNode.compute_node_id hash node version
        let p := t2.tput_node id node
        match p.1 with
        | Except.error e => (Except.error e, p.2)
        | Except.ok _ => (Except.ok (id, node.height), p.2)

/-- tree/helpers.rs propagate_pointer_updates: pop parents, refresh the child
pointer (and the height from the stored child when present), rehash, store;
finally install the new root id. -/
def propagate_pointer_updates (hash : List Nat → List Nat) :
    List InsertStackEntry → HOTTree → NodeId → Nat →
    Except StoreError Unit × HOTTree
  | [], t, new_child_id, _ =>
    (Except.ok (), { t with root_id := some new_child_id })
  | entry :: stack, t, new_child_id, version =>
    let node1 : PersistentHOTNode :=
      { entry.node with
        children := entry.node.children.set entry.child_index new_child_id }
    let r := t.tget_node new_child_id
    let node2 :=
      match r.1 with
      | some child => { node1 with height := max node1.height (child.height + 1) }
      | none => node1
    let new_node_id := PersistentHOTNode.compute_node_id hash node2 version
    let p := r.2.tput_node new_node_id node2
    match p.1 with
    | Except.error e => (Except.error e, p.2)
    | Except.ok _ => propagate_pointer_updates hash stack p.2 new_node_id version

/-- tree/overflow.rs integrate_binode_upwards: pull the BiNode up through the
stack (parent pull up with possible re-split when heights meet, intermediate
node creation on a height gap), or install it as the new root when the stack
is exhausted. -/
def integrate_binode_upwards (hash : List Nat → List Nat) :
    List InsertStackEntry → HOTTree → BiNode → Nat →
    Option (Except StoreError NodeId × HOTTree)
  | [], t, bi_node, version =>
    let newRoot := bi_node.to_two_entry_node
    let newRootId := PersistentHOTNode.compute_node_id hash newRoot version
    let p := t.tput_node newRootId newRoot
    match p.1 with
    | Except.error e => some (Except.error e, p.2)
    | Except.ok _ =>
      some (Except.ok newRootId, { p.2 with root_id := some newRootId })
  | parent_entry :: stack, t, bi_node, version =>
    let parent := parent_entry.node
    if bi_node.height = parent.height then
      if parent.is_full then
        match parent.split_with_binode parent_entry.child_index bi_node with
        | none => none
        | some (d, l, r) =>
          match materialize_split_child_with_height hash t l version with
          | (Except.error e, t1) => some (Except.error e, t1)
          | (Except.ok lp, t1) =>
            match materialize_split_child_with_height hash t1 r version with
            | (Except.error e, t2) => some (Except.error e, t2)
            | (Except.ok rp, t2) =>
              integrate_binode_upwards hash stack t2
                { discriminative_bit := d, left := lp.1, right := rp.1,
                  height := max lp.2 rp.2 + 1 } version
      else
        let new_parent :=
          parent.with_integrated_binode parent_entry.child_index bi_node
        if new_parent.is_full then
          match new_parent.split with
          | none => none
          | some (d, l, r) =>
            match materialize_split_child_with_height hash t l version with
            | (Except.error e, t1) => some (Except.error e, t1)
            | (Except.ok lp, t1) =>
              match materialize_split_child_with_height hash t1 r version with
              | (Except.error e, t2) => some (Except.error e, t2)
              | (Except.ok rp, t2) =>
                integrate_binode_upwards hash stack t2
                  { discriminative_bit := d, left := lp.1, right := rp.1,
                    height := max lp.2 rp.2 + 1 } version
        else
          let new_parent_id :=
            PersistentHOTNode.compute_node_id hash new_parent version
          let p := t.tput_node new_parent_id new_parent
          match p.1 with
          | Except.error e => some (Except.error e, p.2)
          | Except.ok _ =>
            match propagate_pointer_updates hash stack p.2 new_parent_id version with
            | (Except.error e, t3) => some (Except.error e, t3)
            | (Except.ok _, t3) => some (Except.ok new_parent_id, t3)
    else
      let intermediate := bi_node.to_two_entry_node
      let intermediate_id :=
        PersistentHOTNode.compute_node_id hash intermediate version
      let p := t.tput_node intermediate_id intermediate
      match p.1 with
      | Except.error e => some (Except.error e, p.2)
      | Except.ok _ =>
        let new_parent : PersistentHOTNode :=
          { parent with
            children := parent.children.set parent_entry.child_index intermediate_id,
            height := max parent.height (intermediate.height + 1) }
        let new_parent_id :=
          PersistentHOTNode.compute_node_id hash new_parent version
        let q := p.2.tput_node new_parent_id new_parent
        match q.1 with
        | Except.error e => some (Except.error e, q.2)
        | Except.ok _ =>
          match propagate_pointer_updates hash stack q.2 new_parent_id version with
          | (Except.error e, t3) => some (Except.error e, t3)
          | (Except.ok _, t3) => some (Except.ok new_parent_id, t3)

/-- tree/overflow.rs insert_into_split_child_ref / insert_into_split_child:
the two mutually recursive functions fused over a sum argument so the
recursion is structural on the shared fuel (inl carries the SplitChild of
the ref form, inr the node of the direct form). The TwoEntryNode variant
does not occur on these call paths in src/ (the match there has no arm for
it); it is modelled as a panic. -/
def insert_split_go (hash : List Nat → List Nat) :
    Nat → HOTTree → Sum SplitChild PersistentHOTNode → List Nat → Nat →
    Bool → NodeId → Nat → Option (Except StoreError NodeId × HOTTree)
  | 0, _, _, _, _, _, _, _ => none
  | fuel + 1, t, Sum.inl split_child, key, orig_disc_bit, orig_new_bit_value,
      leaf_id, version =>
    match split_child with
    | SplitChild.Node node =>
      insert_split_go hash fuel t (Sum.inr node) key orig_disc_bit
        orig_new_bit_value leaf_id version
    | SplitChild.TwoEntryNode _ _ _ => none
    | SplitChild.Existing child_id =>
      match child_id with
      | NodeId.Leaf raw =>
        match get_entry_key hash (fuel + 1) t (NodeId.Leaf raw) with
        | none => none
        | some (Except.error e, t1) => some (Except.error e, t1)
        | some (Except.ok existing_key, t1) =>
          match PersistentHOTNode.two_leaves existing_key (NodeId.Leaf raw)
              key leaf_id with
          | none => none
          | some new_node =>
            let new_node_id :=
              PersistentHOTNode.compute_node_id hash new_node version
            let p := t1.tput_node new_node_id new_node
            match p.1 with
            | Except.error e => some (Except.error e, p.2)
            | Except.ok _ => some (Except.ok new_node_id, p.2)
      | NodeId.Internal raw =>
        let r := t.tget_node (NodeId.Internal raw)
        match r.1 with
        | none => some (Except.error StoreError.NotFound, r.2)
        | some child_node =>
          insert_split_go hash fuel r.2 (Sum.inr child_node) key orig_disc_bit
            orig_new_bit_value leaf_id version
  | fuel + 1, t, Sum.inr node, key, orig_disc_bit, orig_new_bit_value,
      leaf_id, version =>
    if node.len = 0 then
      let new_node := PersistentHOTNode.single_leaf leaf_id
      let new_node_id := PersistentHOTNode.compute_node_id hash new_node version
      let p := t.tput_node new_node_id new_node
      match p.1 with
      | Except.error e => some (Except.error e, p.2)
      | Except.ok _ => some (Except.ok new_node_id, p.2)
    else
      match node.search key with
      | SearchResult.Found index =>
        let new_info :=
          node.get_insert_information index orig_disc_bit orig_new_bit_value
        if 32 ≤ node.len then
          match node.split with
          | none => none
          | some (d, l, r) =>
            let goes_right := extract_bit key d
            let tgo := if goes_right then (r, l) else (l, r)
            match materialize_split_child hash t tgo.2 version with
            | (Except.error e, t1) => some (Except.error e, t1)
            | (Except.ok other_id, t1) =>
              match insert_split_go hash fuel t1 (Sum.inl tgo.1) key
                  orig_disc_bit orig_new_bit_value leaf_id version with
              | none => none
              | some (Except.error e, t2) => some (Except.error e, t2)
              | some (Except.ok target_id, t2) =>
                let fin :=
                  if goes_right then (other_id, target_id)
                  else (target_id, other_id)
                let intermediate := BiNode.to_two_entry_node
                  { discriminative_bit := d, left := fin.1, right := fin.2,
                    height := node.height }
                let intermediate_id :=
                  PersistentHOTNode.compute_node_id hash intermediate version
                let p := t2.tput_node intermediate_id intermediate
                match p.1 with
                | Except.error e => some (Except.error e, p.2)
                | Except.ok _ => some (Except.ok intermediate_id, p.2)
        else
          let new_node := node.with_new_entry_from_info new_info leaf_id
          let new_node_id :=
            PersistentHOTNode.compute_node_id hash new_node version
          let p := t.tput_node new_node_id new_node
          match p.1 with
          | Except.error e => some (Except.error e, p.2)
          | Except.ok _ => some (Except.ok new_node_id, p.2)
      | SearchResult.NotFound dense_key =>
        if 32 ≤ node.len then
          match node.split with
          | none => none
          | some (d, l, r) =>
            let goes_right := extract_bit key d
            let tgo := if goes_right then (r, l) else (l, r)
            match materialize_split_child hash t tgo.2 version with
            | (Except.error e, t1) => some (Except.error e, t1)
            | (Except.ok other_id, t1) =>
              match insert_split_go hash fuel t1 (Sum.inl tgo.1) key
                  orig_disc_bit orig_new_bit_value leaf_id version with
              | none => none
              | some (Except.error e, t2) => some (Except.error e, t2)
              | some (Except.ok target_id, t2) =>
                let fin :=
                  if goes_right then (other_id, target_id)
                  else (target_id, other_id)
                let intermediate := BiNode.to_two_entry_node
                  { discriminative_bit := d, left := fin.1, right := fin.2,
                    height := node.height }
                let intermediate_id :=
                  PersistentHOTNode.compute_node_id hash intermediate version
                let p := t2.tput_node intermediate_id intermediate
                match p.1 with
                | Except.error e => some (Except.error e, p.2)
                | Except.ok _ => some (Except.ok intermediate_id, p.2)
        else
          match find_affected_entry node dense_key with
          | none => none
          | some affected_index =>
            match get_entry_key hash (fuel + 1) t
                (node.children.getD affected_index nid_default) with
            | none => none
            | some (Except.error e, t1) => some (Except.error e, t1)
            | some (Except.ok affected_key, t1) =>
              match find_first_differing_bit affected_key key with
              | none => none
              | some diff_bit =>
                let new_node := node.with_new_entry diff_bit
                  (extract_bit key diff_bit) affected_index leaf_id
                let new_node_id :=
                  PersistentHOTNode.compute_node_id hash new_node version
                let p := t1.tput_node new_node_id new_node
                match p.1 with
                | Except.error e => some (Except.error e, p.2)
                | Except.ok _ => some (Except.ok new_node_id, p.2)

/-- tree/overflow.rs insert_into_split_child_ref (wrapper over the fused
recursion). -/
def insert_into_split_child_ref (hash : List Nat → List Nat) (fuel : Nat)
    (t : HOTTree) (split_child : SplitChild) (key : List Nat)
    (orig_disc_bit : Nat) (orig_new_bit_value : Bool) (leaf_id : NodeId)
    (version : Nat) : Option (Except StoreError NodeId × HOTTree) :=
  insert_split_go hash fuel t (Sum.inl split_child) key orig_disc_bit
    orig_new_bit_value leaf_id version

/-- tree/overflow.rs handle_overflow_normal_insert. -/
def handle_overflow_normal_insert (hash : List Nat → List Nat) (fuel : Nat)
    (t : HOTTree) (stack : List InsertStackEntry) (current_id : NodeId)
    (node : PersistentHOTNode) (key : List Nat)
    (insert_info : InsertInformation) (leaf_id : NodeId) (version : Nat) :
    Option (Except StoreError NodeId × HOTTree) :=
  match node.first_discriminative_bit with
  | none => none
  | some first_bit =>
    if insert_info.discriminative_bit ≤ first_bit then
      let pair :=
        if insert_info.new_bit_value then (current_id, leaf_id)
        else (leaf_id, current_id)
      integrate_binode_upwards hash stack t
        { discriminative_bit := insert_info.discriminative_bit,
          left := pair.1, right := pair.2, height := node.height + 1 } version
    else
      match node.split with
      | none => none
      | some (disc_bit, left_node, right_node) =>
        let goes_right := extract_bit key disc_bit
        let tgo :=
          if goes_right then (right_node, left_node)
          else (left_node, right_node)
        match materialize_split_child_with_height hash t tgo.2 version with
        | (Except.error e, t1) => some (Except.error e, t1)
        | (Except.ok op, t1) =>
          match insert_into_split_child_ref hash fuel t1 tgo.1 key
              insert_info.discriminative_bit insert_info.new_bit_value
              leaf_id version with
          | none => none
          | some (Except.error e, t2) => some (Except.error e, t2)
          | some (Except.ok new_target_id, t2) =>
            match get_child_height t2 new_target_id with
            | (Except.error e, t3) => some (Except.error e, t3)
            | (Except.ok new_target_height, t3) =>
              let fin :=
                if goes_right then (op.1, new_target_id)
                else (new_target_id, op.1)
              integrate_binode_upwards hash stack t3
                { discriminative_bit := disc_bit, left := fin.1,
                  right := fin.2,
                  height := max new_target_height op.2 + 1 } version

/-- tree/overflow.rs handle_overflow_with_stack (the seven-parameter
definition present in src/; its Step 6-7 loop is textually the
integrate_binode_upwards loop and is modelled by calling it). The orig
disc-bit placeholders are 0/false exactly as at its internal call. -/
def handle_overflow_with_stack (hash : List Nat → List Nat) (fuel : Nat)
    (t : HOTTree) (stack : List InsertStackEntry) (_current_id : NodeId)
    (node : PersistentHOTNode) (key : List Nat) (leaf_id : NodeId)
    (version : Nat) : Option (Except StoreError NodeId × HOTTree) :=
  match node.split with
  | none => none
  | some (disc_bit, left_node, right_node) =>
    let new_bit_value := extract_bit key disc_bit
    let tgo :=
      if new_bit_value then (right_node, left_node)
      else (left_node, right_node)
    match materialize_split_child_with_height hash t tgo.2 version with
    | (Except.error e, t1) => some (Except.error e, t1)
    | (Except.ok op, t1) =>
      match insert_into_split_child_ref hash fuel t1 tgo.1 key 0 false
          leaf_id version with
      | none => none
      | some (Except.error e, t2) => some (Except.error e, t2)
      | some (Except.ok new_target_id, t2) =>
        match get_child_height t2 new_target_id with
        | (Except.error e, t3) => some (Except.error e, t3)
        | (Except.ok new_target_height, t3) =>
          let fin :=
            if new_bit_value then (op.1, new_target_id)
            else (new_target_id, op.1)
          integrate_binode_upwards hash stack t3
            { discriminative_bit := disc_bit, left := fin.1, right := fin.2,
              height := max new_target_height op.2 + 1 } version

/-- tree/insert.rs normal_insert (the overflow result's NodeId is dropped to
the unit result the function signature declares). -/
def normal_insert (hash : List Nat → List Nat) (fuel : Nat) (t : HOTTree)
    (stack : List InsertStackEntry) (current_id : NodeId)
    (node : PersistentHOTNode) (key : List Nat)
    (insert_info : InsertInformation) (leaf_id : NodeId) (version : Nat) :
    Option (Except StoreError Unit × HOTTree) :=
  if 32 ≤ node.len then
    match handle_overflow_normal_insert hash fuel t stack current_id node key
        insert_info leaf_id version with
    | none => none
    | some (Except.error e, t2) => some (Except.error e, t2)
    | some (Except.ok _, t2) => some (Except.ok (), t2)
  else
    let new_node := node.with_new_entry_from_info insert_info leaf_id
    let new_node_id := PersistentHOTNode.compute_node_id hash new_node version
    let p := t.tput_node new_node_id new_node
    match p.1 with
    | Except.error e => some (Except.error e, p.2)
    | Except.ok _ =>
      some (propagate_pointer_updates hash stack p.2 new_node_id version)

/-- tree/insert.rs add_entry_to_node_with_stack. The src/ call into
handle_overflow_with_stack passes fields of a recomputed InsertInformation
that the seven-parameter definition does not accept (mixed revisions); the
call is reconciled against that definition, which recomputes everything from
the key. -/
def add_entry_to_node_with_stack (hash : List Nat → List Nat) (fuel : Nat)
    (t : HOTTree) (stack : List InsertStackEntry) (current_id : NodeId)
    (node : PersistentHOTNode) (key : List Nat) (dense_key : Nat)
    (leaf_id : NodeId) (version : Nat) :
    Option (Except StoreError Unit × HOTTree) :=
  match find_affected_entry node dense_key with
  | none => none
  | some affected_index =>
    match get_entry_key hash fuel t
        (node.children.getD affected_index nid_default) with
    | none => none
    | some (Except.error e, t1) => some (Except.error e, t1)
    | some (Except.ok affected_key, t1) =>
      match find_first_differing_bit affected_key key with
      | none => none
      | some diff_bit =>
        if 32 ≤ node.len then
          match handle_overflow_with_stack hash fuel t1 stack current_id node
              key leaf_id version with
          | none => none
          | some (Except.error e, t2) => some (Except.error e, t2)
          | some (Except.ok _, t2) => some (Except.ok (), t2)
        else
          let new_node := node.with_new_entry diff_bit
            (extract_bit key diff_bit) affected_index leaf_id
          let new_node_id :=
            PersistentHOTNode.compute_node_id hash new_node version
          let p := t1.tput_node new_node_id new_node
          match p.1 with
          | Except.error e => some (Except.error e, p.2)
          | Except.ok _ =>
            some (propagate_pointer_updates hash stack p.2 new_node_id version)

/-- tree/insert.rs leaf_pushdown_with_height_check. -/
def leaf_pushdown_with_height_check (hash : List Nat → List Nat)
    (t : HOTTree) (stack : List InsertStackEntry) (current_id : NodeId)
    (parent_node : PersistentHOTNode) (affected_index diff_bit : Nat)
    (existing_key : List Nat) (existing_leaf_id : NodeId)
    (new_key : List Nat) (new_leaf_id : NodeId) (version : Nat) :
    Option (Except StoreError Unit × HOTTree) :=
  if 1 < parent_node.height then
    match PersistentHOTNode.two_leaves existing_key existing_leaf_id new_key
        new_leaf_id with
    | none => none
    | some new_child =>
      let new_child_id :=
        PersistentHOTNode.compute_node_id hash new_child version
      let p := t.tput_node new_child_id new_child
      match p.1 with
      | Except.error e => some (Except.error e, p.2)
      | Except.ok _ =>
        let new_parent : PersistentHOTNode :=
          { parent_node with
            children := parent_node.children.set affected_index new_child_id }
        let new_parent_id :=
          PersistentHOTNode.compute_node_id hash new_parent version
        let q := p.2.tput_node new_parent_id new_parent
        match q.1 with
        | Except.error e => some (Except.error e, q.2)
        | Except.ok _ =>
          some (propagate_pointer_updates hash stack q.2 new_parent_id version)
  else
    if parent_node.len < 32 then
      let bi_node := BiNode.from_existing_and_new diff_bit existing_key
        existing_leaf_id new_leaf_id 1
      let insert_info :=
        parent_node.get_insert_information affected_index diff_bit true
      let new_node0 :=
        parent_node.with_new_entry_from_info insert_info bi_node.right
      let new_node : PersistentHOTNode :=
        { new_node0 with
          children := new_node0.children.set affected_index bi_node.left }
      let new_node_id :=
        PersistentHOTNode.compute_node_id hash new_node version
      let p := t.tput_node new_node_id new_node
      match p.1 with
      | Except.error e => some (Except.error e, p.2)
      | Except.ok _ =>
        some (propagate_pointer_updates hash stack p.2 new_node_id version)
    else
      let bi_node := BiNode.from_existing_and_new diff_bit existing_key
        existing_leaf_id new_leaf_id 1
      match integrate_binode_upwards hash
          ({ node_id := current_id, child_index := affected_index,
             node := parent_node } :: stack) t bi_node version with
      | none => none
      | some (Except.error e, t2) => some (Except.error e, t2)
      | some (Except.ok _, t2) => some (Except.ok (), t2)

/-- tree/insert.rs insert_with_stack: the Phase-1 descent loop with its
same-key replacement, leaf pushdown, recursion and normal-insert cases; fuel
bounds the descent depth. -/
def insert_with_stack (hash : List Nat → List Nat) :
    Nat → HOTTree → List InsertStackEntry → NodeId → List Nat → NodeId →
    Nat → Option (Except StoreError Unit × HOTTree)
  | 0, _, _, _, _, _, _ => none
  | fuel + 1, t, stack, current_id, key, leaf_id, version =>
    let r := t.tget_node current_id
    match r.1 with
    | none => some (Except.error StoreError.NotFound, r.2)
    | some node =>
      match node.search key with
      | SearchResult.Found index =>
        let child_ref := node.children.getD index nid_default
        match get_entry_key hash (fuel + 1) r.2 child_ref with
        | none => none
        | some (Except.error e, t2) => some (Except.error e, t2)
        | some (Except.ok affected_key, t2) =>
          if affected_key = key then
            match child_ref with
            | NodeId.Leaf _ =>
              let new_node : PersistentHOTNode :=
                { node with children := node.children.set index leaf_id }
              let new_node_id :=
                PersistentHOTNode.compute_node_id hash new_node version
              let p := t2.tput_node new_node_id new_node
              match p.1 with
              | Except.error e => some (Except.error e, p.2)
              | Except.ok _ =>
                some (propagate_pointer_updates hash stack p.2 new_node_id
                  version)
            | NodeId.Internal _ =>
              insert_with_stack hash fuel t2
                ({ node_id := current_id, child_index := index, node } :: stack)
                child_ref key leaf_id version
          else
            match find_first_differing_bit affected_key key with
            | none => none
            | some diff_bit =>
              let insert_info := node.get_insert_information index diff_bit
                (extract_bit key diff_bit)
              if insert_info.is_single_entry && child_ref.is_leaf then
                leaf_pushdown_with_height_check hash t2 stack current_id node
                  index diff_bit affected_key child_ref key leaf_id version
              else if insert_info.is_single_entry then
                insert_with_stack hash fuel t2
                  ({ node_id := current_id, child_index := index, node } ::
                    stack) child_ref key leaf_id version
              else
                normal_insert hash (fuel + 1) t2 stack current_id node key
                  insert_info leaf_id version
      | SearchResult.NotFound dense_key =>
        add_entry_to_node_with_stack hash (fuel + 1) r.2 stack current_id
          node key dense_key leaf_id version

/-- tree/insert.rs insert: store the new leaf, then either install a
single-leaf root on the empty tree or run the stack insert. -/
def HOTTree.insert (hash : List Nat → List Nat) (fuel : Nat) (t : HOTTree)
    (key value : List Nat) (version : Nat) :
    Option (Except StoreError Unit × HOTTree) :=
  let leaf : LeafData := { key, value }
  let leaf_id := LeafData.compute_node_id hash leaf version
  let p := t.tput_leaf leaf_id leaf
  match p.1 with
  | Except.error e => some (Except.error e, p.2)
  | Except.ok _ =>
    match p.2.root_id with
    | none =>
      let node := PersistentHOTNode.single_leaf leaf_id
      let node_id := PersistentHOTNode.compute_node_id hash node version
      let q := p.2.tput_node node_id node
      match q.1 with
      | Except.error e => some (Except.error e, q.2)
      | Except.ok _ => some (Except.ok (), { q.2 with root_id := some node_id })
    | some rid =>
      insert_with_stack hash fuel p.2 [] rid key leaf_id version

/-! ### Root preservation on error (C9) -/

theorem some_pair_snd {α β : Type} {a r : α} {b t2 : β}
    (h : some (a, b) = some (r, t2)) : t2 = b :=
  (((Prod.mk.injEq _ _ _ _).mp (Option.some.inj h)).2).symm

theorem snd_of_pair_eq {α β : Type} {p : α × β} {a : α} {b : β}
    (h : p = (a, b)) : p.2 = b := by rw [h]

theorem tput_node_fst (t : HOTTree) (id : NodeId) (n : PersistentHOTNode) :
    (t.tput_node id n).1 = Except.ok () := rfl

theorem tput_leaf_fst (t : HOTTree) (id : NodeId) (l : LeafData) :
    (t.tput_leaf id l).1 = Except.ok () := rfl

theorem get_entry_key_root (hash : List Nat → List Nat) :
    ∀ (fuel : Nat) (t : HOTTree) (c : NodeId)
    (r : Except StoreError (List Nat)) (t2 : HOTTree),
    get_entry_key hash fuel t c = some (r, t2) → t2.root_id = t.root_id := by
  intro fuel
  induction fuel with
  | zero => intro t c r t2 h; exact absurd h (by simp [get_entry_key])
  | succ fuel ih =>
    intro t c r t2 h
    cases c with
    | Leaf raw =>
      simp only [get_entry_key] at h
      split at h <;>
        (have hs := some_pair_snd h; subst hs; rfl)
    | Internal raw =>
      simp only [get_entry_key] at h
      split at h
      · have hs := some_pair_snd h; subst hs; rfl
      · split at h
        · exact ih (t.tget_node (NodeId.Internal raw)).2 _ r t2 h
        · have hs := some_pair_snd h; subst hs; rfl

theorem get_child_height_root (t : HOTTree) (c : NodeId) :
    (get_child_height t c).2.root_id = t.root_id := by
  cases c with
  | Leaf raw => rfl
  | Internal raw =>
    simp only [get_child_height, NodeId.height_if_leaf]
    rcases h : (t.tget_node (NodeId.Internal raw)).1 with _ | node <;> rfl

theorem materialize_root (hash : List Nat → List Nat) (t : HOTTree)
    (c : SplitChild) (v : Nat) :
    (materialize_split_child hash t c v).2.root_id = t.root_id := by
  unfold materialize_split_child
  cases c with
  | Existing id =>
    rfl
  | Node node =>
    simp only [tput_node_fst]
    rfl
  | TwoEntryNode d l r =>
    simp only []
    split
    · rename_i e t1 heq
      rw [← snd_of_pair_eq heq, get_child_height_root]
    · rename_i lh t1 heq
      split
      · rename_i e t2 heq2
        rw [← snd_of_pair_eq heq2, ← snd_of_pair_eq heq,
          get_child_height_root, get_child_height_root]
      · rename_i rh t2 heq2
        simp only [tput_node_fst]
        show t2.root_id = t.root_id
        rw [← snd_of_pair_eq heq2, ← snd_of_pair_eq heq,
          get_child_height_root, get_child_height_root]

theorem materialize_h_root (hash : List Nat → List Nat) (t : HOTTree)
    (c : SplitChild) (v : Nat) :
    (materialize_split_child_with_height hash t c v).2.root_id = t.root_id := by
  unfold materialize_split_child_with_height
  cases c with
  | Existing id =>
    simp only []
    split
    · rename_i e t1 heq
      rw [← snd_of_pair_eq heq, get_child_height_root]
    · rename_i h t1 heq
      rw [← snd_of_pair_eq heq, get_child_height_root]
  | Node node =>
    simp only [tput_node_fst]
    rfl
  | TwoEntryNode d l r =>
    simp only []
    split
    · rename_i e t1 heq
      rw [← snd_of_pair_eq heq, get_child_height_root]
    · rename_i lh t1 heq
      split
      · rename_i e t2 heq2
        rw [← snd_of_pair_eq heq2, ← snd_of_pair_eq heq,
          get_child_height_root, get_child_height_root]
      · rename_i rh t2 heq2
        simp only [tput_node_fst]
        show t2.root_id = t.root_id
        rw [← snd_of_pair_eq heq2, ← snd_of_pair_eq heq,
          get_child_height_root, get_child_height_root]

theorem propagate_root (hash : List Nat → List Nat) :
    ∀ (stack : List InsertStackEntry) (t : HOTTree) (id : NodeId) (v : Nat)
    (e : StoreError),
    (propagate_pointer_updates hash stack t id v).1 = Except.error e →
    (propagate_pointer_updates hash stack t id v).2.root_id = t.root_id := by
  intro stack
  induction stack with
  | nil =>
    intro t id v e h
    exact absurd h (by simp [propagate_pointer_updates])
  | cons entry rest ih =>
    intro t id v e h
    simp only [propagate_pointer_updates, tput_node_fst] at h ⊢
    exact (ih _ _ v e h).trans rfl

theorem integrate_root (hash : List Nat → List Nat) :
    ∀ (stack : List InsertStackEntry) (t : HOTTree) (b : BiNode) (v : Nat)
    (e : StoreError) (t2 : HOTTree),
    integrate_binode_upwards hash stack t b v = some (Except.error e, t2) →
    t2.root_id = t.root_id := by
  intro stack
  induction stack with
  | nil =>
    intro t b v e t2 h
    simp only [integrate_binode_upwards, tput_node_fst] at h
    simp at h
  | cons entry rest ih =>
    intro t b v e t2 h
    simp only [integrate_binode_upwards, tput_node_fst] at h
    split at h
    · split at h
      · -- full parent: split_with_binode then two materializations
        split at h
        · exact absurd h (by simp)
        · rename_i d l r heqsp
          split at h
          · rename_i e1 t1 heqm
            have hs := some_pair_snd h; subst hs
            rw [← snd_of_pair_eq heqm, materialize_h_root]
          · rename_i lp t1 heqm
            split at h
            · rename_i e2 tx heqm2
              have hs := some_pair_snd h; subst hs
              rw [← snd_of_pair_eq heqm2, materialize_h_root,
                ← snd_of_pair_eq heqm, materialize_h_root]
            · rename_i rp tx heqm2
              refine (ih _ _ v e t2 h).trans ?_
              rw [← snd_of_pair_eq heqm2, materialize_h_root,
                ← snd_of_pair_eq heqm, materialize_h_root]
      · -- parent not full: integrate, then either re-split or store+propagate
        split at h
        · split at h
          · exact absurd h (by simp)
          · rename_i d l r heqsp
            split at h
            · rename_i e1 t1 heqm
              have hs := some_pair_snd h; subst hs
              rw [← snd_of_pair_eq heqm, materialize_h_root]
            · rename_i lp t1 heqm
              split at h
              · rename_i e2 tx heqm2
                have hs := some_pair_snd h; subst hs
                rw [← snd_of_pair_eq heqm2, materialize_h_root,
                  ← snd_of_pair_eq heqm, materialize_h_root]
              · rename_i rp tx heqm2
                refine (ih _ _ v e t2 h).trans ?_
                rw [← snd_of_pair_eq heqm2, materialize_h_root,
                  ← snd_of_pair_eq heqm, materialize_h_root]
        · split at h
          · rename_i e1 t3 heqp
            have hs := some_pair_snd h; subst hs
            rw [← snd_of_pair_eq heqp]
            exact (propagate_root hash rest _ _ v e1
              (congrArg Prod.fst heqp)).trans rfl
          · exact absurd h (by simp)
    · -- height gap: intermediate node then store+propagate
      split at h
      · rename_i e1 t3 heqp
        have hs := some_pair_snd h; subst hs
        rw [← snd_of_pair_eq heqp]
        exact (propagate_root hash rest _ _ v e1
          (congrArg Prod.fst heqp)).trans rfl
      · exact absurd h (by simp)

theorem insert_split_go_root (hash : List Nat → List Nat) :
    ∀ (fuel : Nat) (t : HOTTree) (arg : Sum SplitChild PersistentHOTNode)
    (key : List Nat) (ob : Nat) (obv : Bool) (lid : NodeId) (v : Nat)
    (r : Except StoreError NodeId) (t2 : HOTTree),
    insert_split_go hash fuel t arg key ob obv lid v = some (r, t2) →
    t2.root_id = t.root_id := by
  intro fuel
  induction fuel with
  | zero =>
    intro t arg key ob obv lid v r t2 h
    exact absurd h (by simp [insert_split_go])
  | succ fuel ih =>
    intro t arg key ob obv lid v r t2 h
    cases arg with
    | inl sc =>
      cases sc with
      | Node node =>
        simp only [insert_split_go] at h
        exact ih _ _ key ob obv lid v r t2 h
      | TwoEntryNode d l rr =>
        simp only [insert_split_go] at h
        exact absurd h (by simp)
      | Existing cid =>
        cases cid with
        | Leaf raw =>
          simp only [insert_split_go, tput_node_fst] at h
          split at h
          · exact absurd h (by simp)
          · rename_i e1 t1 heqk
            have hs := some_pair_snd h; subst hs
            exact get_entry_key_root hash _ _ _ _ _ heqk
          · rename_i k1 t1 heqk
            split at h
            · exact absurd h (by simp)
            · rename_i new_node heqtl
              have hs := some_pair_snd h; subst hs
              exact get_entry_key_root hash _ _ _ _ t1 heqk
        | Internal raw =>
          simp only [insert_split_go] at h
          split at h
          · have hs := some_pair_snd h; subst hs; rfl
          · exact (ih _ _ key ob obv lid v r t2 h).trans rfl
    | inr node =>
      simp only [insert_split_go, tput_node_fst] at h
      split at h
      · have hs := some_pair_snd h; subst hs; rfl
      · split at h
        · -- Found branch
          split at h
          · -- overflow: split then recurse
            split at h
            · exact absurd h (by simp)
            · rename_i d l rr heqsp
              split at h
              · rename_i e1 t1 heqm
                have hs := some_pair_snd h; subst hs
                rw [← snd_of_pair_eq heqm, materialize_root]
              · rename_i oid t1 heqm
                split at h
                · exact absurd h (by simp)
                · rename_i e2 tx heqr
                  have hs := some_pair_snd h; subst hs
                  refine (ih _ _ key ob obv lid v _ _ heqr).trans ?_
                  rw [← snd_of_pair_eq heqm, materialize_root]
                · rename_i tid tx heqr
                  have hs := some_pair_snd h; subst hs
                  refine (ih _ _ key ob obv lid v _ _ heqr).trans ?_
                  rw [← snd_of_pair_eq heqm, materialize_root]
          · -- plain with_new_entry_from_info
            have hs := some_pair_snd h; subst hs; rfl
        · -- NotFound branch
          split at h
          · -- overflow: split then recurse
            split at h
            · exact absurd h (by simp)
            · rename_i d l rr heqsp
              split at h
              · rename_i e1 t1 heqm
                have hs := some_pair_snd h; subst hs
                rw [← snd_of_pair_eq heqm, materialize_root]
              · rename_i oid t1 heqm
                split at h
                · exact absurd h (by simp)
                · rename_i e2 tx heqr
                  have hs := some_pair_snd h; subst hs
                  refine (ih _ _ key ob obv lid v _ _ heqr).trans ?_
                  rw [← snd_of_pair_eq heqm, materialize_root]
                · rename_i tid tx heqr
                  have hs := some_pair_snd h; subst hs
                  refine (ih _ _ key ob obv lid v _ _ heqr).trans ?_
                  rw [← snd_of_pair_eq heqm, materialize_root]
          · -- with_new_entry path
            split at h
            · exact absurd h (by simp)
            · rename_i aidx heqa
              split at h
              · exact absurd h (by simp)
              · rename_i e1 t1 heqk
                have hs := some_pair_snd h; subst hs
                exact get_entry_key_root hash _ _ _ _ _ heqk
              · rename_i akey t1 heqk
                split at h
                · exact absurd h (by simp)
                · rename_i diff heqd
                  have hs := some_pair_snd h; subst hs
                  exact get_entry_key_root hash _ _ _ _ t1 heqk

theorem honi_root (hash : List Nat → List Nat) (fuel : Nat) (t : HOTTree)
    (stack : List InsertStackEntry) (cid : NodeId) (node : PersistentHOTNode)
    (key : List Nat) (info : InsertInformation) (lid : NodeId) (v : Nat)
    (e : StoreError) (t2 : HOTTree)
    (h : handle_overflow_normal_insert hash fuel t stack cid node key info
      lid v = some (Except.error e, t2)) : t2.root_id = t.root_id := by
  simp only [handle_overflow_normal_insert, tput_node_fst] at h
  split at h
  · exact absurd h (by simp)
  · rename_i first_bit heqf
    split at h
    · exact integrate_root hash stack t _ v e t2 h
    · split at h
      · exact absurd h (by simp)
      · rename_i d ln rn heqsp
        split at h
        · rename_i e1 t1 heqm
          have hs := some_pair_snd h; subst hs
          rw [← snd_of_pair_eq heqm, materialize_h_root]
        · rename_i op t1 heqm
          split at h
          · exact absurd h (by simp)
          · rename_i e2 tx heqr
            have hs := some_pair_snd h; subst hs
            refine (insert_split_go_root hash fuel _ _ key _ _ lid v _ _ heqr).trans ?_
            rw [← snd_of_pair_eq heqm, materialize_h_root]
          · rename_i tid tx heqr
            split at h
            · rename_i e3 t3 heqh
              have hs := some_pair_snd h; subst hs
              rw [← snd_of_pair_eq heqh, get_child_height_root]
              refine (insert_split_go_root hash fuel _ _ key _ _ lid v _ _ heqr).trans ?_
              rw [← snd_of_pair_eq heqm, materialize_h_root]
            · rename_i h3 t3 heqh
              refine (integrate_root hash stack _ _ v e t2 h).trans ?_
              rw [← snd_of_pair_eq heqh, get_child_height_root]
              refine (insert_split_go_root hash fuel _ _ key _ _ lid v _ _ heqr).trans ?_
              rw [← snd_of_pair_eq heqm, materialize_h_root]

theorem hows_root (hash : List Nat → List Nat) (fuel : Nat) (t : HOTTree)
    (stack : List InsertStackEntry) (cid : NodeId) (node : PersistentHOTNode)
    (key : List Nat) (lid : NodeId) (v : Nat) (e : StoreError) (t2 : HOTTree)
    (h : handle_overflow_with_stack hash fuel t stack cid node key lid v =
      some (Except.error e, t2)) : t2.root_id = t.root_id := by
  simp only [handle_overflow_with_stack, tput_node_fst] at h
  split at h
  · exact absurd h (by simp)
  · rename_i d ln rn heqsp
    split at h
    · rename_i e1 t1 heqm
      have hs := some_pair_snd h; subst hs
      rw [← snd_of_pair_eq heqm, materialize_h_root]
    · rename_i op t1 heqm
      split at h
      · exact absurd h (by simp)
      · rename_i e2 tx heqr
        have hs := some_pair_snd h; subst hs
        refine (insert_split_go_root hash fuel _ _ key _ _ lid v _ _ heqr).trans ?_
        rw [← snd_of_pair_eq heqm, materialize_h_root]
      · rename_i tid tx heqr
        split at h
        · rename_i e3 t3 heqh
          have hs := some_pair_snd h; subst hs
          rw [← snd_of_pair_eq heqh, get_child_height_root]
          refine (insert_split_go_root hash fuel _ _ key _ _ lid v _ _ heqr).trans ?_
          rw [← snd_of_pair_eq heqm, materialize_h_root]
        · rename_i h3 t3 heqh
          refine (integrate_root hash stack _ _ v e t2 h).trans ?_
          rw [← snd_of_pair_eq heqh, get_child_height_root]
          refine (insert_split_go_root hash fuel _ _ key _ _ lid v _ _ heqr).trans ?_
          rw [← snd_of_pair_eq heqm, materialize_h_root]

theorem normal_insert_root (hash : List Nat → List Nat) (fuel : Nat)
    (t : HOTTree) (stack : List InsertStackEntry) (cid : NodeId)
    (node : PersistentHOTNode) (key : List Nat) (info : InsertInformation)
    (lid : NodeId) (v : Nat) (e : StoreError) (t2 : HOTTree)
    (h : normal_insert hash fuel t stack cid node key info lid v =
      some (Except.error e, t2)) : t2.root_id = t.root_id := by
  simp only [normal_insert, tput_node_fst] at h
  split at h
  · split at h
    · exact absurd h (by simp)
    · rename_i e2 tx heqo
      have hs := some_pair_snd h; subst hs
      exact honi_root hash fuel t stack cid node key info lid v e2 _ heqo
    · exact absurd h (by simp)
  · have hp := Option.some.inj h
    rw [← snd_of_pair_eq hp]
    exact (propagate_root hash stack _ _ v e (congrArg Prod.fst hp)).trans rfl

theorem add_entry_root (hash : List Nat → List Nat) (fuel : Nat)
    (t : HOTTree) (stack : List InsertStackEntry) (cid : NodeId)
    (node : PersistentHOTNode) (key : List Nat) (dense_key : Nat)
    (lid : NodeId) (v : Nat) (e : StoreError) (t2 : HOTTree)
    (h : add_entry_to_node_with_stack hash fuel t stack cid node key
      dense_key lid v = some (Except.error e, t2)) :
    t2.root_id = t.root_id := by
  simp only [add_entry_to_node_with_stack, tput_node_fst] at h
  split at h
  · exact absurd h (by simp)
  · rename_i aidx heqa
    split at h
    · exact absurd h (by simp)
    · rename_i e1 t1 heqk
      have hs := some_pair_snd h; subst hs
      exact get_entry_key_root hash _ _ _ _ _ heqk
    · rename_i akey t1 heqk
      have hroot1 : t1.root_id = t.root_id :=
        get_entry_key_root hash _ _ _ _ t1 heqk
      split at h
      · exact absurd h (by simp)
      · rename_i diff heqd
        split at h
        · split at h
          · exact absurd h (by simp)
          · rename_i e2 tx heqo
            have hs := some_pair_snd h; subst hs
            exact (hows_root hash fuel t1 stack cid node key lid v e2 _
              heqo).trans hroot1
          · exact absurd h (by simp)
        · have hp := Option.some.inj h
          rw [← snd_of_pair_eq hp]
          exact (propagate_root hash stack _ _ v e
            (congrArg Prod.fst hp)).trans hroot1

theorem leaf_pushdown_root (hash : List Nat → List Nat) (t : HOTTree)
    (stack : List InsertStackEntry) (cid : NodeId)
    (parent_node : PersistentHOTNode) (aidx diff_bit : Nat)
    (ekey : List Nat) (elid : NodeId) (nkey : List Nat) (nlid : NodeId)
    (v : Nat) (e : StoreError) (t2 : HOTTree)
    (h : leaf_pushdown_with_height_check hash t stack cid parent_node aidx
      diff_bit ekey elid nkey nlid v = some (Except.error e, t2)) :
    t2.root_id = t.root_id := by
  simp only [leaf_pushdown_with_height_check, tput_node_fst] at h
  split at h
  · split at h
    · exact absurd h (by simp)
    · rename_i nc heqtl
      have hp := Option.some.inj h
      rw [← snd_of_pair_eq hp]
      exact (propagate_root hash stack _ _ v e (congrArg Prod.fst hp)).trans rfl
  · split at h
    · have hp := Option.some.inj h
      rw [← snd_of_pair_eq hp]
      exact (propagate_root hash stack _ _ v e (congrArg Prod.fst hp)).trans rfl
    · split at h
      · exact absurd h (by simp)
      · rename_i e2 tx heqi
        have hs := some_pair_snd h; subst hs
        exact integrate_root hash _ t _ v e2 _ heqi
      · exact absurd h (by simp)

theorem insert_with_stack_root (hash : List Nat → List Nat) :
    ∀ (fuel : Nat) (t : HOTTree) (stack : List InsertStackEntry)
    (cid : NodeId) (key : List Nat) (lid : NodeId) (v : Nat) (e : StoreError)
    (t2 : HOTTree),
    insert_with_stack hash fuel t stack cid key lid v =
      some (Except.error e, t2) → t2.root_id = t.root_id := by
  intro fuel
  induction fuel with
  | zero =>
    intro t stack cid key lid v e t2 h
    exact absurd h (by simp [insert_with_stack])
  | succ fuel ih =>
    intro t stack cid key lid v e t2 h
    simp only [insert_with_stack, tput_node_fst] at h
    split at h
    · have hs := some_pair_snd h; subst hs; rfl
    · rename_i node heqn
      split at h
      · rename_i index heqsr
        split at h
        · exact absurd h (by simp)
        · rename_i e1 tk heqk
          have hs := some_pair_snd h; subst hs
          exact (get_entry_key_root hash (fuel + 1) _ _ _ _ heqk).trans rfl
        · rename_i akey tk heqk
          have hroot_tk : tk.root_id = t.root_id :=
            (get_entry_key_root hash _ _ _ _ tk heqk).trans rfl
          split at h
          · split at h
            · rename_i raw heqc
              have hp := Option.some.inj h
              rw [← snd_of_pair_eq hp]
              exact (propagate_root hash stack _ _ v e
                (congrArg Prod.fst hp)).trans hroot_tk
            · rename_i raw heqc
              exact (ih tk _ _ key lid v e t2 h).trans hroot_tk
          · split at h
            · exact absurd h (by simp)
            · rename_i diff heqd
              split at h
              · exact (leaf_pushdown_root hash tk stack cid node index diff
                  akey _ key lid v e t2 h).trans hroot_tk
              · split at h
                · exact (ih tk _ _ key lid v e t2 h).trans hroot_tk
                · exact (normal_insert_root hash (fuel + 1) tk stack cid node
                    key _ lid v e t2 h).trans hroot_tk
      · rename_i dense heqsr
        exact (add_entry_root hash (fuel + 1) _ stack cid node key dense lid
          v e t2 h).trans rfl

/-- C9: whenever insert returns an error result, the tree it leaves behind
has the same root id as before the call; every assignment to root_id in the
insert machinery happens only immediately before a successful return. -/
theorem claim_C9 (hash : List Nat → List Nat) (fuel : Nat) (t : HOTTree)
    (key value : List Nat) (version : Nat) (e : StoreError) (t2 : HOTTree)
    (h : HOTTree.insert hash fuel t key value version =
      some (Except.error e, t2)) : t2.root_id = t.root_id := by
  simp only [HOTTree.insert, tput_leaf_fst, tput_node_fst] at h
  split at h
  · exact absurd h (by simp)
  · rename_i rid heqr
    exact (insert_with_stack_root hash fuel _ _ _ key _ version e t2 h).trans rfl

def c9_tree : HOTTree :=
  { store := CachedNodeStore.new { nodes := [], leaves := [], version_id := 0 },
    root_id := some (NodeId.Internal (List.replicate 40 1)), version := 0 }

def c9_hash : List Nat → List Nat := fun _ => List.replicate 32 0

def c9_t2 : HOTTree :=
  ((HOTTree.insert c9_hash 4 c9_tree (List.replicate 32 0) [1] 0).getD
    (Except.ok (), c9_tree)).2

theorem claim_C9_witness :
    HOTTree.insert c9_hash 4 c9_tree (List.replicate 32 0) [1] 0 =
      some (Except.error StoreError.NotFound, c9_t2) ∧
    c9_t2.root_id = c9_tree.root_id :=
  ⟨rfl, claim_C9 c9_hash 4 c9_tree (List.replicate 32 0) [1] 0
    StoreError.NotFound c9_t2 rfl⟩

end HotSpec
